import Mathlib

/-!
Gryt SFU (sfu-v2): room registry, track registry and signaling coordinator

A shallow embedding of `internal/room/manager.go`, `internal/room/cleanup.go`,
`internal/track/manager.go`, `internal/signaling/coordinator.go` and of the admission
of a client and the RTP forwarder of `internal/websocket/handler_join.go`.

* A Go map is a finite map with unique string keys in some enumeration order, and a
  loop over a map visits its entries in that order.
* A `*webrtc.PeerConnection` is an address; the state of the connection objects is a
  heap, which the coordinator changes and the registries do not.
* Of pion only what the coordinator calls is modelled: a successful `RemoveTrack`
  leaves the sender without track, a successful `AddTrack` adds a sender carrying the
  track, a successful `SetLocalDescription` of an offer moves a stable connection to
  have-local-offer.  Which calls fail is given by a `signaling.Library`, a function of
  the state of the connection and of the arguments.
* `time.Now()` is a parameter; locks and log output are left out;
  `recovery.SafeExecuteWithContext` returns the error of the function it wraps.
-/

/-- A Go `map[string]V`: unique keys, some enumeration order. -/
abbrev GoMap (V : Type) : Type := AList (fun _ : String => V)

/-- A `time.Time` reading and a `time.Duration`, in nanoseconds. -/
abbrev Time : Type := Int

/-- Values of Go's `error` built in the modelled packages; `library` is an error
handed back by pion, the JSON encoder or the websocket connection. -/
inductive GoError where
  | alreadyRegistered (serverID : String)
  | roomExistsForDifferentServer (roomID : String)
  | serverNotRegistered (serverID : String)
  | invalidServerPassword (serverID : String)
  | roomNotOfServer (roomID serverID : String)
  | roomDoesNotExist (roomID : String)
  | peerConnectionNil (clientID : String)
  | websocketNil (clientID : String)
  | syncHadErrors (syncErrors peers : Nat)
  | invalidWebSocketType (clientID : String)
  | library (msg : String)
  | serverFull (currentPeers maxPeers : Int)
  deriving DecidableEq, Repr

/-- The text of an error, as `fmt.Errorf` formats it. -/
def GoError.Error : GoError → String
  | .alreadyRegistered serverID =>
      "server " ++ serverID ++ " already registered with different password"
  | .roomExistsForDifferentServer roomID =>
      "room " ++ roomID ++ " already exists for different server"
  | .serverNotRegistered serverID => "server " ++ serverID ++ " not registered"
  | .invalidServerPassword serverID => "invalid server password for server " ++ serverID
  | .roomNotOfServer roomID serverID =>
      "room " ++ roomID ++ " does not belong to server " ++ serverID
  | .roomDoesNotExist roomID => "room " ++ roomID ++ " does not exist"
  | .peerConnectionNil clientID => "peer connection is nil for client " ++ clientID
  | .websocketNil clientID => "websocket connection is nil for client " ++ clientID
  | .syncHadErrors syncErrors peers =>
      "sync had " ++ toString syncErrors ++ " errors out of " ++ toString peers ++ " peers"
  | .invalidWebSocketType clientID => "invalid WebSocket connection type for client " ++ clientID
  | .library msg => msg
  | .serverFull currentPeers maxPeers =>
      "server full: " ++ toString currentPeers ++ "/" ++ toString maxPeers

namespace types

/-- The envelope of `pkg/types/messages.go`. -/
structure WebSocketMessage where
  Event : String
  Data : String
  deriving DecidableEq, Repr

/-- The event name of an offer. -/
def EventOffer : String := "offer"

/-- The event name of a success reply. -/
def EventRoomJoined : String := "room_joined"

/-- The event name of an error reply. -/
def EventRoomError : String := "room_error"

/-- The payload of a `client_join` message. -/
structure ClientJoinData where
  RoomID : String
  ServerID : String
  ServerPassword : String
  UserToken : String
  deriving DecidableEq, Repr

end types

namespace webrtc

/-- The signaling states of pion's `SignalingState`. -/
inductive SignalingState where
  | Stable
  | HaveLocalOffer
  | HaveRemoteOffer
  | HaveLocalPranswer
  | HaveRemotePranswer
  | Closed
  deriving DecidableEq, Repr

/-- The connection states of pion's `PeerConnectionState`. -/
inductive PeerConnectionState where
  | New
  | Connecting
  | Connected
  | Disconnected
  | Failed
  | Closed
  deriving DecidableEq, Repr

/-- A local forwarding track: what `ID()` and `StreamID()` return, and its codec. -/
structure TrackLocalStaticRTP where
  id : String
  streamID : String
  codec : String
  deriving DecidableEq, Repr

/-- A remote (published) track. -/
structure TrackRemote where
  id : String
  streamID : String
  codec : String
  deriving DecidableEq, Repr

/-- An `RTPSender`; `Track()` is nil once the sender has been removed. -/
structure RTPSender where
  track : Option TrackLocalStaticRTP
  deriving DecidableEq, Repr

/-- An `RTPReceiver`; `Track()` may be nil. -/
structure RTPReceiver where
  track : Option TrackRemote
  deriving DecidableEq, Repr

/-- A session description (an offer, for the coordinator). -/
structure SessionDescription where
  sdp : String
  deriving DecidableEq, Repr

/-- The state of a pion `PeerConnection` the coordinator reads and changes:
`GetSenders()` and `GetReceivers()` are slices of pointers, a nil pointer is `none`. -/
structure PeerConnection where
  signalingState : SignalingState
  connectionState : PeerConnectionState
  senders : List (Option RTPSender)
  receivers : List (Option RTPReceiver)
  localDescription : Option SessionDescription
  deriving DecidableEq, Repr

/-- A `*webrtc.PeerConnection`: the address of a peer connection object. -/
abbrev PeerConnectionRef : Type := Nat

/-- The peer connection objects of the process: the state stored at each address. -/
abbrev Heap : Type := PeerConnectionRef → PeerConnection

/-- What a successful `RemoveTrack(sender)` does to the connection, for the sender at
position `i` of `GetSenders()`: the sender stays and its track becomes nil. -/
def PeerConnection.RemoveTrack (pc : PeerConnection) (i : Nat) : PeerConnection :=
  { pc with senders := pc.senders.set i (some { track := none }) }

/-- What a successful `AddTrack(track)` does to the connection: one more sender, which
carries the track. -/
def PeerConnection.AddTrack (pc : PeerConnection) (t : TrackLocalStaticRTP) : PeerConnection :=
  { pc with senders := pc.senders ++ [some { track := some t }] }

/-- What a successful `SetLocalDescription(offer)` does to a stable connection: the
offer is the local description and the signaling state is have-local-offer. -/
def PeerConnection.SetLocalDescription (pc : PeerConnection) (offer : SessionDescription) :
    PeerConnection :=
  { pc with signalingState := .HaveLocalOffer, localDescription := some offer }

/-- The track IDs of the senders that carry a track (nil senders and senders without
track carry none). -/
def senderTrackIDs : List (Option RTPSender) → List String
  | [] => []
  | some { track := some t } :: rest => t.id :: senderTrackIDs rest
  | _ :: rest => senderTrackIDs rest

/-- The track IDs of the receivers that carry a track. -/
def receiverTrackIDs : List (Option RTPReceiver) → List String
  | [] => []
  | some { track := some t } :: rest => t.id :: receiverTrackIDs rest
  | _ :: rest => receiverTrackIDs rest

end webrtc

namespace room

/-- A `JSONWriter` (a websocket connection), known by its identity. -/
structure JSONWriter where
  id : Nat
  deriving DecidableEq, Repr

/-- A voice chat room. -/
structure Room where
  ID : String
  ServerID : String
  PeerConnections : GoMap (Option webrtc.PeerConnectionRef)
  Connections : GoMap (Option JSONWriter)
  CreatedAt : Time
  LastActivity : Time
  deriving DecidableEq

/-- The room registry. -/
structure Manager where
  rooms : GoMap Room
  serverToRooms : GoMap (List String)
  registeredServers : GoMap String
  debug : Bool
  deriving DecidableEq

/-- The registry `NewManager` builds. -/
def NewManager (debug : Bool) : Manager :=
  { rooms := ∅, serverToRooms := ∅, registeredServers := ∅, debug := debug }

/-- The room literal of `RegisterServer` and `ValidateClientJoin`: no peers, both
timestamps read from the clock at creation. -/
def newRoom (now : Time) (roomID serverID : String) : Room :=
  { ID := roomID, ServerID := serverID, PeerConnections := ∅, Connections := ∅,
    CreatedAt := now, LastActivity := now }

/-- Go's `m.serverToRooms[serverID]`: the nil slice when the key is absent. -/
def Manager.roomsOf (m : Manager) (serverID : String) : List String :=
  (m.serverToRooms.lookup serverID).getD []

/-- The two stores that create a room: `m.rooms[roomID] = room` and the append to
`m.serverToRooms[serverID]`. -/
def Manager.createRoom (m : Manager) (now : Time) (roomID serverID : String) : Manager :=
  { m with
    rooms := m.rooms.insert roomID (newRoom now roomID serverID)
    serverToRooms := m.serverToRooms.insert serverID (m.roomsOf serverID ++ [roomID]) }

/-- The first block of `RegisterServer`: the password check, which records the
password of a server not seen before. -/
def Manager.checkServer (m : Manager) (serverID serverPassword : String) :
    Except GoError Manager :=
  match m.registeredServers.lookup serverID with
  | some existingPassword =>
    if existingPassword ≠ serverPassword then
      .error (.alreadyRegistered serverID)
    else .ok m
  | none =>
    .ok { m with registeredServers := m.registeredServers.insert serverID serverPassword }

/-- Model of `RegisterServer`: the registry afterwards and the error returned. -/
def Manager.RegisterServer (m : Manager) (now : Time)
    (serverID serverPassword roomID : String) : Manager × Option GoError :=
  match m.checkServer serverID serverPassword with
  | .error e => (m, some e)
  | .ok m1 =>
    match m1.rooms.lookup roomID with
    | some room =>
      if room.ServerID ≠ serverID then
        (m1, some (.roomExistsForDifferentServer roomID))
      else (m1, none)
    | none => (m1.createRoom now roomID serverID, none)

/-- Model of `ValidateClientJoin`: the registry afterwards and the error returned. -/
def Manager.ValidateClientJoin (m : Manager) (now : Time)
    (roomID serverID serverPassword : String) : Manager × Option GoError :=
  match m.registeredServers.lookup serverID with
  | none => (m, some (.serverNotRegistered serverID))
  | some registeredPassword =>
    if registeredPassword ≠ serverPassword then
      (m, some (.invalidServerPassword serverID))
    else
      match m.rooms.lookup roomID with
      | none => (m.createRoom now roomID serverID, none)
      | some room =>
        if room.ServerID ≠ serverID then
          (m, some (.roomNotOfServer roomID serverID))
        else (m, none)

end room

/-- The entries of a map whose value is not nil, as the copying loops of the snapshot
functions keep them. -/
def GoMap.nonNil {V : Type} (m : GoMap (Option V)) : GoMap (Option V) :=
  ⟨m.entries.filter (fun e => e.2.isSome), m.nodupKeys.sublist (List.filter_sublist _)⟩

namespace room

/-- Model of `GetPeersInRoom`: a copy of the room's peer map without its nil entries,
or the error for an unknown room. -/
def Manager.GetPeersInRoom (m : Manager) (roomID : String) :
    Except GoError (GoMap (Option webrtc.PeerConnectionRef)) :=
  match m.rooms.lookup roomID with
  | none => .error (.roomDoesNotExist roomID)
  | some room => .ok (GoMap.nonNil room.PeerConnections)

/-- Model of `GetConnectionsInRoom`. -/
def Manager.GetConnectionsInRoom (m : Manager) (roomID : String) :
    Except GoError (GoMap (Option JSONWriter)) :=
  match m.rooms.lookup roomID with
  | none => .error (.roomDoesNotExist roomID)
  | some room => .ok (GoMap.nonNil room.Connections)

end room

namespace track

/-- The track registry: roomID -> trackID -> track. -/
structure Manager where
  roomTracks : GoMap (GoMap (Option webrtc.TrackLocalStaticRTP))
  debug : Bool

/-- The registry `NewManager` builds. -/
def NewManager (debug : Bool) : Manager :=
  { roomTracks := ∅, debug := debug }

/-- Model of `GetTracksInRoom`: a copy of the room's tracks, empty for an unknown room. -/
def Manager.GetTracksInRoom (m : Manager) (roomID : String) :
    GoMap (Option webrtc.TrackLocalStaticRTP) :=
  match m.roomTracks.lookup roomID with
  | none => ∅
  | some roomTracks => roomTracks

/-- Model of `AddTrackToRoom`: the registry afterwards and the local track returned
(nil on failure); `newTrackErr` is the error of pion's `NewTrackLocalStaticRTP`, if any,
which otherwise builds a track with the codec, track ID and stream ID it is given. -/
def Manager.AddTrackToRoom (m : Manager) (newTrackErr : Option GoError) (roomID : String)
    (t : webrtc.TrackRemote) : Manager × Option webrtc.TrackLocalStaticRTP :=
  match newTrackErr with
  | some _ => (m, none)
  | none =>
    let trackLocal : webrtc.TrackLocalStaticRTP :=
      { id := t.id, streamID := t.streamID, codec := t.codec }
    let roomTracks := (m.roomTracks.lookup roomID).getD ∅
    ({ m with roomTracks := m.roomTracks.insert roomID (roomTracks.insert t.id (some trackLocal)) },
      some trackLocal)

/-- Model of `RemoveTrackFromRoom`; a nil track is `none`. -/
def Manager.RemoveTrackFromRoom (m : Manager) (roomID : String)
    (t : Option webrtc.TrackLocalStaticRTP) : Manager :=
  match m.roomTracks.lookup roomID with
  | none => m
  | some roomTracks =>
    match t with
    | none => m
    | some t =>
      match roomTracks.lookup t.id with
      | some (some _) =>
        if (roomTracks.erase t.id).entries.length = 0 then
          { m with roomTracks := m.roomTracks.erase roomID }
        else
          { m with roomTracks := m.roomTracks.insert roomID (roomTracks.erase t.id) }
      | _ => m

/-- Model of `GetTrackInRoom`: the track and whether it was found. -/
def Manager.GetTrackInRoom (m : Manager) (roomID trackID : String) :
    Option webrtc.TrackLocalStaticRTP × Bool :=
  match m.roomTracks.lookup roomID with
  | none => (none, false)
  | some roomTracks =>
    match roomTracks.lookup trackID with
    | some track => (track, true)
    | none => (none, false)

/-- Every stored track sits under its own track ID. -/
def KeyedByID (tracks : GoMap (Option webrtc.TrackLocalStaticRTP)) : Prop :=
  ∀ e ∈ tracks.entries, ∀ t, e.2 = some t → t.id = e.1

/-- Every room of the registry stores its tracks under their own track IDs. -/
def Manager.KeyedByID (m : Manager) : Prop :=
  ∀ roomID, track.KeyedByID (m.GetTracksInRoom roomID)

end track

namespace signaling

/-- The outcomes of the calls the coordinator makes outside the repository (pion,
`encoding/json`, the websocket connection): which calls return an error, given the
state of the connection and the arguments, and the offer `CreateOffer` builds. -/
structure Library where
  removeTrackErr : webrtc.PeerConnection → Nat → Option GoError
  addTrackErr : webrtc.PeerConnection → webrtc.TrackLocalStaticRTP → Option GoError
  createOffer : webrtc.PeerConnection → Except GoError webrtc.SessionDescription
  setLocalDescriptionErr : webrtc.PeerConnection → webrtc.SessionDescription → Option GoError
  jsonMarshal : webrtc.SessionDescription → Except GoError String
  writeJSONErr : room.JSONWriter → types.WebSocketMessage → Option GoError

/-- The signaling coordinator with the registries it reads. -/
structure Coordinator where
  trackManager : track.Manager
  roomManager : room.Manager
  debug : Bool

/-- What one call of `processPeerConnection` did: the connection afterwards, the
positions of the senders removed, the tracks added as senders, the offers created, the
`WriteJSON` calls on the control channel, and the error returned. -/
structure Outcome where
  pc : webrtc.PeerConnection
  removed : List Nat
  added : List webrtc.TrackLocalStaticRTP
  offers : List webrtc.SessionDescription
  written : List (room.JSONWriter × types.WebSocketMessage)
  err : Option GoError

/-- The loop over `GetSenders()` (coordinator.go:166-186).  `done` are the senders
already visited, `todo` those still to visit, so the connection's senders are
`done ++ todo`; a sender whose track ID is no room track is removed, which leaves it
in place without track (`PeerConnection.RemoveTrack` at its position), and the first
failing `RemoveTrack` ends the call. -/
def removeObsolete (lib : Library) (tracks : GoMap (Option webrtc.TrackLocalStaticRTP))
    (pc : webrtc.PeerConnection) :
    List (Option webrtc.RTPSender) → List (Option webrtc.RTPSender) → List Nat →
      List (Option webrtc.RTPSender) × List Nat × Option GoError
  | done, [], removed => (done, removed, none)
  | done, none :: todo, removed => removeObsolete lib tracks pc (done ++ [none]) todo removed
  | done, some { track := none } :: todo, removed =>
      removeObsolete lib tracks pc (done ++ [some { track := none }]) todo removed
  | done, some { track := some t } :: todo, removed =>
      if (tracks.lookup t.id).isSome then
        removeObsolete lib tracks pc (done ++ [some { track := some t }]) todo removed
      else
        match lib.removeTrackErr
            { pc with senders := done ++ some { track := some t } :: todo } done.length with
        | some e => (done ++ some { track := some t } :: todo, removed, some e)
        | none =>
          removeObsolete lib tracks pc (done ++ [some { track := none }]) todo
            (removed ++ [done.length])

/-- The loop over the room tracks (coordinator.go:204-220): a track whose key is not
among the IDs already handled is added as a sender, and the first failing `AddTrack`
ends the call. -/
def addMissing (lib : Library) (existingSenders : List String) :
    List (Sigma fun _ : String => Option webrtc.TrackLocalStaticRTP) →
      webrtc.PeerConnection → List webrtc.TrackLocalStaticRTP →
      webrtc.PeerConnection × List webrtc.TrackLocalStaticRTP × Option GoError
  | [], pc, added => (pc, added, none)
  | ⟨_, none⟩ :: rest, pc, added => addMissing lib existingSenders rest pc added
  | ⟨trackID, some localTrack⟩ :: rest, pc, added =>
      if trackID ∈ existingSenders then addMissing lib existingSenders rest pc added
      else
        match lib.addTrackErr pc localTrack with
        | some e => (pc, added, some e)
        | none =>
          addMissing lib existingSenders rest (pc.AddTrack localTrack) (added ++ [localTrack])

/-- The end of `processPeerConnection` (coordinator.go:252-287): create the offer, set
it as local description, marshal it and write it to the control channel. -/
def sendOffer (lib : Library) (clientID : String) (pc : webrtc.PeerConnection)
    (wsConn : Option room.JSONWriter) (removed : List Nat)
    (added : List webrtc.TrackLocalStaticRTP) : Outcome :=
  match lib.createOffer pc with
  | .error e => ⟨pc, removed, added, [], [], some e⟩
  | .ok offer =>
    match lib.setLocalDescriptionErr pc offer with
    | some e => ⟨pc, removed, added, [offer], [], some e⟩
    | none =>
      match lib.jsonMarshal offer with
      | .error e => ⟨pc.SetLocalDescription offer, removed, added, [offer], [], some e⟩
      | .ok offerString =>
        match wsConn with
        | some conn =>
          ⟨pc.SetLocalDescription offer, removed, added, [offer],
            [(conn, { Event := types.EventOffer, Data := offerString })],
            lib.writeJSONErr conn { Event := types.EventOffer, Data := offerString }⟩
        | none =>
          ⟨pc.SetLocalDescription offer, removed, added, [offer], [],
            some (.invalidWebSocketType clientID)⟩

/-- Model of `processPeerConnection`. -/
def Coordinator.processPeerConnection (_c : Coordinator) (lib : Library) (clientID : String)
    (peerConnection : webrtc.PeerConnection) (wsConn : Option room.JSONWriter)
    (tracks : GoMap (Option webrtc.TrackLocalStaticRTP)) (_roomID : String) : Outcome :=
  if peerConnection.signalingState ≠ .Stable then
    ⟨peerConnection, [], [], [], [], none⟩
  else
    match removeObsolete lib tracks peerConnection [] peerConnection.senders [] with
    | (senders, removed, some e) =>
      ⟨{ peerConnection with senders := senders }, removed, [], [], [], some e⟩
    | (senders, removed, none) =>
      let existingSenders := webrtc.senderTrackIDs peerConnection.senders ++
        webrtc.receiverTrackIDs peerConnection.receivers
      match addMissing lib existingSenders tracks.entries
          { peerConnection with senders := senders } [] with
      | (pc, added, some e) => ⟨pc, removed, added, [], [], some e⟩
      | (pc, added, none) =>
        if added.length = 0 ∧ removed.length = 0 ∧ pc.connectionState ≠ .New then
          ⟨pc, removed, added, [], [], none⟩
        else sendOffer lib clientID pc wsConn removed added

/-- What signaling acts on: the peer connection objects and the messages handed to
`WriteJSON` so far, each with the connection written to. -/
structure World where
  heap : webrtc.Heap
  written : List (room.JSONWriter × types.WebSocketMessage)

/-- One run of `attemptSync`: the world afterwards, the two counters, and the clients
handed to `processPeerConnection`, in order. -/
structure Attempt where
  world : World
  syncSuccess : Nat
  syncErrors : Nat
  processed : List String

/-- The result `attemptSync` returns: an error count above zero asks for a retry. -/
def Attempt.tryAgain (a : Attempt) : Bool := decide (a.syncErrors > 0)

/-- The loop over the peer snapshot in `attemptSync` (coordinator.go:78-115). -/
def Coordinator.syncPeers (c : Coordinator) (lib : Library) (roomID : String)
    (connectionMap : GoMap (Option room.JSONWriter))
    (tracks : GoMap (Option webrtc.TrackLocalStaticRTP)) :
    List (Sigma fun _ : String => Option webrtc.PeerConnectionRef) → Attempt → Attempt
  | [], a => a
  | ⟨_, none⟩ :: rest, a =>
      c.syncPeers lib roomID connectionMap tracks rest { a with syncErrors := a.syncErrors + 1 }
  | ⟨clientID, some peerConnection⟩ :: rest, a =>
      if (a.world.heap peerConnection).connectionState = .Closed ∨
          (a.world.heap peerConnection).connectionState = .Failed then
        c.syncPeers lib roomID connectionMap tracks rest a
      else
        match connectionMap.lookup clientID with
        | some (some wsConn) =>
          let o := c.processPeerConnection lib clientID (a.world.heap peerConnection)
            (some wsConn) tracks roomID
          let world : World :=
            { heap := Function.update a.world.heap peerConnection o.pc
              written := a.world.written ++ o.written }
          if o.err ≠ none then
            c.syncPeers lib roomID connectionMap tracks rest
              { world := world, syncSuccess := a.syncSuccess, syncErrors := a.syncErrors + 1
                processed := a.processed ++ [clientID] }
          else
            c.syncPeers lib roomID connectionMap tracks rest
              { world := world, syncSuccess := a.syncSuccess + 1, syncErrors := a.syncErrors
                processed := a.processed ++ [clientID] }
        | _ =>
          c.syncPeers lib roomID connectionMap tracks rest
            { a with syncErrors := a.syncErrors + 1 }

/-- Model of the closure `attemptSync`: it reads the room's tracks and reconciles every
peer of the snapshot, counters starting at zero. -/
def Coordinator.attemptSync (c : Coordinator) (lib : Library) (roomID : String)
    (peerMap : GoMap (Option webrtc.PeerConnectionRef))
    (connectionMap : GoMap (Option room.JSONWriter)) (w : World) : Attempt :=
  c.syncPeers lib roomID connectionMap (c.trackManager.GetTracksInRoom roomID) peerMap.entries
    { world := w, syncSuccess := 0, syncErrors := 0, processed := [] }

/-- A `time.Duration`, in nanoseconds. -/
abbrev Duration : Type := Int

/-- The constant `time.Millisecond`. -/
def Millisecond : Duration := 1000000

/-- The retry schedule of `SignalPeerConnectionsInRoom`. -/
def backoffs : List Duration := [100 * Millisecond, 300 * Millisecond, 500 * Millisecond]

/-- A step of one call of `SignalPeerConnectionsInRoom`, as seen from outside: an
attempt with its counters and the clients it reconciled, or a sleep. -/
inductive Event where
  | attempt (syncSuccess syncErrors : Nat) (processed : List String)
  | sleep (d : Duration)
  deriving DecidableEq, Repr

/-- The retry loop (coordinator.go:131-142) over the backoffs still ahead: stop at the
first attempt without failed peer, give up after the attempt of the last backoff, and
sleep the attempt's backoff before the next attempt. -/
def retryLoop (attemptSync : World → Attempt) : List Duration → World → List Event →
    World × List Event
  | [], w, events => (w, events)
  | backoff :: rest, w, events =>
    let a := attemptSync w
    let events := events ++ [Event.attempt a.syncSuccess a.syncErrors a.processed]
    if ¬ a.tryAgain then (a.world, events)
    else if rest.isEmpty then (a.world, events)
    else retryLoop attemptSync rest a.world (events ++ [Event.sleep backoff])

/-- What one call of `SignalPeerConnectionsInRoom` did. -/
structure Signal where
  world : World
  events : List Event
  err : Option GoError

/-- Model of `SignalPeerConnectionsInRoom`. -/
def Coordinator.SignalPeerConnectionsInRoom (c : Coordinator) (lib : Library)
    (roomID : String) (w : World) : Signal :=
  match c.roomManager.GetPeersInRoom roomID with
  | .error e => { world := w, events := [], err := some e }
  | .ok peerMap =>
    match c.roomManager.GetConnectionsInRoom roomID with
    | .error e => { world := w, events := [], err := some e }
    | .ok connectionMap =>
      if peerMap.entries.length = 0 then { world := w, events := [], err := none }
      else
        let r := retryLoop (c.attemptSync lib roomID peerMap connectionMap) backoffs w []
        { world := r.1, events := r.2, err := none }

/-- A library none of whose calls fails; the offer lists the track IDs of the senders. -/
def Library.reliable : Library :=
  { removeTrackErr := fun _ _ => none
    addTrackErr := fun _ _ => none
    createOffer := fun pc => .ok { sdp := String.intercalate "," (webrtc.senderTrackIDs pc.senders) }
    setLocalDescriptionErr := fun _ _ => none
    jsonMarshal := fun offer => .ok offer.sdp
    writeJSONErr := fun _ _ => none }

end signaling

namespace room

/-- The state of the registry after server `s1` registered room `r1` and server `s2`
registered room `r2`. -/
def twoServers : Manager :=
  (((NewManager false).RegisterServer 0 "s1" "p1" "r1").1.RegisterServer 1 "s2" "p2" "r2").1

/-- The server->rooms index agrees with the rooms table: `r` is listed under `s`
exactly once when room `r` exists with owner `s`, and not at all otherwise. -/
def Manager.IndexConsistent (m : Manager) : Prop :=
  ∀ s r : String, (m.roomsOf s).count r =
    if (m.rooms.lookup r).map (fun room => room.ServerID) = some s then 1 else 0

end room

namespace signaling

/-- A room track snapshot with the single track `x`. -/
def echoTracks : GoMap (Option webrtc.TrackLocalStaticRTP) :=
  (∅ : GoMap (Option webrtc.TrackLocalStaticRTP)).insert "x" (some ⟨"x", "s", "opus"⟩)

/-- A stable, connected peer that publishes a track with ID `x` (its receiver) and
already has a sender for a track with ID `x`. -/
def echoPeer : webrtc.PeerConnection :=
  { signalingState := .Stable, connectionState := .Connected
    senders := [some ⟨some ⟨"x", "q", "opus"⟩⟩]
    receivers := [some ⟨some ⟨"x", "s", "opus"⟩⟩]
    localDescription := none }

/-- A connected peer with an unanswered local offer, publishing track `a`. -/
def waitingPeer : webrtc.PeerConnection :=
  { signalingState := .HaveLocalOffer, connectionState := .Connected
    senders := [some ⟨some ⟨"gone", "q", "opus"⟩⟩]
    receivers := [some ⟨some ⟨"a", "s", "opus"⟩⟩]
    localDescription := some ⟨"v=0"⟩ }

/-- A stable, connected peer publishing track `a`, with one sender for a track that
left the room. -/
def settledPeer : webrtc.PeerConnection :=
  { signalingState := .Stable, connectionState := .Connected
    senders := [some ⟨some ⟨"gone", "q", "opus"⟩⟩]
    receivers := [some ⟨some ⟨"a", "s", "opus"⟩⟩]
    localDescription := none }

/-- A room track snapshot with the tracks `a` and `b`. -/
def twoTracks : GoMap (Option webrtc.TrackLocalStaticRTP) :=
  ((∅ : GoMap (Option webrtc.TrackLocalStaticRTP)).insert "a" (some ⟨"a", "s", "opus"⟩)).insert
    "b" (some ⟨"b", "t", "opus"⟩)

/-- The room `r1` of server `s1` with the clients `A` (connection 1, channel 11) and
`B` (connection 2, channel 12). -/
def demoRoom : room.Room :=
  { ID := "r1", ServerID := "s1"
    PeerConnections :=
      ((∅ : GoMap (Option webrtc.PeerConnectionRef)).insert "A" (some 1)).insert "B" (some 2)
    Connections :=
      ((∅ : GoMap (Option room.JSONWriter)).insert "A" (some ⟨11⟩)).insert "B" (some ⟨12⟩)
    CreatedAt := 0, LastActivity := 0 }

/-- A coordinator whose room `r1` holds the clients `A` and `B` and the tracks `a`
(published by `A`) and `b` (published by `B`). -/
def demo : Coordinator :=
  { trackManager :=
      (((track.NewManager false).AddTrackToRoom none "r1" ⟨"a", "s", "opus"⟩).1.AddTrackToRoom
        none "r1" ⟨"b", "t", "opus"⟩).1
    roomManager :=
      { rooms := (∅ : GoMap room.Room).insert "r1" demoRoom
        serverToRooms := (∅ : GoMap (List String)).insert "s1" ["r1"]
        registeredServers := (∅ : GoMap String).insert "s1" "p"
        debug := false }
    debug := false }

/-- A newly joined peer: stable, connection state new, no sender, one receiver. -/
def joinedPeer (trackID : String) : webrtc.PeerConnection :=
  { signalingState := .Stable, connectionState := .New, senders := []
    receivers := [some ⟨some ⟨trackID, "s", "opus"⟩⟩], localDescription := none }

/-- A world in which connection 1 publishes `a`, connection 2 publishes `b`, and
nothing has been written. -/
def demoWorld : World :=
  { heap := fun ref => if ref = 1 then joinedPeer "a" else joinedPeer "b"
    written := [] }

/-- A coordinator over new registries. -/
def idle : Coordinator :=
  { trackManager := track.NewManager false, roomManager := room.NewManager false
    debug := false }

end signaling

namespace signaling

/-- A sender the loop over `GetSenders()` leaves alone: nil, without track, or carrying
a room track. -/
def Kept (tracks : GoMap (Option webrtc.TrackLocalStaticRTP)) : Option webrtc.RTPSender → Prop
  | some { track := some t } => (tracks.lookup t.id).isSome = true
  | _ => True

/-- A connection on which `processPeerConnection` changes nothing and writes nothing. -/
def Quiet (lib : Library) (tracks : GoMap (Option webrtc.TrackLocalStaticRTP))
    (pc : webrtc.PeerConnection) : Prop :=
  ∀ (c : Coordinator) (clientID : String) (wsConn : Option room.JSONWriter) (roomID : String),
    (c.processPeerConnection lib clientID pc wsConn tracks roomID).pc = pc ∧
    (c.processPeerConnection lib clientID pc wsConn tracks roomID).written = []

/-- A peer of the snapshot that `attemptSync` does not hand to `processPeerConnection`:
its connection is closed or failed, or it has no control channel. -/
def Skipped (connectionMap : GoMap (Option room.JSONWriter)) (heap : webrtc.Heap)
    (clientID : String) (ref : webrtc.PeerConnectionRef) : Prop :=
  (heap ref).connectionState = .Closed ∨ (heap ref).connectionState = .Failed ∨
    ∀ wsConn, connectionMap.lookup clientID ≠ some (some wsConn)

/-- Every peer of the snapshot is skipped or quiet. -/
def Settled (lib : Library) (tracks : GoMap (Option webrtc.TrackLocalStaticRTP))
    (connectionMap : GoMap (Option room.JSONWriter))
    (entries : List (Sigma fun _ : String => Option webrtc.PeerConnectionRef))
    (heap : webrtc.Heap) : Prop :=
  ∀ clientID ref,
    (⟨clientID, some ref⟩ : Sigma fun _ : String => Option webrtc.PeerConnectionRef) ∈ entries →
    Quiet lib tracks (heap ref) ∨ Skipped connectionMap heap clientID ref

end signaling

/-! ### The rest of the room registry: peers, capacity, idle sweep -/

namespace time

/-- The largest `time.Duration` (an `int64` count of nanoseconds). -/
def maxDuration : Int := 9223372036854775807

/-- The smallest `time.Duration`. -/
def minDuration : Int := -9223372036854775808

/-- Go's `t.Sub(u)`: the duration `t - u`, or the largest (smallest) duration when the
difference does not fit. -/
def Sub (t u : Time) : Int :=
  if t - u > maxDuration then maxDuration
  else if t - u < minDuration then minDuration
  else t - u

/-- The constant `time.Minute`, in nanoseconds. -/
def Minute : Int := 60000000000

end time

namespace room

/-- Model of `AddPeerToRoom`; a nil peer connection or a nil connection is `none`.  The
room is changed in place: both maps get the client and `LastActivity` is stamped. -/
def Manager.AddPeerToRoom (m : Manager) (now : Time) (roomID clientID : String)
    (pc : Option webrtc.PeerConnectionRef) (conn : Option JSONWriter) :
    Manager × Option GoError :=
  match m.rooms.lookup roomID with
  | none => (m, some (.roomDoesNotExist roomID))
  | some room =>
    match pc with
    | none => (m, some (.peerConnectionNil clientID))
    | some _ =>
      match conn with
      | none => (m, some (.websocketNil clientID))
      | some _ =>
        ({ m with
            rooms := m.rooms.insert roomID
              { room with
                PeerConnections := room.PeerConnections.insert clientID pc
                Connections := room.Connections.insert clientID conn
                LastActivity := now } },
          none)

/-- Model of `RemovePeerFromRoom`. -/
def Manager.RemovePeerFromRoom (m : Manager) (now : Time) (roomID clientID : String) :
    Manager × Option GoError :=
  match m.rooms.lookup roomID with
  | none => (m, some (.roomDoesNotExist roomID))
  | some room =>
    ({ m with
        rooms := m.rooms.insert roomID
          { room with
            PeerConnections := room.PeerConnections.erase clientID
            Connections := room.Connections.erase clientID
            LastActivity := now } },
      none)

/-- Go's `len(room.PeerConnections)`. -/
def Room.peerCount (room : Room) : Nat := room.PeerConnections.entries.length

/-- Model of `TotalPeers`: the sum over all rooms of the size of the peer map. -/
def Manager.TotalPeers (m : Manager) : Nat :=
  (m.rooms.entries.map (fun e => e.2.peerCount)).sum

/-- The test of the first loop of `CleanupEmptyRooms` (cleanup.go:26-29): the room is
empty and has been idle for longer than `maxIdleTime`. -/
def Room.isEmptyAndIdle (room : Room) (now : Time) (maxIdleTime : Int) : Bool :=
  decide (room.peerCount = 0) && decide (time.Sub now room.LastActivity > maxIdleTime)

/-- The slice `roomsToDelete` after the first loop of `CleanupEmptyRooms`. -/
def Manager.roomsToDelete (m : Manager) (now : Time) (maxIdleTime : Int) : List String :=
  (m.rooms.entries.filter (fun e => e.2.isEmptyAndIdle now maxIdleTime)).map (fun e => e.1)

/-- One round of the second loop of `CleanupEmptyRooms` (cleanup.go:41-63): delete the
room and take it out of its owner's index entry, dropping the entry when it gets empty.
(For a roomID without room the Go code panics on the nil room and the panic is caught:
nothing changes.) -/
def Manager.deleteRoom (m : Manager) (roomID : String) : Manager :=
  match m.rooms.lookup roomID with
  | none => m
  | some room =>
    match m.serverToRooms.lookup room.ServerID with
    | some rooms =>
      if (rooms.filter (fun rid => rid ≠ roomID)).length = 0 then
        { m with
          rooms := m.rooms.erase roomID
          serverToRooms := m.serverToRooms.erase room.ServerID }
      else
        { m with
          rooms := m.rooms.erase roomID
          serverToRooms :=
            m.serverToRooms.insert room.ServerID (rooms.filter (fun rid => rid ≠ roomID)) }
    | none => { m with rooms := m.rooms.erase roomID }

/-- An index entry after rooms were taken out of it: dropped when it is empty. -/
def keepNonEmpty (l : List String) : Option (List String) :=
  if l.length = 0 then none else some l

/-- The rooms of the list `L` that the registry holds with owner `s`. -/
def Manager.ownedIn (m : Manager) (L : List String) (s : String) : List String :=
  L.filter (fun r => decide ((m.rooms.lookup r).map (fun room => room.ServerID) = some s))

/-- Whether room `r` has owner `s` and is deleted by the sweep at `now`. -/
def Manager.sweptOf (m : Manager) (now : Time) (maxIdleTime : Int) (s r : String) : Bool :=
  match m.rooms.lookup r with
  | some room => decide (room.ServerID = s) && room.isEmptyAndIdle now maxIdleTime
  | none => false

/-- Model of `CleanupEmptyRooms`, `now` being the clock reading it takes. -/
def Manager.CleanupEmptyRooms (m : Manager) (now : Time) (maxIdleTime : Int) : Manager :=
  (m.roomsToDelete now maxIdleTime).foldl Manager.deleteRoom m

/-- A registry with the empty room `r` of server `s1`, created at time 0. -/
def oneRoom : Manager := ((NewManager false).RegisterServer 0 "s1" "p" "r").1

/-- The registry `twoServers` after client `A` (connection 1, channel 11) joined `r1` at
time 2. -/
def withPeer : Manager := (twoServers.AddPeerToRoom 2 "r1" "A" (some 1) (some ⟨11⟩)).1

/-- The room `r1` of `withPeer`: client `A` is in both maps, last activity at time 2. -/
def occupiedRoom : Room :=
  { ID := "r1", ServerID := "s1"
    PeerConnections := (∅ : GoMap (Option webrtc.PeerConnectionRef)).insert "A" (some 1)
    Connections := (∅ : GoMap (Option JSONWriter)).insert "A" (some ⟨11⟩)
    CreatedAt := 0, LastActivity := 2 }

/-- The operations of the room registry that change it, with their arguments and the
clock reading they take. -/
inductive Op where
  | RegisterServer (now : Time) (serverID serverPassword roomID : String)
  | ValidateClientJoin (now : Time) (roomID serverID serverPassword : String)
  | AddPeerToRoom (now : Time) (roomID clientID : String)
      (pc : Option webrtc.PeerConnectionRef) (conn : Option JSONWriter)
  | RemovePeerFromRoom (now : Time) (roomID clientID : String)
  | CleanupEmptyRooms (now : Time) (maxIdleTime : Int)

/-- The registry after an operation (successful or failing). -/
def Manager.apply (m : Manager) : Op → Manager
  | .RegisterServer now serverID serverPassword roomID =>
      (m.RegisterServer now serverID serverPassword roomID).1
  | .ValidateClientJoin now roomID serverID serverPassword =>
      (m.ValidateClientJoin now roomID serverID serverPassword).1
  | .AddPeerToRoom now roomID clientID pc conn =>
      (m.AddPeerToRoom now roomID clientID pc conn).1
  | .RemovePeerFromRoom now roomID clientID => (m.RemovePeerFromRoom now roomID clientID).1
  | .CleanupEmptyRooms now maxIdleTime => m.CleanupEmptyRooms now maxIdleTime

/-- The registry after a sequence of operations. -/
def Manager.applyAll (m : Manager) (ops : List Op) : Manager := ops.foldl Manager.apply m

/-- Both maps of the room hold the same clients, and neither holds a nil value. -/
def Room.PeersMatch (rm : Room) : Prop :=
  (∀ c, c ∈ rm.PeerConnections ↔ c ∈ rm.Connections) ∧
  (∀ c, rm.PeerConnections.lookup c ≠ some none) ∧
  (∀ c, rm.Connections.lookup c ≠ some none)

/-- The registries reachable from a new registry by any sequence of operations. -/
inductive Reachable : Manager → Prop where
  | new (debug : Bool) : Reachable (NewManager debug)
  | step (m : Manager) (op : Op) : Reachable m → Reachable (m.apply op)

end room

/-! ### The admission part of the session handler -/

namespace config

/-- The configuration, of which the session handler reads the capacity. -/
structure Config where
  MaxPeers : Int

end config

namespace websocket

/-- The session handler with what the admission of a client reads: the configuration
and the room registry. -/
structure Handler where
  config : config.Config
  roomManager : room.Manager

/-- What the admission of a client did: the room registry afterwards, the messages
handed to `WriteJSON` on the client's connection, in order, and the error returned
(none when the client has joined). -/
structure Join where
  roomManager : room.Manager
  sent : List types.WebSocketMessage
  err : Option GoError

/-- The text of the capacity rejection, `fmt.Sprintf` with `%d/%d`. -/
def capacityMessage (currentPeers maxPeers : Int) : String :=
  "Sorry, there are no seats left in this voice server (" ++ toString currentPeers ++ "/" ++
    toString maxPeers ++ "). Try again later."

/-- Go's `strings.Contains(text, part)`. -/
def contains (text part : String) : Prop := part.toList <:+: text.toList

/-- Model of `handleClientConnection` from the validation of the join to the reply
`room_joined` (handler_join.go:56-139): validation, capacity check, creation of the peer
connection (`created` is what `CreatePeerConnection` returns) and `AddPeerToRoom`.
`now` and `later` are the clock readings of the two registry calls. -/
def Handler.handleClientConnection (h : Handler) (now later : Time) (conn : room.JSONWriter)
    (clientID : String) (joinData : types.ClientJoinData)
    (created : Except GoError webrtc.PeerConnectionRef) : Join :=
  match h.roomManager.ValidateClientJoin now joinData.RoomID joinData.ServerID
      joinData.ServerPassword with
  | (m1, some err) =>
    ⟨m1, [{ Event := types.EventRoomError, Data := "Join validation failed: " ++ err.Error }],
      some err⟩
  | (m1, none) =>
    if h.config.MaxPeers > 0 ∧ (m1.TotalPeers : Int) ≥ h.config.MaxPeers then
      ⟨m1, [{ Event := types.EventRoomError
              Data := capacityMessage m1.TotalPeers h.config.MaxPeers }],
        some (.serverFull m1.TotalPeers h.config.MaxPeers)⟩
    else
      match created with
      | .error e =>
        ⟨m1, [{ Event := types.EventRoomError, Data := "Failed to create peer connection" }],
          some e⟩
      | .ok peerConnection =>
        match m1.AddPeerToRoom later joinData.RoomID clientID (some peerConnection)
            (some conn) with
        | (m2, some err) =>
          ⟨m2, [{ Event := types.EventRoomError, Data := "Failed to join room" }], some err⟩
        | (m2, none) =>
          ⟨m2, [{ Event := types.EventRoomJoined, Data := "Successfully joined room" }], none⟩

/-- A handler with capacity 1 whose registry holds one peer. -/
def fullHandler : Handler := { config := { MaxPeers := 1 }, roomManager := room.withPeer }

end websocket

/-! ### Map objects, to tell a copy from the registry's own map -/

/-- What a snapshot keeps of a looked-up value: the value when it passes `keep`. -/
def keptValue {V : Type} (keep : V → Bool) (v : Option V) : Option V :=
  v.bind (fun x => if keep x then some x else none)

/-- The map objects of one value type: what the map at each address holds; the
addresses below `next` are in use. -/
structure Maps (V : Type) where
  cell : Nat → GoMap V
  next : Nat

/-- What a caller can do to a map it holds: `m[k] = v` and `delete(m, k)`. -/
inductive Mutation (V : Type) where
  | store (k : String) (v : V)
  | delete (k : String)

namespace Maps

/-- Go's `make(map[string]V)`: a new, empty map object and its address. -/
def make {V : Type} (σ : Maps V) : Maps V × Nat :=
  ({ cell := Function.update σ.cell σ.next ∅, next := σ.next + 1 }, σ.next)

/-- Go's `m[k] = v` on the map at address `a`. -/
def store {V : Type} (σ : Maps V) (a : Nat) (k : String) (v : V) : Maps V :=
  { σ with cell := Function.update σ.cell a ((σ.cell a).insert k v) }

/-- Go's `delete(m, k)` on the map at address `a`. -/
def delete {V : Type} (σ : Maps V) (a : Nat) (k : String) : Maps V :=
  { σ with cell := Function.update σ.cell a ((σ.cell a).erase k) }

/-- The copying loop of the snapshot functions:
`for k, v := range src { if keep(v) { result[k] = v } }`. -/
def copy {V : Type} (keep : V → Bool) (result : Nat) :
    List (Sigma fun _ : String => V) → Maps V → Maps V
  | [], σ => σ
  | ⟨k, v⟩ :: rest, σ =>
    if keep v then copy keep result rest (σ.store result k v) else copy keep result rest σ

/-- `result = make(...)` followed by the copying loop over the map at address `src`:
the objects afterwards and the address of the copy. -/
def snapshot {V : Type} (σ : Maps V) (keep : V → Bool) (src : Nat) : Maps V × Nat :=
  (copy keep σ.make.2 (σ.make.1.cell src).entries σ.make.1, σ.make.2)

/-- A sequence of stores and deletes on the map at address `a`. -/
def mutate {V : Type} (σ : Maps V) (a : Nat) : List (Mutation V) → Maps V
  | [] => σ
  | .store k v :: rest => mutate (σ.store a k v) a rest
  | .delete k :: rest => mutate (σ.delete a k) a rest

end Maps

namespace room

/-- `GetPeersInRoom` on map objects, the peer map of room `r` being the object at
address `peersAt r`: the objects afterwards and the address of the map returned. -/
def Manager.GetPeersInRoomAt (m : Manager) (peersAt : String → Nat)
    (σ : Maps (Option webrtc.PeerConnectionRef)) (roomID : String) :
    Maps (Option webrtc.PeerConnectionRef) × Except GoError Nat :=
  match m.rooms.lookup roomID with
  | none => (σ, .error (.roomDoesNotExist roomID))
  | some _ =>
    ((σ.snapshot (fun pc => pc.isSome) (peersAt roomID)).1,
      .ok (σ.snapshot (fun pc => pc.isSome) (peersAt roomID)).2)

/-- `GetConnectionsInRoom` on map objects. -/
def Manager.GetConnectionsInRoomAt (m : Manager) (connsAt : String → Nat)
    (σ : Maps (Option JSONWriter)) (roomID : String) :
    Maps (Option JSONWriter) × Except GoError Nat :=
  match m.rooms.lookup roomID with
  | none => (σ, .error (.roomDoesNotExist roomID))
  | some _ =>
    ((σ.snapshot (fun conn => conn.isSome) (connsAt roomID)).1,
      .ok (σ.snapshot (fun conn => conn.isSome) (connsAt roomID)).2)

/-- The peer maps of the registry are the objects at the addresses `peersAt`. -/
def Manager.PeersAt (m : Manager) (peersAt : String → Nat)
    (σ : Maps (Option webrtc.PeerConnectionRef)) : Prop :=
  ∀ r rm, m.rooms.lookup r = some rm → peersAt r < σ.next ∧ σ.cell (peersAt r) = rm.PeerConnections

/-- The connection maps of the registry are the objects at the addresses `connsAt`. -/
def Manager.ConnectionsAt (m : Manager) (connsAt : String → Nat)
    (σ : Maps (Option JSONWriter)) : Prop :=
  ∀ r rm, m.rooms.lookup r = some rm → connsAt r < σ.next ∧ σ.cell (connsAt r) = rm.Connections

end room

namespace track

/-- `GetTracksInRoom` on map objects, the tracks of room `r` being the object at address
`tracksAt r`: a new empty map for an unknown room, a copy of all entries otherwise. -/
def Manager.GetTracksInRoomAt (m : Manager) (tracksAt : String → Nat)
    (σ : Maps (Option webrtc.TrackLocalStaticRTP)) (roomID : String) :
    Maps (Option webrtc.TrackLocalStaticRTP) × Nat :=
  match m.roomTracks.lookup roomID with
  | none => σ.make
  | some _ => σ.snapshot (fun _ => true) (tracksAt roomID)

/-- The track maps of the registry are the objects at the addresses `tracksAt`. -/
def Manager.TracksAt (m : Manager) (tracksAt : String → Nat)
    (σ : Maps (Option webrtc.TrackLocalStaticRTP)) : Prop :=
  ∀ r rt, m.roomTracks.lookup r = some rt → tracksAt r < σ.next ∧ σ.cell (tracksAt r) = rt

end track

namespace room

/-- A registry with the single room "r", in which client "A" sits. -/
def soloRoom : Manager := (oneRoom.AddPeerToRoom 2 "r" "A" (some 1) (some ⟨11⟩)).1

/-- Map objects for `soloRoom`: the peer map of its room is the object at address 0. -/
def peerObjects : Maps (Option webrtc.PeerConnectionRef) :=
  { cell := fun _ => (∅ : GoMap (Option webrtc.PeerConnectionRef)).insert "A" (some 1), next := 1 }

end room

/-! ### Predicates and the RTP forwarder for the remaining claims -/

namespace room

/-- No server has an empty index entry. -/
def Manager.NoEmptyEntry (m : Manager) : Prop :=
  ∀ s l, m.serverToRooms.lookup s = some l → l ≠ []

end room

namespace websocket

/-- A byte of an RTP packet. -/
abbrev Byte : Type := Fin 256

/-- What one call of `localTrack.Write` was given, and what the forwarder returned (none
while it is still waiting in `remoteTrack.Read`). -/
structure Forward where
  writes : List (List Byte)
  err : Option GoError
  deriving DecidableEq

/-- Go's `len(buf)` in `forwardRTPPackets`. -/
def bufferSize : Nat := 1500

/-- The loop of `forwardRTPPackets` (handler_join.go:243-271).  `reads` are the results of
the coming calls of `remoteTrack.Read(buf)`: an error, or the bytes of a packet, which the
call copies to the start of the buffer, returning their number `i`; `writeErr` is the
error of the call of `localTrack.Write`, given how many writes came before and the bytes
written; `buf[:i]` is what is written. -/
def forwardLoop (writeErr : Nat → List Byte → Option GoError) :
    List (Except GoError (List Byte)) → List Byte → List (List Byte) → Forward
  | [], _, writes => ⟨writes, none⟩
  | .error e :: _, _, writes => ⟨writes, some e⟩
  | .ok packet :: rest, buf, writes =>
    let buf1 := (packet ++ buf.drop packet.length).take buf.length
    match writeErr writes.length (buf1.take packet.length) with
    | some e => ⟨writes ++ [buf1.take packet.length], some e⟩
    | none => forwardLoop writeErr rest buf1 (writes ++ [buf1.take packet.length])

/-- Model of `forwardRTPPackets`: the buffer of 1500 bytes is made once and reused. -/
def Handler.forwardRTPPackets (_h : Handler) (writeErr : Nat → List Byte → Option GoError)
    (reads : List (Except GoError (List Byte))) : Forward :=
  forwardLoop writeErr reads (List.replicate bufferSize 0) []

end websocket

namespace signaling

/-- The test `connectionState == Closed || connectionState == Failed` of `attemptSync`. -/
def closedOrFailed (pc : webrtc.PeerConnection) : Bool :=
  decide (pc.connectionState = .Closed) || decide (pc.connectionState = .Failed)

/-- A snapshot entry whose peer `attemptSync` skips without counting it: the connection
is closed or failed. -/
def Passed (heap : webrtc.Heap)
    (e : Sigma fun _ : String => Option webrtc.PeerConnectionRef) : Bool :=
  match e.2 with
  | none => false
  | some ref => closedOrFailed (heap ref)

/-- A snapshot entry whose peer `attemptSync` hands to `processPeerConnection`: the peer
is not nil, its connection neither closed nor failed, and it has a control channel. -/
def Reconciled (connectionMap : GoMap (Option room.JSONWriter)) (heap : webrtc.Heap)
    (e : Sigma fun _ : String => Option webrtc.PeerConnectionRef) : Bool :=
  match e.2 with
  | none => false
  | some ref =>
    !closedOrFailed (heap ref) &&
      (match connectionMap.lookup e.1 with
        | some (some _) => true
        | _ => false)

/-- Whether a step of the trace is a reconciliation attempt. -/
def Event.isAttempt : Event → Bool
  | .attempt _ _ _ => true
  | .sleep _ => false

/-- The trace entry of an attempt. -/
def Attempt.event (a : Attempt) : Event := .attempt a.syncSuccess a.syncErrors a.processed

end signaling

/-! ## Lemmas on the registry stores -/

namespace room

theorem roomsOf_createRoom_self (m : Manager) (now : Time) (roomID serverID : String) :
    (m.createRoom now roomID serverID).roomsOf serverID = m.roomsOf serverID ++ [roomID] := by
  simp [Manager.createRoom, Manager.roomsOf]

theorem roomsOf_createRoom_ne (m : Manager) (now : Time) (roomID serverID s : String)
    (h : s ≠ serverID) :
    (m.createRoom now roomID serverID).roomsOf s = m.roomsOf s := by
  simp [Manager.createRoom, Manager.roomsOf, AList.lookup_insert_ne h]

theorem lookup_createRoom_self (m : Manager) (now : Time) (roomID serverID : String) :
    (m.createRoom now roomID serverID).rooms.lookup roomID = some (newRoom now roomID serverID) := by
  simp [Manager.createRoom]

theorem lookup_createRoom_ne (m : Manager) (now : Time) (roomID serverID r : String)
    (h : r ≠ roomID) :
    (m.createRoom now roomID serverID).rooms.lookup r = m.rooms.lookup r := by
  simp [Manager.createRoom, AList.lookup_insert_ne h]

theorem checkServer_of_agree (m : Manager) (serverID serverPassword : String)
    (h : ∀ q, m.registeredServers.lookup serverID = some q → q = serverPassword) :
    ∃ m1, m.checkServer serverID serverPassword = .ok m1 ∧ m1.rooms = m.rooms ∧
      m1.serverToRooms = m.serverToRooms ∧
      m1.registeredServers.lookup serverID = some serverPassword ∧
      (∀ s, s ≠ serverID → m1.registeredServers.lookup s = m.registeredServers.lookup s) := by
  unfold Manager.checkServer
  cases hl : m.registeredServers.lookup serverID with
  | none =>
    refine ⟨_, rfl, rfl, rfl, by simp, ?_⟩
    intro s hs
    simp [AList.lookup_insert_ne hs]
  | some q =>
    have hq := h q hl
    subst hq
    exact ⟨m, by simp, rfl, rfl, hl, fun _ _ => rfl⟩

theorem checkServer_registered (m : Manager) (serverID serverPassword : String)
    (h : m.registeredServers.lookup serverID = some serverPassword) :
    m.checkServer serverID serverPassword = .ok m := by
  simp [Manager.checkServer, h]

theorem indexConsistent_NewManager (debug : Bool) : (NewManager debug).IndexConsistent := by
  intro s r
  simp [NewManager, Manager.roomsOf]

end room

/-! ## The claims on the room registry -/

/-- C1: ValidateClientJoin returns the ServerUnknown error when serverID has no
registration; otherwise the AuthMismatch error when the registered password differs
from the one given; otherwise the RoomOwnership error when roomID exists with a
different owner; otherwise it succeeds.  In the three failing cases the registry
(rooms, index, passwords) is returned unchanged. -/
theorem room.ValidateClientJoin_outcomes (m : room.Manager) (now : Time)
    (roomID serverID password : String) :
    (m.registeredServers.lookup serverID = none →
      m.ValidateClientJoin now roomID serverID password
        = (m, some (GoError.serverNotRegistered serverID))) ∧
    (∀ q, m.registeredServers.lookup serverID = some q → q ≠ password →
      m.ValidateClientJoin now roomID serverID password
        = (m, some (GoError.invalidServerPassword serverID))) ∧
    (∀ r, m.registeredServers.lookup serverID = some password →
      m.rooms.lookup roomID = some r → r.ServerID ≠ serverID →
      m.ValidateClientJoin now roomID serverID password
        = (m, some (GoError.roomNotOfServer roomID serverID))) ∧
    (m.registeredServers.lookup serverID = some password →
      (∀ r, m.rooms.lookup roomID = some r → r.ServerID = serverID) →
      (m.ValidateClientJoin now roomID serverID password).2 = none) := by
  refine ⟨?_, ?_, ?_, ?_⟩
  · intro h
    simp [room.Manager.ValidateClientJoin, h]
  · intro q h hq
    simp [room.Manager.ValidateClientJoin, h, hq]
  · intro r h hr hne
    simp [room.Manager.ValidateClientJoin, h, hr, hne]
  · intro h hown
    cases hr : m.rooms.lookup roomID with
    | none => simp [room.Manager.ValidateClientJoin, h, hr]
    | some r => simp [room.Manager.ValidateClientJoin, h, hr, hown r hr]

/-- C1 at concrete registries: an unknown server, a wrong password, a room of another
server, and a valid join. -/
theorem room.ValidateClientJoin_outcomes_witness :
    (room.NewManager false).ValidateClientJoin 7 "r2" "s1" "p"
        = (room.NewManager false, some (GoError.serverNotRegistered "s1")) ∧
    room.twoServers.ValidateClientJoin 7 "r1" "s1" "wrong"
        = (room.twoServers, some (GoError.invalidServerPassword "s1")) ∧
    room.twoServers.ValidateClientJoin 7 "r1" "s2" "p2"
        = (room.twoServers, some (GoError.roomNotOfServer "r1" "s2")) ∧
    (room.twoServers.ValidateClientJoin 7 "r1" "s1" "p1").2 = none :=
  ⟨(room.ValidateClientJoin_outcomes (room.NewManager false) 7 "r2" "s1" "p").1 (by decide),
   (room.ValidateClientJoin_outcomes room.twoServers 7 "r1" "s1" "wrong").2.1 "p1"
      (by decide) (by decide),
   (room.ValidateClientJoin_outcomes room.twoServers 7 "r1" "s2" "p2").2.2.1
      (room.newRoom 0 "r1" "s1") (by decide) rfl (by decide),
   (room.ValidateClientJoin_outcomes room.twoServers 7 "r1" "s1" "p1").2.2.2 (by decide)
      (by decide)⟩

/-- C2: when serverID is registered with password p, RegisterServer with any other
password fails with the AuthMismatch error and returns the registry unchanged. -/
theorem room.RegisterServer_password_mismatch (m : room.Manager) (now : Time)
    (serverID p p' roomID : String)
    (hreg : m.registeredServers.lookup serverID = some p) (hne : p' ≠ p) :
    m.RegisterServer now serverID p' roomID = (m, some (GoError.alreadyRegistered serverID)) := by
  have hne' : ¬ p = p' := fun h => hne h.symm
  simp [room.Manager.RegisterServer, room.Manager.checkServer, hreg, hne']

/-- C2 at a concrete registry: re-registering `s1` with another password. -/
theorem room.RegisterServer_password_mismatch_witness :
    room.twoServers.RegisterServer 9 "s1" "other" "r9"
      = (room.twoServers, some (GoError.alreadyRegistered "s1")) :=
  room.RegisterServer_password_mismatch room.twoServers 9 "s1" "p1" "other" "r9"
    (by decide) (by decide)

/-- C3, as stated, fails: room `r1` is owned by `s1`, and `s2` (registered with
password `p2`) asking for `r1` with another password gets the AuthMismatch error, not
the RoomOwnership error. -/
theorem room.RegisterServer_foreign_room_counterexample :
    (room.twoServers.rooms.lookup "r1").map (fun r => r.ServerID) = some "s1" ∧
    "s2" ≠ "s1" ∧
    (room.twoServers.RegisterServer 9 "s2" "wrong" "r1").2
      = some (GoError.alreadyRegistered "s2") ∧
    (room.twoServers.RegisterServer 9 "s2" "wrong" "r1").2
      ≠ some (GoError.roomExistsForDifferentServer "r1") := by
  decide

/-- C3 (amended): when roomID exists with an owner other than s', RegisterServer(s',
password, roomID) fails with the RoomOwnership error if s' is unregistered or
registered with exactly this password, and with the AuthMismatch error if s' is
registered with another password; in both cases the room is as before, so its owner
stays the same. -/
theorem room.RegisterServer_foreign_room (m : room.Manager) (now : Time)
    (s' password roomID : String) (r : room.Room)
    (hroom : m.rooms.lookup roomID = some r) (hne : s' ≠ r.ServerID) :
    ((∀ q, m.registeredServers.lookup s' = some q → q = password) →
      (m.RegisterServer now s' password roomID).2
        = some (GoError.roomExistsForDifferentServer roomID)) ∧
    (∀ q, m.registeredServers.lookup s' = some q → q ≠ password →
      (m.RegisterServer now s' password roomID).2 = some (GoError.alreadyRegistered s')) ∧
    (m.RegisterServer now s' password roomID).1.rooms.lookup roomID = some r := by
  have hne' : ¬ r.ServerID = s' := fun h => hne h.symm
  refine ⟨?_, ?_, ?_⟩
  · intro h
    obtain ⟨m1, hm1, hrooms, -, -, -⟩ := room.checkServer_of_agree m s' password h
    simp [room.Manager.RegisterServer, hm1, hrooms, hroom, hne']
  · intro q hq hqne
    simp [room.Manager.RegisterServer, room.Manager.checkServer, hq, hqne]
  · cases hl : m.registeredServers.lookup s' with
    | none =>
      simp [room.Manager.RegisterServer, room.Manager.checkServer, hl, hroom, hne']
    | some q =>
      by_cases hq : q = password
      · simp [room.Manager.RegisterServer, room.Manager.checkServer, hl, hq, hroom, hne']
      · simp [room.Manager.RegisterServer, room.Manager.checkServer, hl, hq, hroom]

/-- C3 (amended) at a concrete registry: `s2` with its own password, and a server `s3`
never seen before, both asking for `r1` of `s1`. -/
theorem room.RegisterServer_foreign_room_witness :
    (room.twoServers.RegisterServer 9 "s2" "p2" "r1").2
        = some (GoError.roomExistsForDifferentServer "r1") ∧
    (room.twoServers.RegisterServer 9 "s3" "p3" "r1").1.rooms.lookup "r1"
        = some (room.newRoom 0 "r1" "s1") :=
  ⟨(room.RegisterServer_foreign_room room.twoServers 9 "s2" "p2" "r1"
      (room.newRoom 0 "r1" "s1") rfl (by decide)).1 (by decide),
   (room.RegisterServer_foreign_room room.twoServers 9 "s3" "p3" "r1"
      (room.newRoom 0 "r1" "s1") rfl (by decide)).2.2⟩

/-- C4: RegisterServer is idempotent.  If RegisterServer(serverID, password, roomID)
succeeds, the same call made right after it (at any clock reading) succeeds and
returns the registry exactly as the first call left it: rooms, passwords and index,
so roomID is not appended a second time; and when the index agreed with the rooms
table before the first call, roomID is listed exactly once under serverID. -/
theorem room.RegisterServer_idempotent (m : room.Manager) (now now' : Time)
    (serverID password roomID : String)
    (hok : (m.RegisterServer now serverID password roomID).2 = none) :
    (m.RegisterServer now serverID password roomID).1.RegisterServer now' serverID password roomID
      = ((m.RegisterServer now serverID password roomID).1, none) ∧
    (m.IndexConsistent →
      ((m.RegisterServer now serverID password roomID).1.roomsOf serverID).count roomID = 1) := by
  unfold room.Manager.RegisterServer at hok ⊢
  cases hc : m.checkServer serverID password with
  | error e => simp [hc] at hok
  | ok m1 =>
    have hreg : m1.registeredServers.lookup serverID = some password := by
      unfold room.Manager.checkServer at hc
      cases hl : m.registeredServers.lookup serverID with
      | none =>
        simp only [hl] at hc
        cases hc
        simp
      | some q =>
        simp only [hl] at hc
        by_cases hq : q = password
        · simp only [hq, ne_eq, not_true_eq_false, ↓reduceIte] at hc
          cases hc
          rw [hl, hq]
        · simp [hq] at hc
    have hrooms : m1.rooms = m.rooms ∧ m1.serverToRooms = m.serverToRooms := by
      unfold room.Manager.checkServer at hc
      cases hl : m.registeredServers.lookup serverID with
      | none =>
        simp only [hl] at hc
        cases hc
        exact ⟨rfl, rfl⟩
      | some q =>
        simp only [hl] at hc
        by_cases hq : q = password
        · simp only [hq, ne_eq, not_true_eq_false, ↓reduceIte] at hc
          cases hc
          exact ⟨rfl, rfl⟩
        · simp [hq] at hc
    simp only [hc] at hok ⊢
    cases hr : m1.rooms.lookup roomID with
    | some r =>
      simp only [hr] at hok ⊢
      by_cases hown : r.ServerID = serverID
      · simp only [hown, ne_eq, not_true_eq_false, ↓reduceIte]
        refine ⟨?_, ?_⟩
        · simp [room.checkServer_registered m1 serverID password hreg, hr, hown]
        · intro hinv
          have h1 := hinv serverID roomID
          rw [← hrooms.1, hr] at h1
          simp only [Option.map_some', hown, ↓reduceIte] at h1
          simpa [room.Manager.roomsOf, hrooms.2] using h1
      · simp [hown] at hok
    | none =>
      simp only [hr]
      refine ⟨?_, ?_⟩
      · have hreg' : (m1.createRoom now roomID serverID).registeredServers.lookup serverID
            = some password := hreg
        simp [room.checkServer_registered _ serverID password hreg',
          room.lookup_createRoom_self, room.newRoom]
      · intro hinv
        have h1 := hinv serverID roomID
        rw [← hrooms.1, hr] at h1
        simp only [Option.map_none', reduceCtorEq, ↓reduceIte] at h1
        rw [room.roomsOf_createRoom_self]
        have h2 : m1.roomsOf serverID = m.roomsOf serverID := by
          simp [room.Manager.roomsOf, hrooms.2]
        rw [h2, List.count_append, h1]
        simp

/-- C4 at a concrete registry: registering `(s1, p, r1)` twice on a new registry. -/
theorem room.RegisterServer_idempotent_witness :
    ((room.NewManager false).RegisterServer 0 "s1" "p" "r1").1.RegisterServer 5 "s1" "p" "r1"
      = (((room.NewManager false).RegisterServer 0 "s1" "p" "r1").1, none) ∧
    (((room.NewManager false).RegisterServer 0 "s1" "p" "r1").1.roomsOf "s1").count "r1" = 1 :=
  ⟨(room.RegisterServer_idempotent (room.NewManager false) 0 5 "s1" "p" "r1" (by decide)).1,
   (room.RegisterServer_idempotent (room.NewManager false) 0 5 "s1" "p" "r1" (by decide)).2
      (room.indexConsistent_NewManager false)⟩

/-- C5: when roomID does not exist and serverID is unregistered or registered with
exactly this password, RegisterServer succeeds; afterwards room roomID exists, owned
by serverID, with empty peer and control-channel maps; password is recorded for
serverID; roomID is appended to serverID's index entry; every other room, every other
server's index entry and every other server's password are as before. -/
theorem room.RegisterServer_creates_room (m : room.Manager) (now : Time)
    (serverID password roomID : String)
    (hroom : m.rooms.lookup roomID = none)
    (hpw : ∀ q, m.registeredServers.lookup serverID = some q → q = password) :
    (m.RegisterServer now serverID password roomID).2 = none ∧
    (∃ r, (m.RegisterServer now serverID password roomID).1.rooms.lookup roomID = some r ∧
      r.ID = roomID ∧ r.ServerID = serverID ∧ r.PeerConnections = ∅ ∧ r.Connections = ∅ ∧
      r.CreatedAt = now ∧ r.LastActivity = now) ∧
    (m.RegisterServer now serverID password roomID).1.registeredServers.lookup serverID
      = some password ∧
    (m.RegisterServer now serverID password roomID).1.roomsOf serverID
      = m.roomsOf serverID ++ [roomID] ∧
    (∀ r, r ≠ roomID →
      (m.RegisterServer now serverID password roomID).1.rooms.lookup r = m.rooms.lookup r) ∧
    (∀ s, s ≠ serverID →
      (m.RegisterServer now serverID password roomID).1.roomsOf s = m.roomsOf s ∧
      (m.RegisterServer now serverID password roomID).1.registeredServers.lookup s
        = m.registeredServers.lookup s) := by
  obtain ⟨m1, hm1, hrooms, hidx, hreg, hothers⟩ :=
    room.checkServer_of_agree m serverID password hpw
  have hroom1 : m1.rooms.lookup roomID = none := by rw [hrooms]; exact hroom
  have hres : m.RegisterServer now serverID password roomID
      = (m1.createRoom now roomID serverID, none) := by
    simp [room.Manager.RegisterServer, hm1, hroom1]
  have hro : ∀ s, m1.roomsOf s = m.roomsOf s := by
    intro s
    simp [room.Manager.roomsOf, hidx]
  rw [hres]
  refine ⟨rfl, ⟨room.newRoom now roomID serverID, room.lookup_createRoom_self _ _ _ _,
    rfl, rfl, rfl, rfl, rfl, rfl⟩, hreg, ?_, ?_, ?_⟩
  · simp only [room.roomsOf_createRoom_self, hro]
  · intro r hr
    simp only [room.lookup_createRoom_ne _ _ _ _ _ hr, hrooms]
  · intro s hs
    exact ⟨by simp only [room.roomsOf_createRoom_ne _ _ _ _ _ hs, hro], hothers s hs⟩

/-- C5 at a concrete registry: server `s1` registers a second room `r5`. -/
theorem room.RegisterServer_creates_room_witness :
    (room.twoServers.RegisterServer 9 "s1" "p1" "r5").2 = none ∧
    (room.twoServers.RegisterServer 9 "s1" "p1" "r5").1.roomsOf "s1"
      = room.twoServers.roomsOf "s1" ++ ["r5"] :=
  ⟨(room.RegisterServer_creates_room room.twoServers 9 "s1" "p1" "r5" (by decide)
      (by decide)).1,
   (room.RegisterServer_creates_room room.twoServers 9 "s1" "p1" "r5" (by decide)
      (by decide)).2.2.2.1⟩

/-- C6: when serverID is registered with password, ValidateClientJoin(roomID, serverID,
password) on an unknown roomID succeeds and creates room roomID, owned by serverID,
with empty peer maps, appends roomID to serverID's index entry and leaves the other
rooms and the passwords as they were; on a roomID that exists with owner serverID it
succeeds and returns the registry unchanged. -/
theorem room.ValidateClientJoin_lazy_create (m : room.Manager) (now : Time)
    (roomID serverID password : String)
    (hreg : m.registeredServers.lookup serverID = some password) :
    (m.rooms.lookup roomID = none →
      (m.ValidateClientJoin now roomID serverID password).2 = none ∧
      (∃ r, (m.ValidateClientJoin now roomID serverID password).1.rooms.lookup roomID = some r ∧
        r.ID = roomID ∧ r.ServerID = serverID ∧ r.PeerConnections = ∅ ∧ r.Connections = ∅) ∧
      (m.ValidateClientJoin now roomID serverID password).1.roomsOf serverID
        = m.roomsOf serverID ++ [roomID] ∧
      (∀ r, r ≠ roomID →
        (m.ValidateClientJoin now roomID serverID password).1.rooms.lookup r
          = m.rooms.lookup r) ∧
      (m.ValidateClientJoin now roomID serverID password).1.registeredServers
        = m.registeredServers) ∧
    (∀ r, m.rooms.lookup roomID = some r → r.ServerID = serverID →
      m.ValidateClientJoin now roomID serverID password = (m, none)) := by
  refine ⟨?_, ?_⟩
  · intro hnone
    have hres : m.ValidateClientJoin now roomID serverID password
        = (m.createRoom now roomID serverID, none) := by
      simp [room.Manager.ValidateClientJoin, hreg, hnone]
    rw [hres]
    refine ⟨rfl, ⟨room.newRoom now roomID serverID, room.lookup_createRoom_self _ _ _ _,
      rfl, rfl, rfl, rfl⟩, room.roomsOf_createRoom_self _ _ _ _, ?_, rfl⟩
    intro r hr
    exact room.lookup_createRoom_ne _ _ _ _ _ hr
  · intro r hr hown
    simp [room.Manager.ValidateClientJoin, hreg, hr, hown]

/-- C6 at a concrete registry: a join for the new room `r3` under `s1`, and a join for
the existing room `r1`. -/
theorem room.ValidateClientJoin_lazy_create_witness :
    (room.twoServers.ValidateClientJoin 9 "r3" "s1" "p1").1.roomsOf "s1"
      = room.twoServers.roomsOf "s1" ++ ["r3"] ∧
    room.twoServers.ValidateClientJoin 9 "r1" "s1" "p1" = (room.twoServers, none) :=
  ⟨((room.ValidateClientJoin_lazy_create room.twoServers 9 "r3" "s1" "p1" (by decide)).1
      (by decide)).2.2.1,
   (room.ValidateClientJoin_lazy_create room.twoServers 9 "r1" "s1" "p1" (by decide)).2
      (room.newRoom 0 "r1" "s1") rfl (by decide)⟩

/-! ## The track registry keeps every track under its own ID -/

namespace track

open webrtc

theorem keyedByID_empty : KeyedByID (∅ : GoMap (Option TrackLocalStaticRTP)) := by
  intro e he
  simp at he

theorem keyedByID_erase (tracks : GoMap (Option TrackLocalStaticRTP)) (k : String)
    (h : KeyedByID tracks) : KeyedByID (tracks.erase k) := by
  intro e he
  exact h e ((List.kerase_sublist k tracks.entries).subset he)

theorem keyedByID_insert (tracks : GoMap (Option TrackLocalStaticRTP))
    (t : TrackLocalStaticRTP) (h : KeyedByID tracks) :
    KeyedByID (tracks.insert t.id (some t)) := by
  intro e he
  rw [AList.insert_entries] at he
  rcases List.mem_cons.1 he with heq | he
  · subst heq
    intro t' ht'
    cases ht'
    rfl
  · exact h e ((List.kerase_sublist t.id tracks.entries).subset he)

theorem keyedByID_NewManager (debug : Bool) : (NewManager debug).KeyedByID := by
  intro roomID
  exact keyedByID_empty

theorem keyedByID_AddTrackToRoom (m : Manager) (newTrackErr : Option GoError)
    (roomID : String) (t : TrackRemote) (h : m.KeyedByID) :
    (m.AddTrackToRoom newTrackErr roomID t).1.KeyedByID := by
  unfold Manager.AddTrackToRoom
  cases newTrackErr with
  | some e => exact h
  | none =>
    intro r
    dsimp only
    unfold Manager.GetTracksInRoom
    by_cases hr : r = roomID
    · subst hr
      dsimp only
      rw [AList.lookup_insert]
      dsimp only
      have hold : KeyedByID ((m.roomTracks.lookup r).getD ∅) := by
        have := h r
        unfold Manager.GetTracksInRoom at this
        cases hl : m.roomTracks.lookup r with
        | none => exact keyedByID_empty
        | some rt => rw [hl] at this; exact this
      exact keyedByID_insert _ ⟨t.id, t.streamID, t.codec⟩ hold
    · dsimp only
      rw [AList.lookup_insert_ne hr]
      exact h r

theorem keyedByID_RemoveTrackFromRoom (m : Manager) (roomID : String)
    (t : Option TrackLocalStaticRTP) (h : m.KeyedByID) :
    (m.RemoveTrackFromRoom roomID t).KeyedByID := by
  unfold Manager.RemoveTrackFromRoom
  cases hl : m.roomTracks.lookup roomID with
  | none => exact h
  | some rt =>
    dsimp only
    cases t with
    | none => exact h
    | some t =>
      dsimp only
      have hrt : KeyedByID rt := by
        have := h roomID
        unfold Manager.GetTracksInRoom at this
        rw [hl] at this
        exact this
      split
      · split
        · intro r
          unfold Manager.GetTracksInRoom
          dsimp only
          by_cases hr : r = roomID
          · subst hr
            rw [AList.lookup_erase]
            exact keyedByID_empty
          · rw [AList.lookup_erase_ne hr]
            exact h r
        · intro r
          unfold Manager.GetTracksInRoom
          dsimp only
          by_cases hr : r = roomID
          · subst hr
            rw [AList.lookup_insert]
            exact keyedByID_erase rt t.id hrt
          · rw [AList.lookup_insert_ne hr]
            exact h r
      · exact h

end track

/-! ## Lemmas on the two loops of `processPeerConnection` -/

namespace signaling

open webrtc

theorem senderTrackIDs_append (a b : List (Option RTPSender)) :
    senderTrackIDs (a ++ b) = senderTrackIDs a ++ senderTrackIDs b := by
  induction a with
  | nil => rfl
  | cons x xs ih =>
    match x with
    | none => simpa [senderTrackIDs] using ih
    | some ⟨none⟩ => simpa [senderTrackIDs] using ih
    | some ⟨some t⟩ => simp [senderTrackIDs, ih]

theorem RemoveTrack_visited (pc : PeerConnection) (done todo : List (Option RTPSender))
    (s : Option RTPSender) :
    ({ pc with senders := done ++ s :: todo } : PeerConnection).RemoveTrack done.length
      = { pc with senders := (done ++ [some { track := none }]) ++ todo } := by
  unfold PeerConnection.RemoveTrack
  induction done with
  | nil => simp
  | cons x xs ih =>
    simp only [List.cons_append, List.length_cons, List.set_cons_succ, List.append_assoc,
      List.singleton_append] at ih ⊢
    simp only [PeerConnection.mk.injEq, true_and] at ih ⊢
    simp [ih]

theorem removeObsolete_length (lib : Library) (tracks : GoMap (Option TrackLocalStaticRTP))
    (pc : PeerConnection) (todo : List (Option RTPSender)) :
    ∀ (done : List (Option RTPSender)) (removed : List Nat),
      (removeObsolete lib tracks pc done todo removed).1.length = done.length + todo.length := by
  induction todo with
  | nil => intro done removed; simp [removeObsolete]
  | cons x xs ih =>
    intro done removed
    match x with
    | none => simp [removeObsolete, ih]; omega
    | some ⟨none⟩ => simp [removeObsolete, ih]; omega
    | some ⟨some t⟩ =>
      simp only [removeObsolete]
      split
      · simp [ih]; omega
      · split
        · simp
        · simp [ih]; omega

theorem removeObsolete_ids (lib : Library) (tracks : GoMap (Option TrackLocalStaticRTP))
    (pc : PeerConnection) (todo : List (Option RTPSender)) :
    ∀ (done : List (Option RTPSender)) (removed : List Nat) (id : String),
      id ∈ senderTrackIDs (removeObsolete lib tracks pc done todo removed).1 →
      id ∈ senderTrackIDs done ∨ id ∈ senderTrackIDs todo := by
  induction todo with
  | nil => intro done removed id h; exact Or.inl (by simpa [removeObsolete] using h)
  | cons x xs ih =>
    intro done removed id
    match x with
    | none =>
      simp only [removeObsolete]
      intro h
      simpa [senderTrackIDs_append, senderTrackIDs] using ih _ _ _ h
    | some ⟨none⟩ =>
      simp only [removeObsolete]
      intro h
      simpa [senderTrackIDs_append, senderTrackIDs] using ih _ _ _ h
    | some ⟨some t⟩ =>
      simp only [removeObsolete]
      split
      · intro h
        have := ih _ _ _ h
        simp [senderTrackIDs_append, senderTrackIDs] at this ⊢
        tauto
      · split
        · intro h
          simpa [senderTrackIDs_append, senderTrackIDs] using h
        · intro h
          have := ih _ _ _ h
          simp [senderTrackIDs_append, senderTrackIDs] at this ⊢
          tauto

theorem removeObsolete_ids_ok (lib : Library) (tracks : GoMap (Option TrackLocalStaticRTP))
    (pc : PeerConnection) (todo : List (Option RTPSender)) :
    ∀ (done : List (Option RTPSender)) (removed : List Nat),
      (removeObsolete lib tracks pc done todo removed).2.2 = none →
      ∀ id, id ∈ senderTrackIDs (removeObsolete lib tracks pc done todo removed).1 ↔
        id ∈ senderTrackIDs done ∨
          (id ∈ senderTrackIDs todo ∧ (tracks.lookup id).isSome = true) := by
  induction todo with
  | nil => intro done removed _ id; simp [removeObsolete, senderTrackIDs]
  | cons x xs ih =>
    intro done removed
    match x with
    | none =>
      simp only [removeObsolete]
      intro h id
      rw [ih _ _ h id]
      simp [senderTrackIDs_append, senderTrackIDs]
    | some ⟨none⟩ =>
      simp only [removeObsolete]
      intro h id
      rw [ih _ _ h id]
      simp [senderTrackIDs_append, senderTrackIDs]
    | some ⟨some t⟩ =>
      simp only [removeObsolete]
      split
      · rename_i hin
        intro h id
        rw [ih _ _ h id]
        simp only [senderTrackIDs_append, senderTrackIDs, List.mem_append, List.mem_cons,
          List.mem_singleton, List.not_mem_nil, or_false]
        constructor
        · rintro ((h1 | h1) | h1)
          · exact Or.inl h1
          · exact Or.inr ⟨Or.inl h1, h1 ▸ hin⟩
          · exact Or.inr ⟨Or.inr h1.1, h1.2⟩
        · rintro (h1 | ⟨h1 | h1, h2⟩)
          · exact Or.inl (Or.inl h1)
          · exact Or.inl (Or.inr h1)
          · exact Or.inr ⟨h1, h2⟩
      · rename_i hin
        split
        · intro h; simp at h
        · intro h id
          rw [ih _ _ h id]
          simp only [senderTrackIDs_append, senderTrackIDs, List.mem_append, List.mem_cons,
            List.not_mem_nil, or_false]
          constructor
          · rintro (h1 | h1)
            · exact Or.inl h1
            · exact Or.inr ⟨Or.inr h1.1, h1.2⟩
          · rintro (h1 | ⟨h1 | h1, h2⟩)
            · exact Or.inl h1
            · exact absurd (h1 ▸ h2) hin
            · exact Or.inr ⟨h1, h2⟩

theorem addMissing_spec (lib : Library) (existingSenders : List String)
    (entries : List (Sigma fun _ : String => Option TrackLocalStaticRTP)) :
    ∀ (pc : PeerConnection) (added : List TrackLocalStaticRTP),
      ∃ new : List TrackLocalStaticRTP,
        (addMissing lib existingSenders entries pc added).2.1 = added ++ new ∧
        (addMissing lib existingSenders entries pc added).1
          = { pc with senders := pc.senders ++ new.map (fun t => some { track := some t }) } ∧
        (∀ t ∈ new, ∃ k, (⟨k, some t⟩ : Sigma fun _ : String => Option TrackLocalStaticRTP)
          ∈ entries ∧ k ∉ existingSenders) ∧
        ((addMissing lib existingSenders entries pc added).2.2 = none →
          ∀ k t, (⟨k, some t⟩ : Sigma fun _ : String => Option TrackLocalStaticRTP) ∈ entries →
            k ∉ existingSenders → t ∈ new) := by
  induction entries with
  | nil =>
    intro pc added
    exact ⟨[], by simp [addMissing], by simp [addMissing], by simp, by simp⟩
  | cons e rest ih =>
    intro pc added
    match e with
    | ⟨k, none⟩ =>
      obtain ⟨new, h1, h2, h3, h4⟩ := ih pc added
      refine ⟨new, by simpa [addMissing] using h1, by simpa [addMissing] using h2, ?_, ?_⟩
      · intro t ht
        obtain ⟨k', hk, hk'⟩ := h3 t ht
        exact ⟨k', List.mem_cons_of_mem _ hk, hk'⟩
      · intro h k' t hmem hk'
        simp only [addMissing] at h
        rcases List.mem_cons.1 hmem with heq | hmem
        · cases heq
        · exact h4 h k' t hmem hk'
    | ⟨k, some localTrack⟩ =>
      by_cases hex : k ∈ existingSenders
      · obtain ⟨new, h1, h2, h3, h4⟩ := ih pc added
        refine ⟨new, by simpa [addMissing, hex] using h1, by simpa [addMissing, hex] using h2,
          ?_, ?_⟩
        · intro t ht
          obtain ⟨k', hk, hk'⟩ := h3 t ht
          exact ⟨k', List.mem_cons_of_mem _ hk, hk'⟩
        · intro h k' t hmem hk'
          simp only [addMissing, hex, if_true] at h
          rcases List.mem_cons.1 hmem with heq | hmem
          · cases heq
            exact absurd hex hk'
          · exact h4 h k' t hmem hk'
      · cases herr : lib.addTrackErr pc localTrack with
        | some err =>
          refine ⟨[], by simp [addMissing, hex, herr], by simp [addMissing, hex, herr],
            by simp, ?_⟩
          intro h
          simp [addMissing, hex, herr] at h
        | none =>
          obtain ⟨new, h1, h2, h3, h4⟩ := ih (pc.AddTrack localTrack) (added ++ [localTrack])
          refine ⟨localTrack :: new, ?_, ?_, ?_, ?_⟩
          · simpa [addMissing, hex, herr] using h1
          · simpa [addMissing, hex, herr, PeerConnection.AddTrack] using h2
          · intro t ht
            rcases List.mem_cons.1 ht with heq | ht
            · subst heq
              exact ⟨k, List.mem_cons_self _ _, hex⟩
            · obtain ⟨k', hk, hk'⟩ := h3 t ht
              exact ⟨k', List.mem_cons_of_mem _ hk, hk'⟩
          · intro h k' t hmem hk'
            simp only [addMissing, hex, herr, if_false] at h
            rcases List.mem_cons.1 hmem with heq | hmem
            · cases heq
              exact List.mem_cons_self _ _
            · exact List.mem_cons_of_mem _ (h4 h k' t hmem hk')

theorem sendOffer_fields (lib : Library) (clientID : String) (pc : PeerConnection)
    (wsConn : Option room.JSONWriter) (removed : List Nat) (added : List TrackLocalStaticRTP) :
    (sendOffer lib clientID pc wsConn removed added).pc.senders = pc.senders ∧
    (sendOffer lib clientID pc wsConn removed added).pc.receivers = pc.receivers ∧
    (sendOffer lib clientID pc wsConn removed added).pc.connectionState = pc.connectionState ∧
    (sendOffer lib clientID pc wsConn removed added).removed = removed ∧
    (sendOffer lib clientID pc wsConn removed added).added = added := by
  unfold sendOffer
  cases lib.createOffer pc with
  | error e => simp
  | ok offer =>
    dsimp only
    cases lib.setLocalDescriptionErr pc offer with
    | some e => simp
    | none =>
      dsimp only
      cases lib.jsonMarshal offer with
      | error e => simp [PeerConnection.SetLocalDescription]
      | ok offerString =>
        cases wsConn with
        | none => simp [PeerConnection.SetLocalDescription]
        | some conn => simp [PeerConnection.SetLocalDescription]

/-- The shape of the result on a stable connection. -/
theorem processPeerConnection_senders_shape (c : Coordinator) (lib : Library) (clientID : String)
    (pc : PeerConnection) (wsConn : Option room.JSONWriter)
    (tracks : GoMap (Option TrackLocalStaticRTP)) (roomID : String) :
    ∃ kept : List (Option RTPSender),
      kept.length = pc.senders.length ∧
      (c.processPeerConnection lib clientID pc wsConn tracks roomID).pc.senders
        = kept ++ (c.processPeerConnection lib clientID pc wsConn tracks roomID).added.map
            (fun t => some { track := some t }) ∧
      (∀ id, id ∈ senderTrackIDs kept → id ∈ senderTrackIDs pc.senders) ∧
      (∀ t ∈ (c.processPeerConnection lib clientID pc wsConn tracks roomID).added,
        ∃ k, (⟨k, some t⟩ : Sigma fun _ : String => Option TrackLocalStaticRTP) ∈ tracks.entries ∧
          k ∉ senderTrackIDs pc.senders ++ receiverTrackIDs pc.receivers) ∧
      ((c.processPeerConnection lib clientID pc wsConn tracks roomID).err = none →
        pc.signalingState = .Stable →
        (∀ id, id ∈ senderTrackIDs kept ↔
          id ∈ senderTrackIDs pc.senders ∧ (tracks.lookup id).isSome = true) ∧
        (∀ k t, (⟨k, some t⟩ : Sigma fun _ : String => Option TrackLocalStaticRTP)
            ∈ tracks.entries →
          k ∉ senderTrackIDs pc.senders ++ receiverTrackIDs pc.receivers →
          t ∈ (c.processPeerConnection lib clientID pc wsConn tracks roomID).added)) := by
  unfold Coordinator.processPeerConnection
  by_cases hs : pc.signalingState = .Stable
  · rw [if_neg (by simp [hs])]
    have hlen := removeObsolete_length lib tracks pc pc.senders [] []
    have hids := removeObsolete_ids lib tracks pc pc.senders [] []
    have hok := removeObsolete_ids_ok lib tracks pc pc.senders [] []
    rcases hrm : removeObsolete lib tracks pc [] pc.senders [] with ⟨senders, removed, e⟩
    rw [hrm] at hlen hids hok
    simp only [List.length_nil, Nat.zero_add] at hlen
    have hids' : ∀ id, id ∈ senderTrackIDs senders → id ∈ senderTrackIDs pc.senders := by
      intro id h
      rcases hids id h with h | h
      · simp [senderTrackIDs] at h
      · exact h
    cases e with
    | some e =>
      exact ⟨senders, hlen, by simp, hids', by simp, by simp⟩
    | none =>
      dsimp only
      obtain ⟨new, h1, h2, h3, h4⟩ := addMissing_spec lib
        (senderTrackIDs pc.senders ++ receiverTrackIDs pc.receivers) tracks.entries
        { pc with senders := senders } []
      rcases ham : addMissing lib (senderTrackIDs pc.senders ++ receiverTrackIDs pc.receivers)
        tracks.entries { pc with senders := senders } [] with ⟨pc2, added, e2⟩
      rw [ham] at h1 h2 h4
      simp only [List.nil_append] at h1
      subst h1
      subst h2
      have hkept : ∀ id, id ∈ senderTrackIDs senders ↔
          id ∈ senderTrackIDs pc.senders ∧ (tracks.lookup id).isSome = true := by
        intro id
        rw [hok rfl id]
        simp [senderTrackIDs]
      cases e2 with
      | some e2 =>
        exact ⟨senders, hlen, by simp, hids', h3, by simp⟩
      | none =>
        dsimp only
        split
        · exact ⟨senders, hlen, by simp, hids', h3, fun _ _ => ⟨hkept, h4 rfl⟩⟩
        · obtain ⟨f1, -, -, -, f5⟩ := sendOffer_fields lib clientID
            { pc with senders := senders ++ List.map (fun t => some { track := some t }) added }
            wsConn removed added
          refine ⟨senders, hlen, ?_, hids', ?_, fun _ _ => ⟨hkept, ?_⟩⟩
          · rw [f1, f5]
          · rw [f5]; exact h3
          · rw [f5]; exact h4 rfl
  · simp only [ne_eq, hs, not_false_eq_true, ↓reduceIte]
    exact ⟨pc.senders, rfl, by simp, fun _ h => h, by simp, fun _ h => h.elim⟩

theorem addMissing_sublist (lib : Library) (existingSenders : List String)
    (entries : List (Sigma fun _ : String => Option TrackLocalStaticRTP)) :
    ∀ (pc : PeerConnection) (added : List TrackLocalStaticRTP),
      ∃ sub : List (Sigma fun _ : String => Option TrackLocalStaticRTP),
        sub.Sublist entries ∧
        (addMissing lib existingSenders entries pc added).2.1 = added ++ sub.filterMap (fun e => e.2) ∧
        (∀ e ∈ sub, e.2 ≠ none) := by
  induction entries with
  | nil =>
    intro pc added
    exact ⟨[], List.Sublist.refl _, by simp [addMissing], by simp⟩
  | cons e rest ih =>
    intro pc added
    match e with
    | ⟨k, none⟩ =>
      obtain ⟨sub, h1, h2, h3⟩ := ih pc added
      exact ⟨sub, h1.cons _, by simpa [addMissing] using h2, h3⟩
    | ⟨k, some localTrack⟩ =>
      by_cases hex : k ∈ existingSenders
      · obtain ⟨sub, h1, h2, h3⟩ := ih pc added
        exact ⟨sub, h1.cons _, by simpa [addMissing, hex] using h2, h3⟩
      · cases herr : lib.addTrackErr pc localTrack with
        | some err =>
          exact ⟨[], List.nil_sublist _, by simp [addMissing, hex, herr], by simp⟩
        | none =>
          obtain ⟨sub, h1, h2, h3⟩ := ih (pc.AddTrack localTrack) (added ++ [localTrack])
          refine ⟨⟨k, some localTrack⟩ :: sub, h1.cons₂ _, ?_, ?_⟩
          · simpa [addMissing, hex, herr] using h2
          · intro e he
            rcases List.mem_cons.1 he with heq | he
            · subst heq; simp
            · exact h3 e he

theorem keyed_filterMap_ids (tracks : GoMap (Option TrackLocalStaticRTP))
    (hkey : track.KeyedByID tracks)
    (sub : List (Sigma fun _ : String => Option TrackLocalStaticRTP))
    (hsub : ∀ e ∈ sub, e ∈ tracks.entries) (hsome : ∀ e ∈ sub, e.2 ≠ none) :
    (sub.filterMap (fun e => e.2)).map (fun t => t.id) = sub.keys := by
  induction sub with
  | nil => rfl
  | cons e rest ih =>
    have ih' := ih (fun x hx => hsub x (List.mem_cons_of_mem _ hx))
      (fun x hx => hsome x (List.mem_cons_of_mem _ hx))
    obtain ⟨k, v⟩ := e
    cases v with
    | none => exact absurd rfl (hsome ⟨k, none⟩ (List.mem_cons_self _ _))
    | some t =>
      have hid : t.id = k := hkey ⟨k, some t⟩ (hsub _ (List.mem_cons_self _ _)) t rfl
      simp [List.filterMap_cons, ih', hid]

theorem processPeerConnection_added_sublist (c : Coordinator) (lib : Library) (clientID : String)
    (pc : PeerConnection) (wsConn : Option room.JSONWriter)
    (tracks : GoMap (Option TrackLocalStaticRTP)) (roomID : String) :
    ∃ sub : List (Sigma fun _ : String => Option TrackLocalStaticRTP),
        sub.Sublist tracks.entries ∧
        (c.processPeerConnection lib clientID pc wsConn tracks roomID).added
          = sub.filterMap (fun e => e.2) ∧
        (∀ e ∈ sub, e.2 ≠ none) := by
  unfold Coordinator.processPeerConnection
  by_cases hs : pc.signalingState = .Stable
  · rw [if_neg (by simp [hs])]
    rcases hrm : removeObsolete lib tracks pc [] pc.senders [] with ⟨senders, removed, e⟩
    cases e with
    | some e => exact ⟨[], List.nil_sublist _, by simp, by simp⟩
    | none =>
      dsimp only
      obtain ⟨sub, h1, h2, h3⟩ := addMissing_sublist lib
        (senderTrackIDs pc.senders ++ receiverTrackIDs pc.receivers) tracks.entries
        { pc with senders := senders } []
      rcases ham : addMissing lib (senderTrackIDs pc.senders ++ receiverTrackIDs pc.receivers)
        tracks.entries { pc with senders := senders } [] with ⟨pc2, added, e2⟩
      rw [ham] at h2
      simp only [List.nil_append] at h2
      cases e2 with
      | some e2 => exact ⟨sub, h1, h2, h3⟩
      | none =>
        dsimp only
        split
        · exact ⟨sub, h1, h2, h3⟩
        · exact ⟨sub, h1, by rw [(sendOffer_fields lib clientID pc2 wsConn removed added).2.2.2.2]; exact h2, h3⟩
  · rw [if_pos hs]
    exact ⟨[], List.nil_sublist _, by simp, by simp⟩

theorem senderTrackIDs_map_some (l : List TrackLocalStaticRTP) :
    senderTrackIDs (l.map (fun t => some { track := some t })) = l.map (fun t => t.id) := by
  induction l with
  | nil => rfl
  | cons t rest ih => simp [senderTrackIDs, ih]

theorem keyedByID_echoTracks : track.KeyedByID echoTracks :=
  track.keyedByID_insert ∅ ⟨"x", "s", "opus"⟩ track.keyedByID_empty

theorem keyedByID_twoTracks : track.KeyedByID twoTracks := by
  intro e he t ht
  have h : e = ⟨"b", some ⟨"b", "t", "opus"⟩⟩ ∨ e = ⟨"a", some ⟨"a", "s", "opus"⟩⟩ := by
    simpa [twoTracks] using he
  rcases h with rfl | rfl <;> cases ht <;> rfl

theorem removeObsolete_skip (lib : Library) (tracks : GoMap (Option TrackLocalStaticRTP))
    (pc : PeerConnection) (xs : List (Option RTPSender)) :
    ∀ (done todo : List (Option RTPSender)) (removed : List Nat),
      (∀ s ∈ xs, Kept tracks s) →
      removeObsolete lib tracks pc done (xs ++ todo) removed
        = removeObsolete lib tracks pc (done ++ xs) todo removed := by
  induction xs with
  | nil => intro done todo removed _; simp
  | cons x xs ih =>
    intro done todo removed hk
    have hx := hk x (List.mem_cons_self _ _)
    have hrest : ∀ s ∈ xs, Kept tracks s := fun s hs => hk s (List.mem_cons_of_mem _ hs)
    match x with
    | none =>
      rw [List.cons_append, removeObsolete, ih _ _ _ hrest]
      simp
    | some ⟨none⟩ =>
      rw [List.cons_append, removeObsolete, ih _ _ _ hrest]
      simp
    | some ⟨some t⟩ =>
      simp only [Kept] at hx
      rw [List.cons_append, removeObsolete, if_pos hx, ih _ _ _ hrest]
      simp

theorem removeObsolete_fixed (lib : Library) (tracks : GoMap (Option TrackLocalStaticRTP))
    (pc : PeerConnection) (todo : List (Option RTPSender)) :
    ∀ (done : List (Option RTPSender)) (removed : List Nat),
      (∀ s ∈ done, Kept tracks s) →
      (∀ r0, removeObsolete lib tracks pc []
          (removeObsolete lib tracks pc done todo removed).1 r0
        = ((removeObsolete lib tracks pc done todo removed).1, r0,
            (removeObsolete lib tracks pc done todo removed).2.2)) ∧
      ((removeObsolete lib tracks pc done todo removed).2.2 = none →
        ∀ s ∈ (removeObsolete lib tracks pc done todo removed).1, Kept tracks s) := by
  induction todo with
  | nil =>
    intro done removed hk
    simp only [removeObsolete]
    refine ⟨fun r0 => ?_, fun _ => hk⟩
    have := removeObsolete_skip lib tracks pc done [] [] r0 hk
    simpa [removeObsolete] using this
  | cons x xs ih =>
    intro done removed hk
    have hstep : ∀ y, Kept tracks y → ∀ s ∈ done ++ [y], Kept tracks s := by
      intro y hy s hs
      rcases List.mem_append.1 hs with h | h
      · exact hk s h
      · rw [List.mem_singleton.1 h]; exact hy
    match x with
    | none =>
      simp only [removeObsolete]
      exact ih _ _ (hstep none trivial)
    | some ⟨none⟩ =>
      simp only [removeObsolete]
      exact ih _ _ (hstep (some ⟨none⟩) trivial)
    | some ⟨some t⟩ =>
      by_cases hin : (tracks.lookup t.id).isSome = true
      · have hres : removeObsolete lib tracks pc done (some ⟨some t⟩ :: xs) removed
            = removeObsolete lib tracks pc (done ++ [some ⟨some t⟩]) xs removed := by
          rw [removeObsolete, if_pos hin]
        rw [hres]
        exact ih _ _ (hstep (some ⟨some t⟩) hin)
      · cases herr : lib.removeTrackErr
            { pc with senders := done ++ some { track := some t } :: xs } done.length with
        | some e =>
          have hres : ∀ r, removeObsolete lib tracks pc done (some ⟨some t⟩ :: xs) r
              = (done ++ some ⟨some t⟩ :: xs, r, some e) := by
            intro r
            rw [removeObsolete, if_neg hin]
            simp only [herr]
          rw [hres]
          refine ⟨fun r0 => ?_, fun h => by simp at h⟩
          have := removeObsolete_skip lib tracks pc done [] (some ⟨some t⟩ :: xs) r0 hk
          simp only [List.nil_append] at this
          dsimp only
          rw [this, hres]
        | none =>
          have hres : removeObsolete lib tracks pc done (some ⟨some t⟩ :: xs) removed
              = removeObsolete lib tracks pc (done ++ [some ⟨none⟩]) xs
                  (removed ++ [done.length]) := by
            rw [removeObsolete, if_neg hin]
            simp only [herr]
          rw [hres]
          exact ih _ _ (hstep (some ⟨none⟩) trivial)

theorem addMissing_acc (lib : Library) (existingSenders : List String)
    (entries : List (Sigma fun _ : String => Option TrackLocalStaticRTP)) :
    ∀ (pc : PeerConnection) (added : List TrackLocalStaticRTP),
      addMissing lib existingSenders entries pc added
        = ((addMissing lib existingSenders entries pc []).1,
            added ++ (addMissing lib existingSenders entries pc []).2.1,
            (addMissing lib existingSenders entries pc []).2.2) := by
  induction entries with
  | nil => intro pc added; simp [addMissing]
  | cons e rest ih =>
    intro pc added
    match e with
    | ⟨k, none⟩ =>
      rw [addMissing, addMissing]
      exact ih pc added
    | ⟨k, some localTrack⟩ =>
      by_cases hex : k ∈ existingSenders
      · rw [addMissing, addMissing, if_pos hex, if_pos hex]
        exact ih pc added
      · rw [addMissing, addMissing, if_neg hex, if_neg hex]
        cases herr : lib.addTrackErr pc localTrack with
        | some err => simp
        | none =>
          dsimp only
          rw [ih (pc.AddTrack localTrack) (added ++ [localTrack]),
            ih (pc.AddTrack localTrack) ([] ++ [localTrack])]
          simp

theorem addMissing_fixed (lib : Library) (ex ex' : List String)
    (entries : List (Sigma fun _ : String => Option TrackLocalStaticRTP))
    (hnd : entries.NodupKeys)
    (hkey : ∀ e ∈ entries, ∀ t, e.2 = some t → t.id = e.1) :
    ∀ (pc : PeerConnection),
      (∀ k t, (⟨k, some t⟩ : Sigma fun _ : String => Option TrackLocalStaticRTP) ∈ entries →
        (k ∈ ex' ↔ k ∈ ex ∨ t ∈ (addMissing lib ex entries pc []).2.1)) →
      ∀ r0, addMissing lib ex' entries (addMissing lib ex entries pc []).1 r0
        = ((addMissing lib ex entries pc []).1, r0, (addMissing lib ex entries pc []).2.2) := by
  induction entries with
  | nil => intro pc _ r0; simp [addMissing]
  | cons e rest ih =>
    intro pc hyp r0
    have hnd' : rest.NodupKeys := (List.nodupKeys_cons.1 hnd).2
    have hkey' : ∀ e ∈ rest, ∀ t, e.2 = some t → t.id = e.1 :=
      fun e he => hkey e (List.mem_cons_of_mem _ he)
    match e with
    | ⟨k, none⟩ =>
      have h1 : addMissing lib ex (⟨k, none⟩ :: rest) pc [] = addMissing lib ex rest pc [] := by
        rw [addMissing]
      rw [h1] at hyp ⊢
      rw [addMissing]
      exact ih hnd' hkey' pc (fun k' t' hm => hyp k' t' (List.mem_cons_of_mem _ hm)) r0
    | ⟨k, some localTrack⟩ =>
      by_cases hex : k ∈ ex
      · have h1 : addMissing lib ex (⟨k, some localTrack⟩ :: rest) pc []
            = addMissing lib ex rest pc [] := by
          rw [addMissing, if_pos hex]
        rw [h1] at hyp ⊢
        have hk' : k ∈ ex' := (hyp k localTrack (List.mem_cons_self _ _)).2 (Or.inl hex)
        rw [addMissing, if_pos hk']
        exact ih hnd' hkey' pc (fun k' t' hm => hyp k' t' (List.mem_cons_of_mem _ hm)) r0
      · cases herr : lib.addTrackErr pc localTrack with
        | some err =>
          have h1 : addMissing lib ex (⟨k, some localTrack⟩ :: rest) pc []
              = (pc, [], some err) := by
            rw [addMissing, if_neg hex]
            simp only [herr]
          rw [h1] at hyp ⊢
          have hk' : k ∉ ex' := by
            intro h
            rcases (hyp k localTrack (List.mem_cons_self _ _)).1 h with h | h
            · exact hex h
            · simp at h
          dsimp only
          rw [addMissing, if_neg hk']
          simp only [herr]
        | none =>
          have h1 : addMissing lib ex (⟨k, some localTrack⟩ :: rest) pc []
              = ((addMissing lib ex rest (pc.AddTrack localTrack) []).1,
                  localTrack :: (addMissing lib ex rest (pc.AddTrack localTrack) []).2.1,
                  (addMissing lib ex rest (pc.AddTrack localTrack) []).2.2) := by
            rw [addMissing, if_neg hex]
            simp only [herr]
            rw [addMissing_acc]
            simp
          rw [h1] at hyp ⊢
          have hk' : k ∈ ex' :=
            (hyp k localTrack (List.mem_cons_self _ _)).2 (Or.inr (List.mem_cons_self _ _))
          dsimp only at hyp ⊢
          rw [addMissing, if_pos hk']
          refine ih hnd' hkey' (pc.AddTrack localTrack) ?_ r0
          intro k' t' hm
          rw [hyp k' t' (List.mem_cons_of_mem _ hm)]
          have hne : t' ≠ localTrack := by
            intro heq
            subst heq
            have e1 : t'.id = k' := hkey' _ hm t' rfl
            have e2 : t'.id = k := hkey _ (List.mem_cons_self _ _) t' rfl
            have hkk : k' = k := e1.symm.trans e2
            subst hkk
            have : k' ∈ rest.keys := List.mem_keys_of_mem hm
            exact (List.nodupKeys_cons.1 hnd).1 this
          simp [hne]

theorem removeObsolete_congr (lib : Library) (tracks : GoMap (Option TrackLocalStaticRTP))
    (pc : PeerConnection) (x : List (Option RTPSender)) (todo : List (Option RTPSender)) :
    ∀ (done : List (Option RTPSender)) (removed : List Nat),
      removeObsolete lib tracks { pc with senders := x } done todo removed
        = removeObsolete lib tracks pc done todo removed := by
  induction todo with
  | nil => intro done removed; rw [removeObsolete, removeObsolete]
  | cons s rest ih =>
    intro done removed
    match s with
    | none => rw [removeObsolete, removeObsolete]; exact ih _ _
    | some ⟨none⟩ => rw [removeObsolete, removeObsolete]; exact ih _ _
    | some ⟨some t⟩ =>
      rw [removeObsolete, removeObsolete]
      simp only [ih]

theorem quiet_of_not_stable (lib : Library) (tracks : GoMap (Option TrackLocalStaticRTP))
    (pc : PeerConnection) (h : pc.signalingState ≠ .Stable) : Quiet lib tracks pc := by
  intro c clientID ws roomID
  unfold Coordinator.processPeerConnection
  rw [if_pos h]
  exact ⟨rfl, rfl⟩

/-- The second run on a stable connection whose two loops find nothing to do. -/
theorem quiet_of_fixed (lib : Library) (tracks : GoMap (Option TrackLocalStaticRTP))
    (pc : PeerConnection) (e2 : Option GoError)
    (hrm : removeObsolete lib tracks pc [] pc.senders [] = (pc.senders, [], none))
    (ham : addMissing lib (senderTrackIDs pc.senders ++ receiverTrackIDs pc.receivers)
      tracks.entries pc [] = (pc, [], e2))
    (hend : e2 ≠ none ∨ pc.connectionState ≠ .New ∨
      (∃ e, lib.createOffer pc = .error e) ∨
      (∃ offer e, lib.createOffer pc = .ok offer ∧ lib.setLocalDescriptionErr pc offer = some e)) :
    Quiet lib tracks pc := by
  intro c clientID ws roomID
  by_cases hs : pc.signalingState = .Stable
  · unfold Coordinator.processPeerConnection
    rw [if_neg (by simp [hs]), hrm]
    dsimp only
    have hpc : ({ pc with senders := pc.senders } : PeerConnection) = pc := rfl
    rw [hpc, ham]
    cases e2 with
    | some e => exact ⟨rfl, rfl⟩
    | none =>
      dsimp only
      by_cases hnew : pc.connectionState = .New
      · rw [if_neg (by simp [hnew])]
        rcases hend with h | h | ⟨e, h⟩ | ⟨offer, e, h1, h2⟩
        · exact absurd rfl h
        · exact absurd hnew h
        · unfold sendOffer
          rw [h]
          exact ⟨rfl, rfl⟩
        · unfold sendOffer
          rw [h1]
          dsimp only
          rw [h2]
          exact ⟨rfl, rfl⟩
      · rw [if_pos (by simp [hnew])]
        exact ⟨rfl, rfl⟩
  · exact quiet_of_not_stable lib tracks pc hs c clientID ws roomID


theorem processPeerConnection_quiet (c : Coordinator) (lib : Library) (clientID : String)
    (pc : PeerConnection) (wsConn : Option room.JSONWriter)
    (tracks : GoMap (Option TrackLocalStaticRTP)) (roomID : String)
    (hkey : track.KeyedByID tracks) :
    Quiet lib tracks (c.processPeerConnection lib clientID pc wsConn tracks roomID).pc := by
  by_cases hs : pc.signalingState = .Stable
  swap
  · have : (c.processPeerConnection lib clientID pc wsConn tracks roomID).pc = pc := by
      unfold Coordinator.processPeerConnection
      rw [if_pos hs]
    rw [this]
    exact quiet_of_not_stable lib tracks pc hs
  unfold Coordinator.processPeerConnection
  rw [if_neg (by simp [hs])]
  have hfix := removeObsolete_fixed lib tracks pc pc.senders [] [] (by simp)
  have hids := removeObsolete_ids lib tracks pc pc.senders [] []
  have hidsok := removeObsolete_ids_ok lib tracks pc pc.senders [] []
  rcases hrm : removeObsolete lib tracks pc [] pc.senders [] with ⟨s1, r1, e1⟩
  rw [hrm] at hfix hids hidsok
  dsimp only at hfix hids hidsok
  cases e1 with
  | some e =>
    dsimp only
    intro c' clientID' ws' roomID'
    unfold Coordinator.processPeerConnection
    rw [if_neg (by simp [hs])]
    dsimp only
    rw [removeObsolete_congr, hfix.1 []]
    exact ⟨rfl, rfl⟩
  | none =>
    dsimp only
    obtain ⟨new, h1, h2, h3, -⟩ := addMissing_spec lib
      (senderTrackIDs pc.senders ++ receiverTrackIDs pc.receivers) tracks.entries
      { pc with senders := s1 } []
    have hafix := addMissing_fixed lib
      (senderTrackIDs pc.senders ++ receiverTrackIDs pc.receivers)
      (senderTrackIDs (s1 ++ new.map (fun t => some { track := some t })) ++
        receiverTrackIDs pc.receivers)
      tracks.entries tracks.nodupKeys hkey { pc with senders := s1 }
    rcases ham : addMissing lib (senderTrackIDs pc.senders ++ receiverTrackIDs pc.receivers)
      tracks.entries { pc with senders := s1 } [] with ⟨pcB, added, e2⟩
    rw [ham] at h1 h2 hafix
    simp only [List.nil_append] at h1
    dsimp only at h2 hafix
    subst h1
    -- the connection after both loops
    have hkeptAdded : ∀ t ∈ added, (tracks.lookup t.id).isSome = true := by
      intro t ht
      obtain ⟨k, hk, -⟩ := h3 t ht
      have hid : t.id = k := hkey ⟨k, some t⟩ hk t rfl
      subst hid
      rw [AList.mem_lookup_iff.2 hk]
      rfl
    have hkeptAll : ∀ s ∈ s1 ++ added.map (fun t => some { track := some t }),
        Kept tracks s := by
      intro s hsm
      rcases List.mem_append.1 hsm with h | h
      · exact hfix.2 rfl s h
      · obtain ⟨t, ht, rfl⟩ := List.mem_map.1 h
        exact hkeptAdded t ht
    have hsel : pcB.senders = s1 ++ added.map (fun t => some { track := some t }) := by
      rw [h2]
    have hrec : pcB.receivers = pc.receivers := by rw [h2]
    have hstB : pcB.signalingState = .Stable := by rw [h2]; exact hs
    have F1 : removeObsolete lib tracks pcB [] pcB.senders [] = (pcB.senders, [], none) := by
      have := removeObsolete_skip lib tracks pcB pcB.senders [] [] []
        (by rw [hsel]; exact hkeptAll)
      simpa [removeObsolete] using this
    have F2 : addMissing lib (senderTrackIDs pcB.senders ++ receiverTrackIDs pcB.receivers)
        tracks.entries pcB [] = (pcB, [], e2) := by
      rw [hsel, hrec]
      refine hafix ?_ []
      intro k t hmem
      have hlook : tracks.lookup k = some (some t) := AList.mem_lookup_iff.2 hmem
      rw [senderTrackIDs_append, senderTrackIDs_map_some]
      simp only [List.mem_append, List.mem_map]
      constructor
      · rintro ((h | ⟨t', ht', hid'⟩) | h)
        · rcases hids k h with h' | h'
          · simp [senderTrackIDs] at h'
          · exact Or.inl (Or.inl h')
        · obtain ⟨k', hk', -⟩ := h3 t' ht'
          have e1 : t'.id = k' := hkey ⟨k', some t'⟩ hk' t' rfl
          have hkk : k' = k := e1.symm.trans hid'
          subst hkk
          have hlook' : tracks.lookup k' = some (some t') := AList.mem_lookup_iff.2 hk'
          rw [hlook] at hlook'
          cases hlook'
          exact Or.inr ht'
        · exact Or.inl (Or.inr h)
      · rintro ((h | h) | h)
        · refine Or.inl (Or.inl ((hidsok rfl k).2 (Or.inr ⟨h, ?_⟩)))
          rw [hlook]; rfl
        · exact Or.inr h
        · exact Or.inl (Or.inr ⟨t, h, hkey ⟨k, some t⟩ hmem t rfl⟩)
    cases e2 with
    | some e =>
      dsimp only
      exact quiet_of_fixed lib tracks pcB (some e) F1 F2 (Or.inl (by simp))
    | none =>
      dsimp only
      split
      · rename_i hcond
        exact quiet_of_fixed lib tracks pcB none F1 F2 (Or.inr (Or.inl hcond.2.2))
      · unfold sendOffer
        cases hco : lib.createOffer pcB with
        | error e =>
          dsimp only
          exact quiet_of_fixed lib tracks pcB none F1 F2 (Or.inr (Or.inr (Or.inl ⟨e, hco⟩)))
        | ok offer =>
          dsimp only
          cases hsl : lib.setLocalDescriptionErr pcB offer with
          | some e =>
            dsimp only
            exact quiet_of_fixed lib tracks pcB none F1 F2
              (Or.inr (Or.inr (Or.inr ⟨offer, e, hco, hsl⟩)))
          | none =>
            dsimp only
            have hq : Quiet lib tracks (pcB.SetLocalDescription offer) :=
              quiet_of_not_stable lib tracks _ (by simp [PeerConnection.SetLocalDescription])
            cases lib.jsonMarshal offer with
            | error e => exact hq
            | ok offerString =>
              cases wsConn with
              | none => exact hq
              | some conn => exact hq

theorem syncPeers_settled_world (c : Coordinator) (lib : Library) (roomID : String)
    (connectionMap : GoMap (Option room.JSONWriter))
    (tracks : GoMap (Option TrackLocalStaticRTP))
    (entries : List (Sigma fun _ : String => Option PeerConnectionRef)) :
    ∀ a : Attempt, Settled lib tracks connectionMap entries a.world.heap →
      (c.syncPeers lib roomID connectionMap tracks entries a).world = a.world := by
  induction entries with
  | nil => intro a _; rw [Coordinator.syncPeers]
  | cons e rest ih =>
    intro a hset
    have hrest : Settled lib tracks connectionMap rest a.world.heap :=
      fun cid ref hm => hset cid ref (List.mem_cons_of_mem _ hm)
    match e with
    | ⟨cid, none⟩ =>
      rw [Coordinator.syncPeers]
      exact ih { a with syncErrors := a.syncErrors + 1 } hrest
    | ⟨cid, some ref⟩ =>
      rw [Coordinator.syncPeers]
      split
      · exact ih a hrest
      · rename_i hstate
        split
        · rename_i wsConn hconn
          have hq : Quiet lib tracks (a.world.heap ref) := by
            rcases hset cid ref (List.mem_cons_self _ _) with h | h | h | h
            · exact h
            · exact absurd (Or.inl h) hstate
            · exact absurd (Or.inr h) hstate
            · exact absurd hconn (h wsConn)
          obtain ⟨hpc, hw⟩ := hq c cid (some wsConn) roomID
          have hworld : World.mk
              (Function.update a.world.heap ref
                (c.processPeerConnection lib cid (a.world.heap ref) (some wsConn) tracks
                  roomID).pc)
              (a.world.written ++
                (c.processPeerConnection lib cid (a.world.heap ref) (some wsConn) tracks
                  roomID).written) = a.world := by
            rw [hpc, hw, Function.update_eq_self, List.append_nil]
          dsimp only
          rw [hworld]
          split
          · exact ih _ hrest
          · exact ih _ hrest
        · exact ih { a with syncErrors := a.syncErrors + 1 } hrest

theorem syncPeers_heap (c : Coordinator) (lib : Library) (roomID : String)
    (connectionMap : GoMap (Option room.JSONWriter))
    (tracks : GoMap (Option TrackLocalStaticRTP)) (hkey : track.KeyedByID tracks)
    (entries : List (Sigma fun _ : String => Option PeerConnectionRef)) :
    ∀ (a : Attempt) (ref : PeerConnectionRef),
      (c.syncPeers lib roomID connectionMap tracks entries a).world.heap ref = a.world.heap ref ∨
      Quiet lib tracks ((c.syncPeers lib roomID connectionMap tracks entries a).world.heap ref) := by
  induction entries with
  | nil => intro a ref; rw [Coordinator.syncPeers]; exact Or.inl rfl
  | cons e rest ih =>
    intro a ref
    match e with
    | ⟨cid, none⟩ =>
      rw [Coordinator.syncPeers]
      exact ih { a with syncErrors := a.syncErrors + 1 } ref
    | ⟨cid, some ref0⟩ =>
      rw [Coordinator.syncPeers]
      split
      · exact ih a ref
      · split
        · rename_i wsConn hconn
          have hstep : ∀ a1 : Attempt,
              a1.world.heap = Function.update a.world.heap ref0
                (c.processPeerConnection lib cid (a.world.heap ref0) (some wsConn) tracks
                  roomID).pc →
              (c.syncPeers lib roomID connectionMap tracks rest a1).world.heap ref
                  = a.world.heap ref ∨
                Quiet lib tracks
                  ((c.syncPeers lib roomID connectionMap tracks rest a1).world.heap ref) := by
            intro a1 h1
            rcases ih a1 ref with h | h
            · by_cases hr : ref = ref0
              · right
                rw [h, h1, hr, Function.update_same]
                exact processPeerConnection_quiet c lib cid _ _ tracks roomID hkey
              · left
                rw [h, h1, Function.update_noteq hr]
            · exact Or.inr h
          dsimp only
          split
          · exact hstep _ rfl
          · exact hstep _ rfl
        · exact ih { a with syncErrors := a.syncErrors + 1 } ref

theorem syncPeers_settles (c : Coordinator) (lib : Library) (roomID : String)
    (connectionMap : GoMap (Option room.JSONWriter))
    (tracks : GoMap (Option TrackLocalStaticRTP)) (hkey : track.KeyedByID tracks)
    (entries : List (Sigma fun _ : String => Option PeerConnectionRef)) :
    ∀ a : Attempt, Settled lib tracks connectionMap entries
      (c.syncPeers lib roomID connectionMap tracks entries a).world.heap := by
  induction entries with
  | nil => intro a cid ref hm; simp at hm
  | cons e rest ih =>
    intro a cid ref hm
    rcases List.mem_cons.1 hm with heq | hm'
    · subst heq
      rw [Coordinator.syncPeers]
      have hskip : ∀ a1 : Attempt, a1.world.heap = a.world.heap →
          Skipped connectionMap a.world.heap cid ref →
          Quiet lib tracks
              ((c.syncPeers lib roomID connectionMap tracks rest a1).world.heap ref) ∨
            Skipped connectionMap
              (c.syncPeers lib roomID connectionMap tracks rest a1).world.heap cid ref := by
        intro a1 h1 hsk
        rcases syncPeers_heap c lib roomID connectionMap tracks hkey rest a1 ref with h | h
        · right
          unfold Skipped at hsk ⊢
          rw [h, h1]
          exact hsk
        · exact Or.inl h
      split
      · rename_i hstate
        refine hskip a rfl ?_
        rcases hstate with h | h
        · exact Or.inl h
        · exact Or.inr (Or.inl h)
      · split
        · rename_i wsConn hconn
          have hstep : ∀ a1 : Attempt,
              a1.world.heap = Function.update a.world.heap ref
                (c.processPeerConnection lib cid (a.world.heap ref) (some wsConn) tracks
                  roomID).pc →
              Quiet lib tracks
                ((c.syncPeers lib roomID connectionMap tracks rest a1).world.heap ref) := by
            intro a1 h1
            rcases syncPeers_heap c lib roomID connectionMap tracks hkey rest a1 ref with h | h
            · rw [h, h1, Function.update_same]
              exact processPeerConnection_quiet c lib cid _ _ tracks roomID hkey
            · exact h
          dsimp only
          split
          · exact Or.inl (hstep _ rfl)
          · exact Or.inl (hstep _ rfl)
        · rename_i hconn
          refine hskip { a with syncErrors := a.syncErrors + 1 } rfl (Or.inr (Or.inr ?_))
          intro wsConn h
          exact hconn wsConn h
    · match e with
      | ⟨cid0, none⟩ =>
        rw [Coordinator.syncPeers]
        exact ih _ cid ref hm'
      | ⟨cid0, some ref0⟩ =>
        rw [Coordinator.syncPeers]
        split
        · exact ih _ cid ref hm'
        · split
          · dsimp only
            split
            · exact ih _ cid ref hm'
            · exact ih _ cid ref hm'
          · exact ih _ cid ref hm'

theorem retryLoop_fixed (f : World → Attempt) (P : World → Prop)
    (hf : ∀ w, P w → (f w).world = w) :
    ∀ (bs : List Duration) (w : World) (events : List Event), P w →
      (retryLoop f bs w events).1 = w := by
  intro bs
  induction bs with
  | nil => intro w events _; rw [retryLoop]
  | cons b rest ih =>
    intro w events hw
    rw [retryLoop]
    split
    · exact hf w hw
    · split
      · exact hf w hw
      · rw [hf w hw]
        exact ih w _ hw

theorem retryLoop_first (f : World → Attempt) (P : World → Prop)
    (hf : ∀ w, P w → (f w).world = w) (hP : ∀ w, P (f w).world)
    (b : Duration) (rest : List Duration) (w : World) (events : List Event) :
    (retryLoop f (b :: rest) w events).1 = (f w).world := by
  rw [retryLoop]
  split
  · rfl
  · split
    · rfl
    · exact retryLoop_fixed f P hf rest _ _ (hP w)

/-- A call of `SignalPeerConnectionsInRoom` leaves the world either as it was, or as
the first attempt left it, with every peer of the snapshot skipped or quiet. -/
theorem signal_settles (c : Coordinator) (lib : Library) (roomID : String)
    (hkey : track.KeyedByID (c.trackManager.GetTracksInRoom roomID)) (w : World) :
    ∀ written, (c.SignalPeerConnectionsInRoom lib roomID
        { heap := (c.SignalPeerConnectionsInRoom lib roomID w).world.heap
          written := written }).world
      = { heap := (c.SignalPeerConnectionsInRoom lib roomID w).world.heap
          written := written } := by
  intro written
  unfold Coordinator.SignalPeerConnectionsInRoom
  cases c.roomManager.GetPeersInRoom roomID with
  | error e => rfl
  | ok peerMap =>
    dsimp only
    cases c.roomManager.GetConnectionsInRoom roomID with
    | error e => rfl
    | ok connectionMap =>
      dsimp only
      split
      · rfl
      · have hf : ∀ w : World,
            Settled lib (c.trackManager.GetTracksInRoom roomID) connectionMap peerMap.entries
              w.heap →
            (c.attemptSync lib roomID peerMap connectionMap w).world = w := by
          intro w hw
          unfold Coordinator.attemptSync
          exact syncPeers_settled_world c lib roomID connectionMap _ peerMap.entries
            { world := w, syncSuccess := 0, syncErrors := 0, processed := [] } hw
        have hP : ∀ w : World,
            Settled lib (c.trackManager.GetTracksInRoom roomID) connectionMap peerMap.entries
              (c.attemptSync lib roomID peerMap connectionMap w).world.heap := by
          intro w
          unfold Coordinator.attemptSync
          exact syncPeers_settles c lib roomID connectionMap _ hkey peerMap.entries _
        have h1 : (retryLoop (c.attemptSync lib roomID peerMap connectionMap) backoffs w []).1
            = (c.attemptSync lib roomID peerMap connectionMap w).world := by
          unfold backoffs
          exact retryLoop_first _ _ hf hP _ _ _ _
        dsimp only
        rw [h1]
        exact retryLoop_fixed _
          (fun w => Settled lib (c.trackManager.GetTracksInRoom roomID) connectionMap
            peerMap.entries w.heap) hf _ _ _ (hP w)

theorem keyedByID_demo : demo.trackManager.KeyedByID :=
  track.keyedByID_AddTrackToRoom _ _ _ _
    (track.keyedByID_AddTrackToRoom _ _ _ _ (track.keyedByID_NewManager false))

end signaling

/-! ## The claims on `processPeerConnection` -/

open signaling webrtc

/-- C7, as stated, fails: the stable peer `echoPeer` has a sender and a receiver with the
same track ID `x`, which is also a room track; the call ends without error and removes
nothing, so the senders carry `x`, which is not in the room's track IDs minus the
receivers' track IDs. -/
theorem signaling.processPeerConnection_sender_set_counterexample :
    echoPeer.signalingState = .Stable ∧
    (∀ e ∈ echoTracks.entries, e.2 ≠ none) ∧
    track.KeyedByID echoTracks ∧
    (idle.processPeerConnection Library.reliable "A" echoPeer (some ⟨1⟩) echoTracks "r1").err
      = none ∧
    ¬ (∀ id, id ∈ senderTrackIDs
          (idle.processPeerConnection Library.reliable "A" echoPeer (some ⟨1⟩) echoTracks
            "r1").pc.senders ↔
        id ∈ echoTracks.keys ∧ id ∉ receiverTrackIDs echoPeer.receivers) := by
  refine ⟨by decide, by decide, signaling.keyedByID_echoTracks, by decide, ?_⟩
  intro h
  exact absurd ((h "x").1 (by decide)) (by decide)

/-- C7 (amended): for a stable peer and a room track snapshot without nil tracks, keyed
by track ID, if processPeerConnection ends without error, the track IDs carried by the
peer's senders afterwards are exactly the room's track IDs that an existing sender
carried or that no receiver of the peer carries; when no existing sender carries the
track ID of a receiver, this is the room's track IDs minus the receivers' track IDs. -/
theorem signaling.processPeerConnection_sender_set (c : Coordinator) (lib : Library)
    (clientID : String) (pc : PeerConnection) (wsConn : Option room.JSONWriter)
    (tracks : GoMap (Option TrackLocalStaticRTP)) (roomID : String)
    (hstable : pc.signalingState = .Stable)
    (hnonil : ∀ e ∈ tracks.entries, e.2 ≠ none)
    (hkey : track.KeyedByID tracks)
    (hok : (c.processPeerConnection lib clientID pc wsConn tracks roomID).err = none) :
    (∀ id, id ∈ senderTrackIDs
          (c.processPeerConnection lib clientID pc wsConn tracks roomID).pc.senders ↔
        id ∈ tracks.keys ∧
          (id ∈ senderTrackIDs pc.senders ∨ id ∉ receiverTrackIDs pc.receivers)) ∧
    ((∀ id, id ∈ senderTrackIDs pc.senders → id ∉ receiverTrackIDs pc.receivers) →
      ∀ id, id ∈ senderTrackIDs
          (c.processPeerConnection lib clientID pc wsConn tracks roomID).pc.senders ↔
        id ∈ tracks.keys ∧ id ∉ receiverTrackIDs pc.receivers) := by
  obtain ⟨kept, -, hsenders, -, hadded, hexact⟩ :=
    signaling.processPeerConnection_senders_shape c lib clientID pc wsConn tracks roomID
  obtain ⟨hkept, hall⟩ := hexact hok hstable
  have hmain : ∀ id, id ∈ senderTrackIDs
        (c.processPeerConnection lib clientID pc wsConn tracks roomID).pc.senders ↔
      id ∈ tracks.keys ∧
        (id ∈ senderTrackIDs pc.senders ∨ id ∉ receiverTrackIDs pc.receivers) := by
    intro id
    rw [hsenders, signaling.senderTrackIDs_append, signaling.senderTrackIDs_map_some,
      List.mem_append, hkept id, List.mem_map]
    constructor
    · rintro (⟨h1, h2⟩ | ⟨t, ht, rfl⟩)
      · exact ⟨AList.mem_keys.1 (AList.lookup_isSome.1 h2), Or.inl h1⟩
      · obtain ⟨k, hk, hnot⟩ := hadded t ht
        have hid : t.id = k := hkey ⟨k, some t⟩ hk t rfl
        subst hid
        simp only [List.mem_append, not_or] at hnot
        refine ⟨?_, Or.inr hnot.2⟩
        exact AList.mem_keys.1 (AList.lookup_isSome.1 (by
          rw [AList.mem_lookup_iff.2 hk]; rfl))
    · rintro ⟨hin, hcase⟩
      have hsome : (tracks.lookup id).isSome = true :=
        AList.lookup_isSome.2 (AList.mem_keys.2 hin)
      by_cases hS : id ∈ senderTrackIDs pc.senders
      · exact Or.inl ⟨hS, hsome⟩
      · have hR : id ∉ receiverTrackIDs pc.receivers := by
          rcases hcase with h | h
          · exact absurd h hS
          · exact h
        obtain ⟨v, hv⟩ := Option.isSome_iff_exists.1 hsome
        have hmem : (⟨id, v⟩ : Sigma fun _ : String => Option TrackLocalStaticRTP)
            ∈ tracks.entries := AList.mem_lookup_iff.1 hv
        cases v with
        | none => exact absurd rfl (hnonil _ hmem)
        | some t =>
          have hid : t.id = id := hkey ⟨id, some t⟩ hmem t rfl
          exact Or.inr ⟨t, hall id t hmem (by simp [hS, hR]), hid⟩
  refine ⟨hmain, ?_⟩
  intro hdisj id
  rw [hmain id]
  constructor
  · rintro ⟨h1, h2 | h2⟩
    · exact ⟨h1, hdisj id h2⟩
    · exact ⟨h1, h2⟩
  · rintro ⟨h1, h2⟩
    exact ⟨h1, Or.inr h2⟩

/-- C7 (amended) at a concrete peer: `settledPeer` publishes `a`, the room has `a` and
`b`, and afterwards `b` is carried by a sender. -/
theorem signaling.processPeerConnection_sender_set_witness :
    "b" ∈ senderTrackIDs
        (idle.processPeerConnection Library.reliable "A" settledPeer (some ⟨1⟩) twoTracks
          "r1").pc.senders ↔
      "b" ∈ twoTracks.keys ∧ "b" ∉ receiverTrackIDs settledPeer.receivers :=
  (signaling.processPeerConnection_sender_set idle Library.reliable "A" settledPeer (some ⟨1⟩)
    twoTracks "r1" (by decide) (by decide) signaling.keyedByID_twoTracks (by decide)).2
    (by decide) "b"

/-- C8: on a peer whose signaling state is not stable, processPeerConnection leaves the
connection as it is, adds no sender, removes no sender, creates no offer, calls
`WriteJSON` on no control channel and returns no error; in the room loop such a peer
(not closed or failed, with a control channel) adds one to the successes, nothing to
the errors, and leaves the world unchanged. -/
theorem signaling.processPeerConnection_not_stable (c : Coordinator) (lib : Library)
    (clientID : String) (pc : PeerConnection) (wsConn : Option room.JSONWriter)
    (tracks : GoMap (Option TrackLocalStaticRTP)) (roomID : String)
    (h : pc.signalingState ≠ .Stable) :
    (c.processPeerConnection lib clientID pc wsConn tracks roomID).pc = pc ∧
    (c.processPeerConnection lib clientID pc wsConn tracks roomID).added = [] ∧
    (c.processPeerConnection lib clientID pc wsConn tracks roomID).removed = [] ∧
    (c.processPeerConnection lib clientID pc wsConn tracks roomID).offers = [] ∧
    (c.processPeerConnection lib clientID pc wsConn tracks roomID).written = [] ∧
    (c.processPeerConnection lib clientID pc wsConn tracks roomID).err = none ∧
    (∀ (connectionMap : GoMap (Option room.JSONWriter)) (conn : room.JSONWriter)
        (ref : PeerConnectionRef)
        (rest : List (Sigma fun _ : String => Option PeerConnectionRef)) (a : Attempt),
      a.world.heap ref = pc → pc.connectionState ≠ .Closed → pc.connectionState ≠ .Failed →
      connectionMap.lookup clientID = some (some conn) →
      c.syncPeers lib roomID connectionMap tracks (⟨clientID, some ref⟩ :: rest) a
        = c.syncPeers lib roomID connectionMap tracks rest
            { a with syncSuccess := a.syncSuccess + 1
                     processed := a.processed ++ [clientID] }) := by
  have ho : ∀ ws, c.processPeerConnection lib clientID pc ws tracks roomID
      = ⟨pc, [], [], [], [], none⟩ := by
    intro ws
    unfold Coordinator.processPeerConnection
    rw [if_pos h]
  refine ⟨by rw [ho], by rw [ho], by rw [ho], by rw [ho], by rw [ho], by rw [ho], ?_⟩
  intro connectionMap conn ref rest a hheap hc hf hconn
  rw [Coordinator.syncPeers]
  rw [hheap, if_neg (by simp [hc, hf])]
  simp only [hconn, ho, ne_eq, not_true_eq_false, ↓reduceIte, List.append_nil]
  congr 1
  have : Function.update a.world.heap ref pc = a.world.heap := by
    rw [← hheap]; exact Function.update_eq_self ref a.world.heap
  rw [this]

/-- C8 at a concrete peer with an unanswered local offer. -/
theorem signaling.processPeerConnection_not_stable_witness :
    (idle.processPeerConnection Library.reliable "A" waitingPeer (some ⟨1⟩) twoTracks "r1").pc
      = waitingPeer ∧
    (idle.processPeerConnection Library.reliable "A" waitingPeer (some ⟨1⟩) twoTracks "r1").written
      = [] :=
  ⟨(signaling.processPeerConnection_not_stable idle Library.reliable "A" waitingPeer (some ⟨1⟩)
      twoTracks "r1" (by decide)).1,
   (signaling.processPeerConnection_not_stable idle Library.reliable "A" waitingPeer (some ⟨1⟩)
      twoTracks "r1" (by decide)).2.2.2.2.1⟩

/-- C10: no echo and no duplicates.  For every peer, every library behaviour and every
room track snapshot keyed by track ID, each track processPeerConnection adds as a
sender is a room track whose ID is carried by none of the peer's receivers and none of
its existing senders; the added tracks have distinct IDs; and the senders afterwards
are the existing ones (some with their track removed) followed by the added ones. -/
theorem signaling.processPeerConnection_no_echo (c : Coordinator) (lib : Library)
    (clientID : String) (pc : PeerConnection) (wsConn : Option room.JSONWriter)
    (tracks : GoMap (Option TrackLocalStaticRTP)) (roomID : String)
    (hkey : track.KeyedByID tracks) :
    (∀ t ∈ (c.processPeerConnection lib clientID pc wsConn tracks roomID).added,
      t.id ∉ receiverTrackIDs pc.receivers ∧ t.id ∉ senderTrackIDs pc.senders ∧
      tracks.lookup t.id = some (some t)) ∧
    ((c.processPeerConnection lib clientID pc wsConn tracks roomID).added.map
      (fun t => t.id)).Nodup ∧
    (∃ kept : List (Option RTPSender),
      kept.length = pc.senders.length ∧
      (∀ id, id ∈ senderTrackIDs kept → id ∈ senderTrackIDs pc.senders) ∧
      (c.processPeerConnection lib clientID pc wsConn tracks roomID).pc.senders
        = kept ++ (c.processPeerConnection lib clientID pc wsConn tracks roomID).added.map
            (fun t => some { track := some t })) := by
  obtain ⟨kept, hlen, hsenders, hkept, hadded, -⟩ :=
    signaling.processPeerConnection_senders_shape c lib clientID pc wsConn tracks roomID
  refine ⟨?_, ?_, kept, hlen, hkept, hsenders⟩
  · intro t ht
    obtain ⟨k, hk, hnot⟩ := hadded t ht
    have hid : t.id = k := hkey ⟨k, some t⟩ hk t rfl
    subst hid
    simp only [List.mem_append, not_or] at hnot
    exact ⟨hnot.2, hnot.1, AList.mem_lookup_iff.2 hk⟩
  · obtain ⟨sub, h1, h2, h3⟩ :=
      signaling.processPeerConnection_added_sublist c lib clientID pc wsConn tracks roomID
    rw [h2, signaling.keyed_filterMap_ids tracks hkey sub (fun e he => h1.subset he) h3]
    exact List.NodupKeys.sublist h1 tracks.nodupKeys

/-- C10 at a concrete peer: the tracks added to `settledPeer` have distinct IDs. -/
theorem signaling.processPeerConnection_no_echo_witness :
    ((idle.processPeerConnection Library.reliable "A" settledPeer (some ⟨1⟩) twoTracks
      "r1").added.map (fun t => t.id)).Nodup :=
  (signaling.processPeerConnection_no_echo idle Library.reliable "A" settledPeer (some ⟨1⟩)
    twoTracks "r1" signaling.keyedByID_twoTracks).2.1

/-! ## The claim on `SignalPeerConnectionsInRoom` -/

/-- C9: the coordinator is idempotent.  For all registries, every library
behaviour and every world, when SignalPeerConnectionsInRoom runs twice in succession on
the same room (the track registry storing every track under its own ID, and nothing
else touching the connections in between), the second run calls `WriteJSON` on no
control channel, so it writes zero offers, and it leaves every connection as the first
run left it. -/
theorem signaling.SignalPeerConnectionsInRoom_idempotent (c : Coordinator) (lib : Library)
    (roomID : String) (w : World) (hkey : c.trackManager.KeyedByID) :
    (c.SignalPeerConnectionsInRoom lib roomID
        { heap := (c.SignalPeerConnectionsInRoom lib roomID w).world.heap
          written := [] }).world.written = [] ∧
    (c.SignalPeerConnectionsInRoom lib roomID
        (c.SignalPeerConnectionsInRoom lib roomID w).world).world
      = (c.SignalPeerConnectionsInRoom lib roomID w).world := by
  refine ⟨?_, ?_⟩
  · rw [signaling.signal_settles c lib roomID (hkey roomID) w []]
  · exact signaling.signal_settles c lib roomID (hkey roomID) w
      (c.SignalPeerConnectionsInRoom lib roomID w).world.written

/-- C9 at a concrete room: the first run writes the two initial offers of `A` and `B`,
the second run writes nothing. -/
theorem signaling.SignalPeerConnectionsInRoom_idempotent_witness :
    (demo.SignalPeerConnectionsInRoom Library.reliable "r1" demoWorld).world.written.length
      = 2 ∧
    (demo.SignalPeerConnectionsInRoom Library.reliable "r1"
        { heap := (demo.SignalPeerConnectionsInRoom Library.reliable "r1" demoWorld).world.heap
          written := [] }).world.written = [] :=
  ⟨by decide,
   (signaling.SignalPeerConnectionsInRoom_idempotent demo Library.reliable "r1" demoWorld
      signaling.keyedByID_demo).1⟩

/-! ## Lemmas on the idle sweep -/

namespace room

theorem deleteRoom_rooms (m : Manager) (x : String) :
    (m.deleteRoom x).rooms = m.rooms.erase x := by
  unfold Manager.deleteRoom
  cases hl : m.rooms.lookup x with
  | none =>
    have hx : x ∉ m.rooms := AList.lookup_eq_none.1 hl
    show m.rooms = m.rooms.erase x
    apply AList.ext
    show m.rooms.entries = List.kerase x m.rooms.entries
    rw [List.kerase_of_not_mem_keys]
    exact fun h => hx (AList.mem_keys.2 h)
  | some room =>
    dsimp only
    cases m.serverToRooms.lookup room.ServerID with
    | none => rfl
    | some rooms =>
      dsimp only
      split <;> rfl

theorem deleteRoom_registeredServers (m : Manager) (x : String) :
    (m.deleteRoom x).registeredServers = m.registeredServers := by
  unfold Manager.deleteRoom
  cases m.rooms.lookup x with
  | none => rfl
  | some room =>
    dsimp only
    cases m.serverToRooms.lookup room.ServerID with
    | none => rfl
    | some rooms =>
      dsimp only
      split <;> rfl

theorem foldl_deleteRoom_rooms (L : List String) :
    ∀ (m : Manager) (r : String),
      (L.foldl Manager.deleteRoom m).rooms.lookup r
        = if r ∈ L then none else m.rooms.lookup r := by
  induction L with
  | nil => intro m r; simp
  | cons x rest ih =>
    intro m r
    rw [List.foldl_cons, ih, deleteRoom_rooms]
    by_cases hx : r = x
    · subst hx
      simp [AList.lookup_erase]
    · simp [hx, AList.lookup_erase_ne hx]

theorem foldl_deleteRoom_registeredServers (L : List String) :
    ∀ (m : Manager), (L.foldl Manager.deleteRoom m).registeredServers = m.registeredServers := by
  induction L with
  | nil => intro m; rfl
  | cons x rest ih =>
    intro m
    rw [List.foldl_cons, ih, deleteRoom_registeredServers]

theorem mem_roomsToDelete (m : Manager) (now : Time) (maxIdleTime : Int) (r : String) :
    r ∈ m.roomsToDelete now maxIdleTime ↔
      ∃ room, m.rooms.lookup r = some room ∧ room.isEmptyAndIdle now maxIdleTime = true := by
  unfold Manager.roomsToDelete
  simp only [List.mem_map, List.mem_filter]
  constructor
  · rintro ⟨⟨k, room⟩, ⟨hmem, hcond⟩, rfl⟩
    exact ⟨room, AList.mem_lookup_iff.2 hmem, hcond⟩
  · rintro ⟨room, hl, hcond⟩
    exact ⟨⟨r, room⟩, ⟨AList.mem_lookup_iff.1 hl, hcond⟩, rfl⟩

theorem roomsToDelete_nodup (m : Manager) (now : Time) (maxIdleTime : Int) :
    (m.roomsToDelete now maxIdleTime).Nodup := by
  unfold Manager.roomsToDelete
  have h : (m.rooms.entries.filter (fun e => e.2.isEmptyAndIdle now maxIdleTime)).NodupKeys :=
    List.NodupKeys.sublist (List.filter_sublist _) m.rooms.nodupKeys
  exact h

theorem lookup_CleanupEmptyRooms (m : Manager) (now : Time) (maxIdleTime : Int) (r : String) :
    (m.CleanupEmptyRooms now maxIdleTime).rooms.lookup r
      = match m.rooms.lookup r with
        | none => none
        | some room => if room.isEmptyAndIdle now maxIdleTime = true then none else some room := by
  unfold Manager.CleanupEmptyRooms
  rw [foldl_deleteRoom_rooms]
  cases hl : m.rooms.lookup r with
  | none => simp
  | some room =>
    dsimp only
    by_cases hc : room.isEmptyAndIdle now maxIdleTime = true
    · rw [if_pos ((mem_roomsToDelete m now maxIdleTime r).2 ⟨room, hl, hc⟩), if_pos hc]
    · rw [if_neg, if_neg hc]
      intro hmem
      obtain ⟨room', hl', hc'⟩ := (mem_roomsToDelete m now maxIdleTime r).1 hmem
      rw [hl] at hl'
      cases hl'
      exact hc hc'

theorem sub_eq (t u : Int) (h1 : time.minDuration ≤ t - u) (h2 : t - u ≤ time.maxDuration) :
    time.Sub t u = t - u := by
  unfold time.Sub
  rw [if_neg (not_lt.2 h2), if_neg (not_lt.2 h1)]

theorem sub_pos (t u : Int) (h : u < t) : time.Sub t u > 0 := by
  unfold time.Sub
  by_cases h1 : t - u > time.maxDuration
  · rw [if_pos h1]
    decide
  · rw [if_neg h1]
    have h2 : ¬ t - u < time.minDuration := by
      unfold time.minDuration
      omega
    rw [if_neg h2]
    omega

theorem deleteRoom_index (m : Manager) (x s : String) :
    (m.deleteRoom x).serverToRooms.lookup s
      = if (m.rooms.lookup x).map (fun room => room.ServerID) = some s then
          (m.serverToRooms.lookup s).bind (fun l => keepNonEmpty (l.filter (fun rid => rid ≠ x)))
        else m.serverToRooms.lookup s := by
  unfold Manager.deleteRoom
  cases hl : m.rooms.lookup x with
  | none => simp
  | some room =>
    dsimp only
    by_cases hs : room.ServerID = s
    · subst hs
      simp only [Option.map_some', if_true]
      cases hi : m.serverToRooms.lookup room.ServerID with
      | none => simp [hi]
      | some rooms =>
        dsimp only
        split
        · rename_i hlen
          rw [Option.some_bind, keepNonEmpty, if_pos hlen]
          exact AList.lookup_erase _ _
        · rename_i hlen
          rw [Option.some_bind, keepNonEmpty, if_neg hlen]
          exact AList.lookup_insert _
    · have hs' : ¬ (some room.ServerID = some s) := by simpa using hs
      simp only [Option.map_some', hs', if_false]
      have hne : s ≠ room.ServerID := fun h => hs h.symm
      cases hi : m.serverToRooms.lookup room.ServerID with
      | none => rfl
      | some rooms =>
        dsimp only
        split
        · simp [AList.lookup_erase_ne hne]
        · simp [AList.lookup_insert_ne hne]

theorem foldl_deleteRoom_index (L : List String) :
    ∀ (m : Manager) (s : String), L.Nodup →
      (L.foldl Manager.deleteRoom m).serverToRooms.lookup s
        = if m.ownedIn L s = [] then m.serverToRooms.lookup s
          else (m.serverToRooms.lookup s).bind
            (fun l => keepNonEmpty (l.filter (fun rid => rid ∉ m.ownedIn L s))) := by
  induction L with
  | nil => intro m s _; simp [Manager.ownedIn]
  | cons x rest ih =>
    intro m s hnd
    have hx : x ∉ rest := (List.nodup_cons.1 hnd).1
    have hrest : rest.Nodup := (List.nodup_cons.1 hnd).2
    have hown : (m.deleteRoom x).ownedIn rest s = m.ownedIn rest s := by
      unfold Manager.ownedIn
      apply List.filter_congr
      intro r hr
      have hrx : r ≠ x := fun h => hx (h ▸ hr)
      rw [deleteRoom_rooms, AList.lookup_erase_ne hrx]
    rw [List.foldl_cons, ih _ s hrest, hown, deleteRoom_index]
    by_cases hs : (m.rooms.lookup x).map (fun room => room.ServerID) = some s
    · have hcons : m.ownedIn (x :: rest) s = x :: m.ownedIn rest s := by
        unfold Manager.ownedIn
        rw [List.filter_cons_of_pos (by simpa using hs)]
      rw [if_pos hs, hcons, if_neg (List.cons_ne_nil _ _)]
      cases hi : m.serverToRooms.lookup s with
      | none => simp
      | some l =>
        simp only [Option.some_bind]
        by_cases hO : m.ownedIn rest s = []
        · rw [if_pos hO, hO]
          simp
        · rw [if_neg hO]
          unfold keepNonEmpty
          by_cases h1 : (l.filter (fun rid => rid ≠ x)).length = 0
          · rw [if_pos h1]
            have h1' : l.filter (fun rid => decide (rid ≠ x)) = [] := List.length_eq_zero.1 h1
            have : l.filter (fun rid => decide (rid ∉ x :: m.ownedIn rest s)) = [] := by
              rw [List.filter_eq_nil_iff] at h1' ⊢
              intro a ha
              have h2 := h1' a ha
              simp only [decide_eq_true_eq, not_not] at h2
              simp only [decide_eq_true_eq, List.mem_cons, not_or, not_and]
              intro hne
              exact absurd h2 hne
            rw [Option.none_bind, this]
            rfl
          · rw [if_neg h1]
            simp only [Option.some_bind, List.filter_filter]
            have : (fun a => decide (a ∉ m.ownedIn rest s) && decide (a ≠ x))
                = (fun rid => decide (rid ∉ x :: m.ownedIn rest s)) := by
              funext a
              simp only [List.mem_cons, not_or, Bool.decide_and]
              exact Bool.and_comm _ _
            rw [this]
    · have hcons : m.ownedIn (x :: rest) s = m.ownedIn rest s := by
        unfold Manager.ownedIn
        rw [List.filter_cons_of_neg (by simpa using hs)]
      rw [if_neg hs, hcons]

theorem isEmptyAndIdle_iff (room : Room) (now : Time) (maxIdleTime : Int) :
    room.isEmptyAndIdle now maxIdleTime = true ↔
      room.PeerConnections.entries.length = 0 ∧ time.Sub now room.LastActivity > maxIdleTime := by
  simp [Room.isEmptyAndIdle, Room.peerCount]

theorem mem_ownedIn_roomsToDelete (m : Manager) (now : Time) (maxIdleTime : Int) (s r : String) :
    r ∈ m.ownedIn (m.roomsToDelete now maxIdleTime) s ↔ m.sweptOf now maxIdleTime s r = true := by
  unfold Manager.ownedIn Manager.sweptOf
  rw [List.mem_filter, mem_roomsToDelete]
  cases hl : m.rooms.lookup r with
  | none => simp
  | some room => simp [and_comm]

theorem roomsOf_CleanupEmptyRooms (m : Manager) (now : Time) (maxIdleTime : Int) (s : String) :
    (m.CleanupEmptyRooms now maxIdleTime).roomsOf s
      = (m.roomsOf s).filter (fun r => !m.sweptOf now maxIdleTime s r) := by
  have hfilter : ∀ l : List String,
      l.filter (fun rid => decide (rid ∉ m.ownedIn (m.roomsToDelete now maxIdleTime) s))
        = l.filter (fun r => !m.sweptOf now maxIdleTime s r) := by
    intro l
    apply List.filter_congr
    intro r _
    by_cases h : m.sweptOf now maxIdleTime s r = true
    · simp [h, (mem_ownedIn_roomsToDelete m now maxIdleTime s r).2 h]
    · have h' : r ∉ m.ownedIn (m.roomsToDelete now maxIdleTime) s :=
        fun hm => h ((mem_ownedIn_roomsToDelete m now maxIdleTime s r).1 hm)
      simp [h, h']
  unfold Manager.roomsOf Manager.CleanupEmptyRooms
  rw [foldl_deleteRoom_index _ m s (roomsToDelete_nodup m now maxIdleTime)]
  by_cases hO : m.ownedIn (m.roomsToDelete now maxIdleTime) s = []
  · rw [if_pos hO]
    symm
    rw [List.filter_eq_self]
    intro r _
    have : r ∉ m.ownedIn (m.roomsToDelete now maxIdleTime) s := by rw [hO]; simp
    have h : ¬ m.sweptOf now maxIdleTime s r = true :=
      fun h => this ((mem_ownedIn_roomsToDelete m now maxIdleTime s r).2 h)
    simpa using h
  · rw [if_neg hO]
    cases hi : m.serverToRooms.lookup s with
    | none => simp
    | some l =>
      rw [Option.some_bind, hfilter, keepNonEmpty]
      split
      · rename_i hlen
        exact (List.length_eq_zero.1 hlen).symm
      · rfl

theorem index_CleanupEmptyRooms (m : Manager) (now : Time) (maxIdleTime : Int) (s : String) :
    ((∀ r, m.sweptOf now maxIdleTime s r = false) →
      (m.CleanupEmptyRooms now maxIdleTime).serverToRooms.lookup s = m.serverToRooms.lookup s) ∧
    ((∃ r, m.sweptOf now maxIdleTime s r = true) →
      (m.roomsOf s).filter (fun r => !m.sweptOf now maxIdleTime s r) = [] →
      (m.CleanupEmptyRooms now maxIdleTime).serverToRooms.lookup s = none) := by
  have hidx := foldl_deleteRoom_index (m.roomsToDelete now maxIdleTime) m s
    (roomsToDelete_nodup m now maxIdleTime)
  refine ⟨?_, ?_⟩
  · intro hno
    have hO : m.ownedIn (m.roomsToDelete now maxIdleTime) s = [] := by
      rw [List.eq_nil_iff_forall_not_mem]
      intro r hr
      have := (mem_ownedIn_roomsToDelete m now maxIdleTime s r).1 hr
      rw [hno r] at this
      cases this
    unfold Manager.CleanupEmptyRooms
    rw [hidx, if_pos hO]
  · intro hex hempty
    unfold Manager.CleanupEmptyRooms
    rw [hidx]
    by_cases hO : m.ownedIn (m.roomsToDelete now maxIdleTime) s = []
    · exfalso
      obtain ⟨r, hr⟩ := hex
      have := (mem_ownedIn_roomsToDelete m now maxIdleTime s r).2 hr
      rw [hO] at this
      cases this
    · rw [if_neg hO]
      cases hi : m.serverToRooms.lookup s with
      | none => rfl
      | some l =>
        rw [Option.some_bind, keepNonEmpty]
        unfold Manager.roomsOf at hempty
        rw [hi] at hempty
        have hfl : l.filter (fun rid => decide (rid ∉ m.ownedIn (m.roomsToDelete now maxIdleTime) s))
            = [] := by
          rw [List.filter_eq_nil_iff] at hempty ⊢
          intro a ha
          have h1 := hempty a ha
          intro h2
          apply h1
          have h3 : a ∉ m.ownedIn (m.roomsToDelete now maxIdleTime) s := by simpa using h2
          have h4 : ¬ m.sweptOf now maxIdleTime s a = true :=
            fun h => h3 ((mem_ownedIn_roomsToDelete m now maxIdleTime s a).2 h)
          simpa using h4
        rw [hfl]
        rfl

end room

/-! ## Lemmas on single operations of the room registry -/

namespace room

theorem checkServer_rooms (m m1 : Manager) (serverID serverPassword : String)
    (h : m.checkServer serverID serverPassword = .ok m1) :
    m1.rooms = m.rooms ∧ m1.serverToRooms = m.serverToRooms ∧
      (∀ s p, m.registeredServers.lookup s = some p → m1.registeredServers.lookup s = some p) := by
  unfold Manager.checkServer at h
  cases hl : m.registeredServers.lookup serverID with
  | none =>
    rw [hl] at h
    cases h
    refine ⟨rfl, rfl, ?_⟩
    intro s p hs
    have hne : s ≠ serverID := by
      intro heq
      rw [heq, hl] at hs
      cases hs
    show AList.lookup s (m.registeredServers.insert serverID serverPassword) = some p
    rw [AList.lookup_insert_ne hne]
    exact hs
  | some q =>
    rw [hl] at h
    dsimp only at h
    split at h
    · cases h
    · cases h
      exact ⟨rfl, rfl, fun _ _ hs => hs⟩

/-- What a room found after an operation can be: the room as it was, a room just
created, or the room with one client added or removed. -/
theorem apply_lookup (m : Manager) (op : Op) (r : String) (rm' : Room)
    (h : (m.apply op).rooms.lookup r = some rm') :
    m.rooms.lookup r = some rm' ∨
    (m.rooms.lookup r = none ∧ ∃ now s, rm' = newRoom now r s) ∨
    (∃ rm now c p cn, m.rooms.lookup r = some rm ∧
      rm' = { rm with
        PeerConnections := rm.PeerConnections.insert c (some p)
        Connections := rm.Connections.insert c (some cn)
        LastActivity := now }) ∨
    (∃ rm now c, m.rooms.lookup r = some rm ∧
      rm' = { rm with
        PeerConnections := rm.PeerConnections.erase c
        Connections := rm.Connections.erase c
        LastActivity := now }) := by
  have hcreate : ∀ (m0 : Manager) (now : Time) (roomID serverID : String),
      m0.rooms.lookup roomID = none →
      (m0.createRoom now roomID serverID).rooms.lookup r = some rm' →
      m0.rooms.lookup r = some rm' ∨ (m0.rooms.lookup r = none ∧ ∃ now s, rm' = newRoom now r s) := by
    intro m0 now roomID serverID hnone hl
    by_cases hr : r = roomID
    · subst hr
      rw [lookup_createRoom_self] at hl
      cases hl
      exact Or.inr ⟨hnone, now, serverID, rfl⟩
    · rw [lookup_createRoom_ne _ _ _ _ _ hr] at hl
      exact Or.inl hl
  cases op with
  | RegisterServer now serverID serverPassword roomID =>
    simp only [Manager.apply, Manager.RegisterServer] at h
    cases hc : m.checkServer serverID serverPassword with
    | error e => rw [hc] at h; exact Or.inl h
    | ok m1 =>
      rw [hc] at h
      obtain ⟨hrooms, -, -⟩ := checkServer_rooms m m1 serverID serverPassword hc
      dsimp only at h
      cases hl : m1.rooms.lookup roomID with
      | some rm =>
        rw [hl] at h
        dsimp only at h
        split at h
        · rw [hrooms] at h; exact Or.inl h
        · rw [hrooms] at h; exact Or.inl h
      | none =>
        rw [hl] at h
        dsimp only at h
        rcases hcreate m1 now roomID serverID hl h with h1 | h1
        · rw [hrooms] at h1; exact Or.inl h1
        · rw [hrooms] at h1; exact Or.inr (Or.inl h1)
  | ValidateClientJoin now roomID serverID serverPassword =>
    simp only [Manager.apply, Manager.ValidateClientJoin] at h
    cases hreg : m.registeredServers.lookup serverID with
    | none => rw [hreg] at h; exact Or.inl h
    | some q =>
      rw [hreg] at h
      dsimp only at h
      split at h
      · exact Or.inl h
      · cases hl : m.rooms.lookup roomID with
        | none =>
          rw [hl] at h
          rcases hcreate m now roomID serverID hl h with h1 | h1
          · exact Or.inl h1
          · exact Or.inr (Or.inl h1)
        | some rm =>
          rw [hl] at h
          dsimp only at h
          split at h
          · exact Or.inl h
          · exact Or.inl h
  | AddPeerToRoom now roomID clientID pc conn =>
    simp only [Manager.apply, Manager.AddPeerToRoom] at h
    cases hl : m.rooms.lookup roomID with
    | none => rw [hl] at h; exact Or.inl h
    | some rm =>
      rw [hl] at h
      cases pc with
      | none => exact Or.inl h
      | some p =>
        cases conn with
        | none => exact Or.inl h
        | some cn =>
          dsimp only at h
          by_cases hr : r = roomID
          · subst hr
            rw [AList.lookup_insert] at h
            cases h
            exact Or.inr (Or.inr (Or.inl ⟨rm, now, clientID, p, cn, hl, rfl⟩))
          · rw [AList.lookup_insert_ne hr] at h
            exact Or.inl h
  | RemovePeerFromRoom now roomID clientID =>
    simp only [Manager.apply, Manager.RemovePeerFromRoom] at h
    cases hl : m.rooms.lookup roomID with
    | none => rw [hl] at h; exact Or.inl h
    | some rm =>
      rw [hl] at h
      dsimp only at h
      by_cases hr : r = roomID
      · subst hr
        rw [AList.lookup_insert] at h
        cases h
        exact Or.inr (Or.inr (Or.inr ⟨rm, now, clientID, hl, rfl⟩))
      · rw [AList.lookup_insert_ne hr] at h
        exact Or.inl h
  | CleanupEmptyRooms now maxIdleTime =>
    simp only [Manager.apply] at h
    rw [lookup_CleanupEmptyRooms] at h
    cases hl : m.rooms.lookup r with
    | none => rw [hl] at h; cases h
    | some rm =>
      rw [hl] at h
      dsimp only at h
      split at h
      · cases h
      · exact Or.inl h

theorem apply_registeredServers (m : Manager) (op : Op) (s p : String)
    (h : m.registeredServers.lookup s = some p) :
    (m.apply op).registeredServers.lookup s = some p := by
  cases op with
  | RegisterServer now serverID serverPassword roomID =>
    simp only [Manager.apply, Manager.RegisterServer]
    cases hc : m.checkServer serverID serverPassword with
    | error e => exact h
    | ok m1 =>
      obtain ⟨-, -, hreg⟩ := checkServer_rooms m m1 serverID serverPassword hc
      dsimp only
      cases hl : m1.rooms.lookup roomID with
      | some rm =>
        dsimp only
        split
        · exact hreg s p h
        · exact hreg s p h
      | none => exact hreg s p h
  | ValidateClientJoin now roomID serverID serverPassword =>
    simp only [Manager.apply, Manager.ValidateClientJoin]
    cases hreg : m.registeredServers.lookup serverID with
    | none => exact h
    | some q =>
      dsimp only
      split
      · exact h
      · cases hl : m.rooms.lookup roomID with
        | none => exact h
        | some rm =>
          dsimp only
          split
          · exact h
          · exact h
  | AddPeerToRoom now roomID clientID pc conn =>
    simp only [Manager.apply, Manager.AddPeerToRoom]
    cases hl : m.rooms.lookup roomID with
    | none => exact h
    | some rm =>
      cases pc with
      | none => exact h
      | some p' =>
        cases conn with
        | none => exact h
        | some cn => exact h
  | RemovePeerFromRoom now roomID clientID =>
    simp only [Manager.apply, Manager.RemovePeerFromRoom]
    cases hl : m.rooms.lookup roomID with
    | none => exact h
    | some rm => exact h
  | CleanupEmptyRooms now maxIdleTime =>
    simp only [Manager.apply, Manager.CleanupEmptyRooms]
    rw [foldl_deleteRoom_registeredServers]
    exact h

theorem peersMatch_newRoom (now : Time) (roomID serverID : String) :
    (newRoom now roomID serverID).PeersMatch := by
  refine ⟨fun c => ?_, fun c => ?_, fun c => ?_⟩
  · simp [newRoom]
  · simp [newRoom]
  · simp [newRoom]

theorem peersMatch_add (rm : Room) (now : Time) (c : String) (p : webrtc.PeerConnectionRef)
    (cn : JSONWriter) (h : rm.PeersMatch) :
    Room.PeersMatch { rm with
      PeerConnections := rm.PeerConnections.insert c (some p)
      Connections := rm.Connections.insert c (some cn)
      LastActivity := now } := by
  obtain ⟨h1, h2, h3⟩ := h
  refine ⟨fun c' => ?_, fun c' => ?_, fun c' => ?_⟩
  · simp only [AList.mem_insert, h1 c']
  · by_cases hc : c' = c
    · subst hc
      simp [AList.lookup_insert]
    · simp only [AList.lookup_insert_ne hc]
      exact h2 c'
  · by_cases hc : c' = c
    · subst hc
      simp [AList.lookup_insert]
    · simp only [AList.lookup_insert_ne hc]
      exact h3 c'

theorem peersMatch_remove (rm : Room) (now : Time) (c : String) (h : rm.PeersMatch) :
    Room.PeersMatch { rm with
      PeerConnections := rm.PeerConnections.erase c
      Connections := rm.Connections.erase c
      LastActivity := now } := by
  obtain ⟨h1, h2, h3⟩ := h
  refine ⟨fun c' => ?_, fun c' => ?_, fun c' => ?_⟩
  · simp only [AList.mem_erase, h1 c']
  · by_cases hc : c' = c
    · subst hc
      simp [AList.lookup_erase]
    · simp only [AList.lookup_erase_ne hc]
      exact h2 c'
  · by_cases hc : c' = c
    · subst hc
      simp [AList.lookup_erase]
    · simp only [AList.lookup_erase_ne hc]
      exact h3 c'

theorem reachable_withPeer : Reachable withPeer :=
  Reachable.step _ (Op.AddPeerToRoom 2 "r1" "A" (some 1) (some ⟨11⟩))
    (Reachable.step _ (Op.RegisterServer 1 "s2" "p2" "r2")
      (Reachable.step _ (Op.RegisterServer 0 "s1" "p1" "r1") (Reachable.new false)))

theorem totalPeers_createRoom (m : Manager) (now : Time) (roomID serverID : String)
    (h : m.rooms.lookup roomID = none) :
    (m.createRoom now roomID serverID).TotalPeers = m.TotalPeers := by
  have hx : roomID ∉ m.rooms := AList.lookup_eq_none.1 h
  unfold Manager.TotalPeers Manager.createRoom
  dsimp only
  rw [AList.insert_entries_of_neg hx]
  simp [Room.peerCount, newRoom]

/-- A join that passes validation leaves the registry as it was or adds one empty room. -/
theorem validateClientJoin_ok (m : Manager) (now : Time) (roomID serverID password : String)
    (h : (m.ValidateClientJoin now roomID serverID password).2 = none) :
    (m.ValidateClientJoin now roomID serverID password).1.TotalPeers = m.TotalPeers ∧
    (∀ r rm', (m.ValidateClientJoin now roomID serverID password).1.rooms.lookup r = some rm' →
      m.rooms.lookup r = some rm' ∨ rm' = newRoom now roomID serverID) := by
  unfold Manager.ValidateClientJoin at h ⊢
  cases hreg : m.registeredServers.lookup serverID with
  | none => rw [hreg] at h; cases h
  | some q =>
    rw [hreg] at h
    dsimp only at h ⊢
    split
    · rename_i hq
      rw [if_pos hq] at h
      cases h
    · cases hl : m.rooms.lookup roomID with
      | none =>
        dsimp only
        refine ⟨totalPeers_createRoom m now roomID serverID hl, ?_⟩
        intro r rm' hr
        by_cases hrr : r = roomID
        · subst hrr
          rw [lookup_createRoom_self] at hr
          cases hr
          exact Or.inr rfl
        · rw [lookup_createRoom_ne _ _ _ _ _ hrr] at hr
          exact Or.inl hr
      | some rm =>
        dsimp only
        split
        · exact ⟨rfl, fun _ _ hr => Or.inl hr⟩
        · exact ⟨rfl, fun _ _ hr => Or.inl hr⟩

end room

/-! ## Lemmas on the texts of the session handler -/

namespace websocket

theorem contains_capacityMessage (currentPeers maxPeers : Int) :
    contains (capacityMessage currentPeers maxPeers) "no seats left" := by
  unfold contains capacityMessage
  refine ⟨"Sorry, there are ".toList,
    " in this voice server (".toList ++ (toString currentPeers ++ "/" ++ toString maxPeers ++
      "). Try again later.").toList, ?_⟩
  simp only [String.toList, String.data_append, List.append_assoc]
  rfl

theorem not_contains_fixed :
    ¬ contains "Failed to create peer connection" "no seats left" ∧
    ¬ contains "Failed to join room" "no seats left" ∧
    ¬ contains "Successfully joined room" "no seats left" := by
  unfold contains
  decide

end websocket

/-! ## Lemmas on the rooms of the track registry -/

namespace track

theorem addTrackToRoom_lookup_ne (m : Manager) (newTrackErr : Option GoError)
    (roomID roomID' : String) (t : webrtc.TrackRemote) (h : roomID' ≠ roomID) :
    (m.AddTrackToRoom newTrackErr roomID t).1.roomTracks.lookup roomID'
      = m.roomTracks.lookup roomID' := by
  unfold Manager.AddTrackToRoom
  cases newTrackErr with
  | some e => rfl
  | none => exact AList.lookup_insert_ne h

theorem removeTrackFromRoom_lookup_ne (m : Manager) (roomID roomID' : String)
    (t : Option webrtc.TrackLocalStaticRTP) (h : roomID' ≠ roomID) :
    (m.RemoveTrackFromRoom roomID t).roomTracks.lookup roomID' = m.roomTracks.lookup roomID' := by
  unfold Manager.RemoveTrackFromRoom
  cases m.roomTracks.lookup roomID with
  | none => rfl
  | some rt =>
    dsimp only
    cases t with
    | none => rfl
    | some t =>
      dsimp only
      split
      · split
        · exact AList.lookup_erase_ne h
        · exact AList.lookup_insert_ne h
      · rfl

end track

/-! ## Lemmas on snapshots of map objects -/

theorem dlookup_filter_keep {V : Type} (keep : V → Bool) (k : String)
    (l : List (Sigma fun _ : String => V)) (hnd : l.NodupKeys) :
    List.dlookup k (l.filter (fun e => keep e.2)) = keptValue keep (List.dlookup k l) := by
  induction l with
  | nil => rfl
  | cons e rest ih =>
    obtain ⟨k0, v0⟩ := e
    have hk0 : k0 ∉ rest.keys := (List.nodupKeys_cons.1 hnd).1
    have ih' := ih (List.nodupKeys_cons.1 hnd).2
    by_cases hk : k = k0
    · subst hk
      rw [List.dlookup_cons_eq]
      have hnone : List.dlookup k rest = none := List.dlookup_eq_none.2 hk0
      by_cases hkeep : keep v0 = true
      · rw [List.filter_cons_of_pos (by simpa using hkeep), List.dlookup_cons_eq]
        simp [keptValue, hkeep]
      · rw [List.filter_cons_of_neg (by simpa using hkeep), ih', hnone]
        simp [keptValue, hkeep]
    · rw [List.dlookup_cons_ne rest ⟨k0, v0⟩ hk]
      by_cases hkeep : keep v0 = true
      · rw [List.filter_cons_of_pos (by simpa using hkeep),
          List.dlookup_cons_ne (List.filter (fun e => keep e.2) rest)
            (⟨k0, v0⟩ : Sigma fun _ : String => V) hk, ih']
      · rw [List.filter_cons_of_neg (by simpa using hkeep), ih']

theorem nonNil_lookup {V : Type} (m : GoMap (Option V)) (k : String) :
    (GoMap.nonNil m).lookup k = keptValue (fun v => v.isSome) (m.lookup k) := by
  have h := dlookup_filter_keep (V := Option V) (fun v => v.isSome) k m.entries m.nodupKeys
  exact h

namespace Maps

theorem copy_spec {V : Type} (keep : V → Bool) (result : Nat)
    (l : List (Sigma fun _ : String => V)) (hnd : l.NodupKeys) :
    ∀ σ : Maps V,
      (copy keep result l σ).next = σ.next ∧
      (∀ b, b ≠ result → (copy keep result l σ).cell b = σ.cell b) ∧
      (∀ k, ((copy keep result l σ).cell result).lookup k
        = match keptValue keep (List.dlookup k l) with
          | some v => some v
          | none => (σ.cell result).lookup k) := by
  induction l with
  | nil => intro σ; exact ⟨rfl, fun _ _ => rfl, fun _ => rfl⟩
  | cons e rest ih =>
    intro σ
    obtain ⟨k0, v0⟩ := e
    have hk0 : k0 ∉ rest.keys := (List.nodupKeys_cons.1 hnd).1
    have ih' := ih (List.nodupKeys_cons.1 hnd).2
    by_cases hkeep : keep v0 = true
    · rw [copy, if_pos hkeep]
      obtain ⟨h1, h2, h3⟩ := ih' (σ.store result k0 v0)
      refine ⟨h1, ?_, ?_⟩
      · intro b hb
        rw [h2 b hb]
        exact Function.update_noteq hb _ _
      · intro k
        rw [h3 k]
        by_cases hk : k = k0
        · subst hk
          rw [List.dlookup_cons_eq, List.dlookup_eq_none.2 hk0]
          simp [keptValue, hkeep, store]
        · rw [List.dlookup_cons_ne rest ⟨k0, v0⟩ hk]
          have : ((σ.store result k0 v0).cell result).lookup k = (σ.cell result).lookup k := by
            simp [store, AList.lookup_insert_ne hk]
          rw [this]
    · rw [copy, if_neg hkeep]
      obtain ⟨h1, h2, h3⟩ := ih' σ
      refine ⟨h1, h2, ?_⟩
      intro k
      rw [h3 k]
      by_cases hk : k = k0
      · subst hk
        rw [List.dlookup_cons_eq, List.dlookup_eq_none.2 hk0]
        simp [keptValue, hkeep]
      · rw [List.dlookup_cons_ne rest ⟨k0, v0⟩ hk]

theorem snapshot_spec {V : Type} (σ : Maps V) (keep : V → Bool) (src : Nat)
    (hsrc : src < σ.next) :
    (σ.snapshot keep src).2 = σ.next ∧
    (σ.snapshot keep src).1.next = σ.next + 1 ∧
    (∀ b, b ≠ σ.next → (σ.snapshot keep src).1.cell b = σ.cell b) ∧
    (∀ k, ((σ.snapshot keep src).1.cell σ.next).lookup k
      = keptValue keep ((σ.cell src).lookup k)) := by
  have hne : src ≠ σ.next := Nat.ne_of_lt hsrc
  have hsrc' : σ.make.1.cell src = σ.cell src := Function.update_noteq hne _ _
  obtain ⟨h1, h2, h3⟩ := copy_spec keep σ.next (σ.cell src).entries (σ.cell src).nodupKeys
    σ.make.1
  unfold snapshot
  rw [hsrc']
  refine ⟨rfl, h1, ?_, ?_⟩
  · intro b hb
    show (copy keep σ.next (σ.cell src).entries σ.make.1).cell b = σ.cell b
    rw [h2 b hb]
    exact Function.update_noteq hb _ _
  · intro k
    show ((copy keep σ.next (σ.cell src).entries σ.make.1).cell σ.next).lookup k = _
    rw [h3 k]
    have hempty : (σ.make.1.cell σ.next).lookup k = none := by
      simp [make]
    rw [hempty]
    show _ = keptValue keep (List.dlookup k (σ.cell src).entries)
    cases keptValue keep (List.dlookup k (σ.cell src).entries) <;> rfl

theorem mutate_spec {V : Type} (a : Nat) (muts : List (Mutation V)) :
    ∀ σ : Maps V, (σ.mutate a muts).next = σ.next ∧
      ∀ b, b ≠ a → (σ.mutate a muts).cell b = σ.cell b := by
  induction muts with
  | nil => intro σ; exact ⟨rfl, fun _ _ => rfl⟩
  | cons mu rest ih =>
    intro σ
    cases mu with
    | store k v =>
      rw [mutate]
      obtain ⟨h1, h2⟩ := ih (σ.store a k v)
      refine ⟨h1, fun b hb => ?_⟩
      rw [h2 b hb]
      exact Function.update_noteq hb _ _
    | delete k =>
      rw [mutate]
      obtain ⟨h1, h2⟩ := ih (σ.delete a k)
      refine ⟨h1, fun b hb => ?_⟩
      rw [h2 b hb]
      exact Function.update_noteq hb _ _

/-- A snapshot, then any stores and deletes on the map returned: every map that was
in use before is as it was, and a second snapshot of the same source holds what the
first one held when it was returned. -/
theorem snapshot_is_copy {V : Type} (σ : Maps V) (keep : V → Bool) (src : Nat)
    (hsrc : src < σ.next) (muts : List (Mutation V)) :
    (∀ b, b < σ.next →
      (((σ.snapshot keep src).1).mutate (σ.snapshot keep src).2 muts).cell b = σ.cell b) ∧
    (((σ.snapshot keep src).1).mutate (σ.snapshot keep src).2 muts).next = σ.next + 1 ∧
    (∀ k,
      (((((σ.snapshot keep src).1).mutate (σ.snapshot keep src).2 muts).snapshot keep src).1.cell
          ((((σ.snapshot keep src).1).mutate (σ.snapshot keep src).2 muts).snapshot keep
            src).2).lookup k
        = ((σ.snapshot keep src).1.cell (σ.snapshot keep src).2).lookup k) := by
  obtain ⟨h1, h2, h3, h4⟩ := snapshot_spec σ keep src hsrc
  obtain ⟨m1, m2⟩ := mutate_spec (σ.snapshot keep src).2 muts (σ.snapshot keep src).1
  have hold : ∀ b, b < σ.next →
      (((σ.snapshot keep src).1).mutate (σ.snapshot keep src).2 muts).cell b = σ.cell b := by
    intro b hb
    have hb' : b ≠ σ.next := Nat.ne_of_lt hb
    rw [m2 b (by rw [h1]; exact hb'), h3 b hb']
  refine ⟨hold, by rw [m1, h2], ?_⟩
  intro k
  have hsrc2 : src < (((σ.snapshot keep src).1).mutate (σ.snapshot keep src).2 muts).next := by
    rw [m1, h2]; omega
  obtain ⟨g1, -, -, g4⟩ := snapshot_spec
    (((σ.snapshot keep src).1).mutate (σ.snapshot keep src).2 muts) keep src hsrc2
  rw [g1, g4 k, hold src hsrc, h1, h4 k]

end Maps

namespace Maps

/-- A snapshot returns a new object with the kept entries of its source; whatever is then
done to that object, the older objects stay as they were and a second snapshot of the
same source has the entries the first one had. -/
theorem snapshot_copy {V : Type} (σ : Maps V) (keep : V → Bool) (src : Nat) (content : GoMap V)
    (hsrc : src < σ.next) (hcontent : σ.cell src = content) :
    (σ.snapshot keep src).2 = σ.next ∧
    (∀ c, ((σ.snapshot keep src).1.cell σ.next).lookup c = keptValue keep (content.lookup c)) ∧
    ∀ muts : List (Mutation V),
      (∀ b, b < σ.next → (((σ.snapshot keep src).1).mutate σ.next muts).cell b = σ.cell b) ∧
      σ.next ≤ (((σ.snapshot keep src).1).mutate σ.next muts).next ∧
      ((((σ.snapshot keep src).1).mutate σ.next muts).snapshot keep src).2 = σ.next + 1 ∧
      (∀ c, (((((σ.snapshot keep src).1).mutate σ.next muts).snapshot keep src).1.cell
            (σ.next + 1)).lookup c
          = ((σ.snapshot keep src).1.cell σ.next).lookup c) := by
  obtain ⟨h1, h2, h3, h4⟩ := snapshot_spec σ keep src hsrc
  refine ⟨h1, fun c => by rw [h4 c, hcontent], fun muts => ?_⟩
  obtain ⟨g1, g2, g3⟩ := snapshot_is_copy σ keep src hsrc muts
  rw [h1] at g1 g2 g3
  have hsrc2 : src < (((σ.snapshot keep src).1).mutate σ.next muts).next := by
    rw [g2]; omega
  obtain ⟨k1, -, -, -⟩ := snapshot_spec (((σ.snapshot keep src).1).mutate σ.next muts) keep src
    hsrc2
  rw [g2] at k1
  refine ⟨g1, by rw [g2]; omega, k1, ?_⟩
  intro c
  have := g3 c
  rw [k1] at this
  exact this

/-- A map made by `make` is new and empty, and mutating it leaves the older objects alone. -/
theorem mutate_make {V : Type} (σ : Maps V) (muts : List (Mutation V)) :
    σ.make.2 = σ.next ∧
    (∀ c, (σ.make.1.cell σ.next).lookup c = none) ∧
    (∀ b, b < σ.next → ((σ.make.1).mutate σ.next muts).cell b = σ.cell b) ∧
    ((σ.make.1).mutate σ.next muts).next = σ.next + 1 := by
  obtain ⟨m1, m2⟩ := mutate_spec σ.next muts σ.make.1
  refine ⟨rfl, fun c => by simp [make], fun b hb => ?_, by rw [m1]; rfl⟩
  have hb' : b ≠ σ.next := Nat.ne_of_lt hb
  rw [m2 b hb']
  exact Function.update_noteq hb' _ _

end Maps

namespace room

/-- The map returned by `GetPeersInRoom` is a new object holding the non-nil peers. -/
theorem getPeersInRoomAt_copy (m : Manager) (peersAt : String → Nat)
    (σ : Maps (Option webrtc.PeerConnectionRef)) (roomID : String) (rm : Room)
    (hplaced : m.PeersAt peersAt σ) (hroom : m.rooms.lookup roomID = some rm) :
    ∃ σ1, m.GetPeersInRoomAt peersAt σ roomID = (σ1, .ok σ.next) ∧
      (∀ c, (σ1.cell σ.next).lookup c
        = keptValue (fun pc => pc.isSome) (rm.PeerConnections.lookup c)) ∧
      ∀ muts : List (Mutation (Option webrtc.PeerConnectionRef)),
        m.PeersAt peersAt (σ1.mutate σ.next muts) ∧
        ∃ σ2, m.GetPeersInRoomAt peersAt (σ1.mutate σ.next muts) roomID
            = (σ2, .ok (σ.next + 1)) ∧
          ∀ c, (σ2.cell (σ.next + 1)).lookup c = (σ1.cell σ.next).lookup c := by
  obtain ⟨hlt, hcell⟩ := hplaced roomID rm hroom
  obtain ⟨h1, h2, h3⟩ := Maps.snapshot_copy σ (fun pc => pc.isSome) (peersAt roomID)
    rm.PeerConnections hlt hcell
  refine ⟨(σ.snapshot (fun pc => pc.isSome) (peersAt roomID)).1, ?_, h2, fun muts => ?_⟩
  · unfold Manager.GetPeersInRoomAt
    rw [hroom, h1]
  · obtain ⟨g1, g2, g3, g4⟩ := h3 muts
    refine ⟨?_, _, ?_, g4⟩
    · intro r rm' hr
      obtain ⟨hlt', hcell'⟩ := hplaced r rm' hr
      exact ⟨Nat.lt_of_lt_of_le hlt' g2, by rw [g1 _ hlt', hcell']⟩
    · unfold Manager.GetPeersInRoomAt
      rw [hroom, g3]

/-- The map returned by `GetConnectionsInRoom` is a new object holding the non-nil
connections. -/
theorem getConnectionsInRoomAt_copy (m : Manager) (connsAt : String → Nat)
    (σ : Maps (Option JSONWriter)) (roomID : String) (rm : Room)
    (hplaced : m.ConnectionsAt connsAt σ) (hroom : m.rooms.lookup roomID = some rm) :
    ∃ σ1, m.GetConnectionsInRoomAt connsAt σ roomID = (σ1, .ok σ.next) ∧
      (∀ c, (σ1.cell σ.next).lookup c
        = keptValue (fun conn => conn.isSome) (rm.Connections.lookup c)) ∧
      ∀ muts : List (Mutation (Option JSONWriter)),
        m.ConnectionsAt connsAt (σ1.mutate σ.next muts) ∧
        ∃ σ2, m.GetConnectionsInRoomAt connsAt (σ1.mutate σ.next muts) roomID
            = (σ2, .ok (σ.next + 1)) ∧
          ∀ c, (σ2.cell (σ.next + 1)).lookup c = (σ1.cell σ.next).lookup c := by
  obtain ⟨hlt, hcell⟩ := hplaced roomID rm hroom
  obtain ⟨h1, h2, h3⟩ := Maps.snapshot_copy σ (fun conn => conn.isSome) (connsAt roomID)
    rm.Connections hlt hcell
  refine ⟨(σ.snapshot (fun conn => conn.isSome) (connsAt roomID)).1, ?_, h2, fun muts => ?_⟩
  · unfold Manager.GetConnectionsInRoomAt
    rw [hroom, h1]
  · obtain ⟨g1, g2, g3, g4⟩ := h3 muts
    refine ⟨?_, _, ?_, g4⟩
    · intro r rm' hr
      obtain ⟨hlt', hcell'⟩ := hplaced r rm' hr
      exact ⟨Nat.lt_of_lt_of_le hlt' g2, by rw [g1 _ hlt', hcell']⟩
    · unfold Manager.GetConnectionsInRoomAt
      rw [hroom, g3]

end room

namespace track

/-- The map returned by `GetTracksInRoom` is a new object holding the room's tracks. -/
theorem getTracksInRoomAt_copy (m : Manager) (tracksAt : String → Nat)
    (σ : Maps (Option webrtc.TrackLocalStaticRTP)) (roomID : String)
    (hplaced : m.TracksAt tracksAt σ) :
    ∃ σ1, m.GetTracksInRoomAt tracksAt σ roomID = (σ1, σ.next) ∧
      (∀ c, (σ1.cell σ.next).lookup c = (m.GetTracksInRoom roomID).lookup c) ∧
      ∀ muts : List (Mutation (Option webrtc.TrackLocalStaticRTP)),
        m.TracksAt tracksAt (σ1.mutate σ.next muts) ∧
        ∃ σ2, m.GetTracksInRoomAt tracksAt (σ1.mutate σ.next muts) roomID
            = (σ2, σ.next + 1) ∧
          ∀ c, (σ2.cell (σ.next + 1)).lookup c = (σ1.cell σ.next).lookup c := by
  cases hroom : m.roomTracks.lookup roomID with
  | none =>
    have hget : m.GetTracksInRoom roomID = ∅ := by
      unfold Manager.GetTracksInRoom; rw [hroom]
    refine ⟨σ.make.1, ?_, ?_, fun muts => ?_⟩
    · unfold Manager.GetTracksInRoomAt
      rw [hroom]
      rfl
    · intro c
      rw [hget, (Maps.mutate_make σ []).2.1 c]
      rfl
    · obtain ⟨-, g2, g3, g4⟩ := Maps.mutate_make σ muts
      refine ⟨?_, (σ.make.1.mutate σ.next muts).make.1, ?_, ?_⟩
      · intro r rt hr
        obtain ⟨hlt', hcell'⟩ := hplaced r rt hr
        exact ⟨by rw [g4]; omega, by rw [g3 _ hlt', hcell']⟩
      · unfold Manager.GetTracksInRoomAt
        rw [hroom]
        show ((σ.make.1.mutate σ.next muts).make.1, (σ.make.1.mutate σ.next muts).next) = _
        rw [g4]
      · intro c
        have := (Maps.mutate_make (σ.make.1.mutate σ.next muts) []).2.1 c
        rw [g4] at this
        rw [this, g2 c]
  | some rt =>
    have hget : m.GetTracksInRoom roomID = rt := by
      unfold Manager.GetTracksInRoom; rw [hroom]
    obtain ⟨hlt, hcell⟩ := hplaced roomID rt hroom
    obtain ⟨h1, h2, h3⟩ := Maps.snapshot_copy σ (fun _ => true) (tracksAt roomID) rt hlt hcell
    refine ⟨(σ.snapshot (fun _ => true) (tracksAt roomID)).1, ?_, ?_, fun muts => ?_⟩
    · unfold Manager.GetTracksInRoomAt
      rw [hroom]
      exact Prod.ext rfl h1
    · intro c
      rw [h2 c, hget]
      cases rt.lookup c <;> rfl
    · obtain ⟨g1, g2, g3, g4⟩ := h3 muts
      refine ⟨?_, _, ?_, g4⟩
      · intro r rt' hr
        obtain ⟨hlt', hcell'⟩ := hplaced r rt' hr
        exact ⟨Nat.lt_of_lt_of_le hlt' g2, by rw [g1 _ hlt', hcell']⟩
      · unfold Manager.GetTracksInRoomAt
        rw [hroom]
        exact Prod.ext rfl g3

end track

namespace room

/-- The peer map of the only room of `soloRoom` is the object at address 0. -/
theorem peersAt_soloRoom : soloRoom.PeersAt (fun _ => 0) peerObjects := by
  intro r rm h
  refine ⟨Nat.zero_lt_one, ?_⟩
  have hm := AList.mem_lookup_iff.1 h
  have hent : soloRoom.rooms.entries
      = [⟨"r", { newRoom 0 "r" "s1" with
          PeerConnections := (∅ : GoMap (Option webrtc.PeerConnectionRef)).insert "A" (some 1)
          Connections := (∅ : GoMap (Option JSONWriter)).insert "A" (some ⟨11⟩)
          LastActivity := 2 }⟩] := rfl
  rw [hent, List.mem_singleton] at hm
  cases hm
  rfl

end room


/-! ## The claims on the idle sweep -/

/-- C11, as the specification states it, fails: a room without peers whose last activity
lies exactly `maxIdle` back (here 30 minutes) is kept by `CleanupEmptyRooms`, and
`CleanupEmptyRooms(0)` at the very instant of a room's last activity keeps the room
although every peer map is empty. -/
theorem room.CleanupEmptyRooms_deletes_counterexample :
    (room.oneRoom.rooms.lookup "r").map
        (fun rm => (rm.peerCount, 30 * time.Minute - rm.LastActivity))
      = some (0, 30 * time.Minute) ∧
    ((room.oneRoom.CleanupEmptyRooms (30 * time.Minute) (30 * time.Minute)).rooms.lookup
      "r").isSome = true ∧
    (∀ e ∈ room.oneRoom.rooms.entries, e.2.peerCount = 0) ∧
    ((room.oneRoom.CleanupEmptyRooms 0 0).rooms.lookup "r").isSome = true := by
  decide

/-- C11, amended: `CleanupEmptyRooms(maxIdle)` at clock value `now` deletes a room if and
only if its peer map is empty and `now.Sub(lastActivity) > maxIdle` (a strict comparison;
`Sub` is the difference `now − lastActivity` whenever that fits a duration); rooms that
did not exist do not appear; in particular, when every peer map is empty and every
`lastActivity` lies strictly before `now`, `CleanupEmptyRooms(0)` removes every room. -/
theorem room.CleanupEmptyRooms_deletes (m : room.Manager) (now : Time) (maxIdleTime : Int) :
    (∀ r rm, m.rooms.lookup r = some rm →
      ((m.CleanupEmptyRooms now maxIdleTime).rooms.lookup r = none ↔
        rm.PeerConnections.entries.length = 0 ∧
          time.Sub now rm.LastActivity > maxIdleTime)) ∧
    (∀ r rm, m.rooms.lookup r = some rm →
      time.minDuration ≤ now - rm.LastActivity → now - rm.LastActivity ≤ time.maxDuration →
      ((m.CleanupEmptyRooms now maxIdleTime).rooms.lookup r = none ↔
        rm.PeerConnections.entries.length = 0 ∧ now - rm.LastActivity > maxIdleTime)) ∧
    (∀ r, m.rooms.lookup r = none →
      (m.CleanupEmptyRooms now maxIdleTime).rooms.lookup r = none) ∧
    ((∀ r rm, m.rooms.lookup r = some rm →
        rm.PeerConnections.entries.length = 0 ∧ rm.LastActivity < now) →
      ∀ r, (m.CleanupEmptyRooms now 0).rooms.lookup r = none) := by
  have hmain : ∀ (d : Int) r rm, m.rooms.lookup r = some rm →
      ((m.CleanupEmptyRooms now d).rooms.lookup r = none ↔
        rm.PeerConnections.entries.length = 0 ∧ time.Sub now rm.LastActivity > d) := by
    intro d r rm hl
    rw [room.lookup_CleanupEmptyRooms, hl, ← room.isEmptyAndIdle_iff rm]
    dsimp only
    by_cases hc : rm.isEmptyAndIdle now d = true
    · simp [hc]
    · simp [hc]
  have hnone : ∀ (d : Int) r, m.rooms.lookup r = none →
      (m.CleanupEmptyRooms now d).rooms.lookup r = none := by
    intro d r hl
    rw [room.lookup_CleanupEmptyRooms, hl]
  refine ⟨hmain maxIdleTime, ?_, hnone maxIdleTime, ?_⟩
  · intro r rm hl h1 h2
    rw [hmain maxIdleTime r rm hl, room.sub_eq _ _ h1 h2]
  · intro hall r
    cases hl : m.rooms.lookup r with
    | none => exact hnone 0 r hl
    | some rm =>
      obtain ⟨hempty, hlt⟩ := hall r rm hl
      exact (hmain 0 r rm hl).2 ⟨hempty, room.sub_pos _ _ hlt⟩

/-- C11, at a concrete input: the empty room "r", last active at 0, is deleted by a sweep
with `maxIdle` of 30 minutes at minute 31. -/
theorem room.CleanupEmptyRooms_deletes_witness :
    (room.oneRoom.CleanupEmptyRooms (31 * time.Minute) (30 * time.Minute)).rooms.lookup "r"
      = none :=
  ((room.CleanupEmptyRooms_deletes room.oneRoom (31 * time.Minute) (30 * time.Minute)).1
    "r" (room.newRoom 0 "r" "s1") rfl).2 ⟨by decide, by decide⟩

/-- C12: `CleanupEmptyRooms` never deletes a room that has at least one peer, whatever
`maxIdle` is (zero and negative durations included): the room is in the registry
afterwards exactly as it was, with the same owner, peer map, connection map and
`LastActivity`. -/
theorem room.CleanupEmptyRooms_keeps_occupied (m : room.Manager) (now : Time)
    (maxIdleTime : Int) (r : String) (rm : room.Room)
    (hroom : m.rooms.lookup r = some rm) (hpeers : rm.PeerConnections.entries ≠ []) :
    (m.CleanupEmptyRooms now maxIdleTime).rooms.lookup r = some rm := by
  rw [room.lookup_CleanupEmptyRooms, hroom]
  dsimp only
  rw [if_neg]
  intro h
  exact hpeers (List.length_eq_zero.1 ((room.isEmptyAndIdle_iff rm now maxIdleTime).1 h).1)

/-- C12, at a concrete input: room "r1" with client "A" survives a sweep with a negative
`maxIdle` long after its last activity. -/
theorem room.CleanupEmptyRooms_keeps_occupied_witness :
    (room.withPeer.CleanupEmptyRooms (31 * time.Minute) (-1)).rooms.lookup "r1"
      = some room.occupiedRoom :=
  room.CleanupEmptyRooms_keeps_occupied room.withPeer (31 * time.Minute) (-1) "r1"
    room.occupiedRoom rfl (by decide)

/-- C13: after `CleanupEmptyRooms` the index entry of a deleted room's owner no longer
lists that room; the entry of every server lists what it listed before without the
deleted rooms of that server, in the same order; it is removed altogether when the sweep
deleted a room of the server and nothing is left to list (for a registry whose index
agrees with its rooms: when no room of that owner remains); the entries of servers none
of whose rooms were deleted are unchanged. -/
theorem room.CleanupEmptyRooms_index (m : room.Manager) (now : Time) (maxIdleTime : Int) :
    (∀ r rm, m.rooms.lookup r = some rm → rm.isEmptyAndIdle now maxIdleTime = true →
      r ∉ (m.CleanupEmptyRooms now maxIdleTime).roomsOf rm.ServerID) ∧
    (∀ s, (m.CleanupEmptyRooms now maxIdleTime).roomsOf s
      = (m.roomsOf s).filter (fun r => !m.sweptOf now maxIdleTime s r)) ∧
    (∀ s, (∃ r, m.sweptOf now maxIdleTime s r = true) →
      (m.roomsOf s).filter (fun r => !m.sweptOf now maxIdleTime s r) = [] →
      (m.CleanupEmptyRooms now maxIdleTime).serverToRooms.lookup s = none) ∧
    (m.IndexConsistent → ∀ s, (∃ r, m.sweptOf now maxIdleTime s r = true) →
      (∀ r rm, (m.CleanupEmptyRooms now maxIdleTime).rooms.lookup r = some rm →
        rm.ServerID ≠ s) →
      (m.CleanupEmptyRooms now maxIdleTime).serverToRooms.lookup s = none) ∧
    (∀ s, (∀ r, m.sweptOf now maxIdleTime s r = false) →
      (m.CleanupEmptyRooms now maxIdleTime).serverToRooms.lookup s
        = m.serverToRooms.lookup s) := by
  refine ⟨?_, room.roomsOf_CleanupEmptyRooms m now maxIdleTime,
    fun s => (room.index_CleanupEmptyRooms m now maxIdleTime s).2, ?_,
    fun s => (room.index_CleanupEmptyRooms m now maxIdleTime s).1⟩
  · intro r rm hl hc
    rw [room.roomsOf_CleanupEmptyRooms, List.mem_filter]
    rintro ⟨-, h⟩
    have : m.sweptOf now maxIdleTime rm.ServerID r = true := by
      simp [room.Manager.sweptOf, hl, hc]
    rw [this] at h
    cases h
  · intro hinv s hex hnone
    refine (room.index_CleanupEmptyRooms m now maxIdleTime s).2 hex ?_
    rw [List.filter_eq_nil_iff]
    intro r hr hnot
    have hcount := hinv s r
    have hpos : 0 < (m.roomsOf s).count r := List.count_pos_iff.2 hr
    by_cases hown : (m.rooms.lookup r).map (fun rm => rm.ServerID) = some s
    · cases hl : m.rooms.lookup r with
      | none => rw [hl] at hown; cases hown
      | some rm =>
        rw [hl] at hown
        have hs : rm.ServerID = s := by simpa using hown
        have hsw : m.sweptOf now maxIdleTime s r = false := by simpa using hnot
        have hkeep : rm.isEmptyAndIdle now maxIdleTime = false := by
          simpa [room.Manager.sweptOf, hl, hs] using hsw
        have hafter : (m.CleanupEmptyRooms now maxIdleTime).rooms.lookup r = some rm := by
          rw [room.lookup_CleanupEmptyRooms, hl]
          simp [hkeep]
        exact hnone r rm hafter hs
    · rw [if_neg hown] at hcount
      omega

/-- C13, at a concrete input: the sweep that deletes the only room of server "s1" removes
the index entry of "s1". -/
theorem room.CleanupEmptyRooms_index_witness :
    (room.oneRoom.CleanupEmptyRooms (31 * time.Minute) (30 * time.Minute)).serverToRooms.lookup
      "s1" = none :=
  (room.CleanupEmptyRooms_index room.oneRoom (31 * time.Minute) (30 * time.Minute)).2.2.1
    "s1" ⟨"r", by decide⟩ (by decide)

/-! ## The claim on admission control -/

/-- C14: a client join that passed validation is answered with a `room_error` whose text
contains "no seats left" if and only if `MaxPeers > 0` and `TotalPeers() >= MaxPeers`,
`TotalPeers()` being the sum over all rooms of the size of the peer map; on such a
rejection the handler returns the "server full" error, sends nothing else, and no peer is
added to any room (the total is unchanged, and every room afterwards is a room as it was
before or the room created empty by the validation). -/
theorem websocket.handleClientConnection_capacity (h : websocket.Handler) (now later : Time)
    (conn : room.JSONWriter) (clientID : String) (joinData : types.ClientJoinData)
    (created : Except GoError webrtc.PeerConnectionRef)
    (hvalid : (h.roomManager.ValidateClientJoin now joinData.RoomID joinData.ServerID
      joinData.ServerPassword).2 = none) :
    ((∃ msg ∈ (h.handleClientConnection now later conn clientID joinData created).sent,
        msg.Event = types.EventRoomError ∧ websocket.contains msg.Data "no seats left") ↔
      (h.config.MaxPeers > 0 ∧ (h.roomManager.TotalPeers : Int) ≥ h.config.MaxPeers)) ∧
    ((h.config.MaxPeers > 0 ∧ (h.roomManager.TotalPeers : Int) ≥ h.config.MaxPeers) →
      (h.handleClientConnection now later conn clientID joinData created).err
        = some (GoError.serverFull h.roomManager.TotalPeers h.config.MaxPeers) ∧
      (h.handleClientConnection now later conn clientID joinData created).sent
        = [{ Event := types.EventRoomError
             Data := websocket.capacityMessage h.roomManager.TotalPeers h.config.MaxPeers }] ∧
      (h.handleClientConnection now later conn clientID joinData created).roomManager.TotalPeers
        = h.roomManager.TotalPeers ∧
      (∀ r rm',
        (h.handleClientConnection now later conn clientID joinData created).roomManager.rooms.lookup r
          = some rm' →
        h.roomManager.rooms.lookup r = some rm' ∨ rm'.PeerConnections = ∅)) := by
  obtain ⟨htotal, hrooms⟩ := room.validateClientJoin_ok h.roomManager now joinData.RoomID
    joinData.ServerID joinData.ServerPassword hvalid
  rcases hv : h.roomManager.ValidateClientJoin now joinData.RoomID joinData.ServerID
    joinData.ServerPassword with ⟨m1, e⟩
  rw [hv] at hvalid htotal hrooms
  dsimp only at hvalid htotal hrooms
  subst hvalid
  unfold websocket.Handler.handleClientConnection
  rw [hv]
  dsimp only
  rw [htotal]
  by_cases hfull : h.config.MaxPeers > 0 ∧ (h.roomManager.TotalPeers : Int) ≥ h.config.MaxPeers
  · rw [if_pos hfull]
    refine ⟨⟨fun _ => hfull, fun _ => ⟨_, List.mem_singleton.2 rfl, rfl,
      websocket.contains_capacityMessage _ _⟩⟩, fun _ => ⟨rfl, rfl, htotal, ?_⟩⟩
    intro r rm' hr
    rcases hrooms r rm' hr with h1 | h1
    · exact Or.inl h1
    · exact Or.inr (by rw [h1]; rfl)
  · rw [if_neg hfull]
    refine ⟨⟨?_, fun hc => absurd hc hfull⟩, fun hc => absurd hc hfull⟩
    rintro ⟨msg, hmem, hev, hcont⟩
    exfalso
    obtain ⟨n1, n2, n3⟩ := websocket.not_contains_fixed
    cases created with
    | error e =>
      dsimp only at hmem
      rw [List.mem_singleton.1 hmem] at hcont
      exact n1 hcont
    | ok peerConnection =>
      dsimp only at hmem
      rcases hadd : m1.AddPeerToRoom later joinData.RoomID clientID (some peerConnection)
        (some conn) with ⟨m2, e2⟩
      rw [hadd] at hmem
      cases e2 with
      | some err =>
        dsimp only at hmem
        rw [List.mem_singleton.1 hmem] at hcont
        exact n2 hcont
      | none =>
        dsimp only at hmem
        rw [List.mem_singleton.1 hmem] at hcont
        exact n3 hcont

/-- C14, at a concrete input: with `MaxPeers = 1` and one peer seated, a valid join of
client "B" is turned away with the "server full" error. -/
theorem websocket.handleClientConnection_capacity_witness :
    (websocket.fullHandler.handleClientConnection 3 4 ⟨12⟩ "B" ⟨"r1", "s1", "p1", "t"⟩
      (.ok 2)).err
      = some (GoError.serverFull websocket.fullHandler.roomManager.TotalPeers
          websocket.fullHandler.config.MaxPeers) :=
  ((websocket.handleClientConnection_capacity websocket.fullHandler 3 4 ⟨12⟩ "B"
    ⟨"r1", "s1", "p1", "t"⟩ (.ok 2) (by decide)).2 ⟨by decide, by decide⟩).1

/-! ## The claims on the invariants of the room registry -/

/-- C15: a room's owner is immutable: for every registry state and every single operation
among `RegisterServer`, `ValidateClientJoin`, `AddPeerToRoom`, `RemovePeerFromRoom` and
`CleanupEmptyRooms`, successful or failing, a room that exists before and after the
operation has the same `ServerID` (and the same `ID` and `CreatedAt`) after as before. -/
theorem room.owner_immutable (m : room.Manager) (op : room.Op) (r : String)
    (rm rm' : room.Room) (hbefore : m.rooms.lookup r = some rm)
    (hafter : (m.apply op).rooms.lookup r = some rm') :
    rm'.ServerID = rm.ServerID ∧ rm'.ID = rm.ID ∧ rm'.CreatedAt = rm.CreatedAt := by
  rcases room.apply_lookup m op r rm' hafter with h | ⟨h, -⟩ | ⟨rm0, now, c, p, cn, h, rfl⟩ |
      ⟨rm0, now, c, h, rfl⟩
  · rw [hbefore] at h
    cases h
    exact ⟨rfl, rfl, rfl⟩
  · rw [hbefore] at h
    cases h
  · rw [hbefore] at h
    cases h
    exact ⟨rfl, rfl, rfl⟩
  · rw [hbefore] at h
    cases h
    exact ⟨rfl, rfl, rfl⟩

/-- C15, at a concrete input: seating client "A" in room "r1" keeps the room's owner. -/
theorem room.owner_immutable_witness :
    room.occupiedRoom.ServerID = (room.newRoom 0 "r1" "s1").ServerID ∧
    room.occupiedRoom.ID = (room.newRoom 0 "r1" "s1").ID ∧
    room.occupiedRoom.CreatedAt = (room.newRoom 0 "r1" "s1").CreatedAt :=
  room.owner_immutable room.twoServers (room.Op.AddPeerToRoom 2 "r1" "A" (some 1) (some ⟨11⟩))
    "r1" (room.newRoom 0 "r1" "s1") room.occupiedRoom rfl rfl

/-- C16: server registrations are permanent and their password fixed: a server registered
before an operation of the room registry (`RegisterServer`, `ValidateClientJoin`,
`AddPeerToRoom`, `RemovePeerFromRoom`, `CleanupEmptyRooms`) is registered afterwards with
the same password, also after any sequence of such operations, and the sweep, which is
the only operation that deletes rooms, leaves the table of registrations as it was. -/
theorem room.registration_permanent (m : room.Manager) (s p : String)
    (hreg : m.registeredServers.lookup s = some p) :
    (∀ op : room.Op, (m.apply op).registeredServers.lookup s = some p) ∧
    (∀ ops : List room.Op, (m.applyAll ops).registeredServers.lookup s = some p) ∧
    (∀ now maxIdleTime,
      (m.CleanupEmptyRooms now maxIdleTime).registeredServers = m.registeredServers) := by
  refine ⟨fun op => room.apply_registeredServers m op s p hreg, ?_, ?_⟩
  · intro ops
    unfold room.Manager.applyAll
    induction ops generalizing m with
    | nil => exact hreg
    | cons op rest ih =>
      rw [List.foldl_cons]
      exact ih (m.apply op) (room.apply_registeredServers m op s p hreg)
  · intro now maxIdleTime
    exact room.foldl_deleteRoom_registeredServers _ m

/-- C16, at a concrete input: after the sweep has deleted the only room of "s1" and a
registration with another password was tried, "s1" is still registered with "p". -/
theorem room.registration_permanent_witness :
    (room.oneRoom.applyAll [room.Op.CleanupEmptyRooms (31 * time.Minute) (30 * time.Minute),
      room.Op.RegisterServer (32 * time.Minute) "s1" "other" "r"]).registeredServers.lookup "s1"
      = some "p" :=
  (room.registration_permanent room.oneRoom "s1" "p" (by decide)).2.1 _

/-- C17: `AddPeerToRoom(roomID, clientID, pc, conn)` fails when the room does not exist,
when `pc` is nil or when `conn` is nil (with the errors of these three checks, in this
order) and then leaves the whole registry unchanged; otherwise it succeeds, and
afterwards the room maps `clientID` to `pc` and to `conn`, the entries of all other
clients and all other rooms are unchanged, `LastActivity` is the time of the call, and
the index and the registrations are as before. -/
theorem room.AddPeerToRoom_contract (m : room.Manager) (now : Time) (roomID clientID : String)
    (pc : Option webrtc.PeerConnectionRef) (conn : Option room.JSONWriter) :
    ((m.rooms.lookup roomID = none ∨ pc = none ∨ conn = none) →
      (m.AddPeerToRoom now roomID clientID pc conn).1 = m ∧
      (m.AddPeerToRoom now roomID clientID pc conn).2 ≠ none) ∧
    (m.rooms.lookup roomID = none →
      (m.AddPeerToRoom now roomID clientID pc conn).2 = some (GoError.roomDoesNotExist roomID)) ∧
    (m.rooms.lookup roomID ≠ none → pc = none →
      (m.AddPeerToRoom now roomID clientID pc conn).2
        = some (GoError.peerConnectionNil clientID)) ∧
    (m.rooms.lookup roomID ≠ none → pc ≠ none → conn = none →
      (m.AddPeerToRoom now roomID clientID pc conn).2 = some (GoError.websocketNil clientID)) ∧
    (∀ rm p cn, m.rooms.lookup roomID = some rm → pc = some p → conn = some cn →
      (m.AddPeerToRoom now roomID clientID pc conn).2 = none ∧
      (∃ rm', (m.AddPeerToRoom now roomID clientID pc conn).1.rooms.lookup roomID = some rm' ∧
        rm'.PeerConnections.lookup clientID = some (some p) ∧
        rm'.Connections.lookup clientID = some (some cn) ∧
        (∀ c, c ≠ clientID →
          rm'.PeerConnections.lookup c = rm.PeerConnections.lookup c ∧
          rm'.Connections.lookup c = rm.Connections.lookup c) ∧
        rm'.LastActivity = now ∧ rm'.ServerID = rm.ServerID ∧ rm'.ID = rm.ID ∧
        rm'.CreatedAt = rm.CreatedAt) ∧
      (∀ r, r ≠ roomID →
        (m.AddPeerToRoom now roomID clientID pc conn).1.rooms.lookup r = m.rooms.lookup r) ∧
      (m.AddPeerToRoom now roomID clientID pc conn).1.serverToRooms = m.serverToRooms ∧
      (m.AddPeerToRoom now roomID clientID pc conn).1.registeredServers
        = m.registeredServers) := by
  refine ⟨?_, ?_, ?_, ?_, ?_⟩
  · intro h
    unfold room.Manager.AddPeerToRoom
    cases hl : m.rooms.lookup roomID with
    | none => exact ⟨rfl, by simp⟩
    | some rm =>
      cases pc with
      | none => exact ⟨rfl, by simp⟩
      | some p =>
        cases conn with
        | none => exact ⟨rfl, by simp⟩
        | some cn =>
          rcases h with h | h | h
          · rw [hl] at h; cases h
          · cases h
          · cases h
  · intro hl
    unfold room.Manager.AddPeerToRoom
    rw [hl]
  · intro hl hpc
    unfold room.Manager.AddPeerToRoom
    cases hl' : m.rooms.lookup roomID with
    | none => exact absurd hl' hl
    | some rm => rw [hpc]
  · intro hl hpc hconn
    unfold room.Manager.AddPeerToRoom
    cases hl' : m.rooms.lookup roomID with
    | none => exact absurd hl' hl
    | some rm =>
      cases pc with
      | none => exact absurd rfl hpc
      | some p => rw [hconn]
  · intro rm p cn hl hpc hconn
    subst hpc
    subst hconn
    unfold room.Manager.AddPeerToRoom
    rw [hl]
    dsimp only
    refine ⟨rfl, ⟨_, AList.lookup_insert _, AList.lookup_insert _, AList.lookup_insert _,
      ?_, rfl, rfl, rfl, rfl⟩, ?_, rfl, rfl⟩
    · intro c hc
      exact ⟨AList.lookup_insert_ne hc, AList.lookup_insert_ne hc⟩
    · intro r hr
      exact AList.lookup_insert_ne hr

/-- C17, at a concrete input: a nil peer connection is refused and changes nothing; with
both arguments present the call succeeds. -/
theorem room.AddPeerToRoom_contract_witness :
    (room.twoServers.AddPeerToRoom 2 "r1" "A" none (some ⟨11⟩)).1 = room.twoServers ∧
    (room.twoServers.AddPeerToRoom 2 "r1" "A" (some 1) (some ⟨11⟩)).2 = none :=
  ⟨((room.AddPeerToRoom_contract room.twoServers 2 "r1" "A" none (some ⟨11⟩)).1
      (Or.inr (Or.inl rfl))).1,
   ((room.AddPeerToRoom_contract room.twoServers 2 "r1" "A" (some 1) (some ⟨11⟩)).2.2.2.2
      (room.newRoom 0 "r1" "s1") 1 ⟨11⟩ rfl rfl rfl).1⟩

/-- C18: both maps of a room are updated together: in every registry state reachable from
an empty registry by any sequence of `RegisterServer`, `ValidateClientJoin`,
`AddPeerToRoom`, `RemovePeerFromRoom` and `CleanupEmptyRooms`, the peer map and the
connection map of each room have the same client IDs and hold no nil value. -/
theorem room.reachable_peers_match (m : room.Manager) (hreach : room.Reachable m) :
    ∀ r rm, m.rooms.lookup r = some rm →
      (∀ c, c ∈ rm.PeerConnections ↔ c ∈ rm.Connections) ∧
      (∀ c, rm.PeerConnections.lookup c ≠ some none) ∧
      (∀ c, rm.Connections.lookup c ≠ some none) := by
  induction hreach with
  | new debug =>
    intro r rm h
    simp [room.NewManager] at h
  | step m op _ ih =>
    intro r rm' h
    rcases room.apply_lookup m op r rm' h with h0 | ⟨-, now, s, rfl⟩ |
        ⟨rm0, now, c, p, cn, h0, rfl⟩ | ⟨rm0, now, c, h0, rfl⟩
    · exact ih r rm' h0
    · exact room.peersMatch_newRoom now r s
    · exact room.peersMatch_add rm0 now c p cn (ih r rm0 h0)
    · exact room.peersMatch_remove rm0 now c (ih r rm0 h0)

/-- C18, at a concrete input: in the registry reached by two registrations and the
seating of "A", room "r1" knows "A" in both maps or in neither. -/
theorem room.reachable_peers_match_witness :
    ("A" ∈ room.occupiedRoom.PeerConnections ↔ "A" ∈ room.occupiedRoom.Connections) ∧
    room.occupiedRoom.PeerConnections.lookup "A" ≠ some none ∧
    room.occupiedRoom.Connections.lookup "A" ≠ some none :=
  ⟨(room.reachable_peers_match room.withPeer room.reachable_withPeer "r1"
      room.occupiedRoom rfl).1 "A",
   (room.reachable_peers_match room.withPeer room.reachable_withPeer "r1"
      room.occupiedRoom rfl).2.1 "A",
   (room.reachable_peers_match room.withPeer room.reachable_withPeer "r1"
      room.occupiedRoom rfl).2.2 "A"⟩

/-! ## The claim on snapshots -/

/-- C19: snapshots are copies. `GetPeersInRoom` and `GetConnectionsInRoom` return an error
for a room that does not exist and otherwise exactly the non-nil entries of the room's
maps; `GetTracksInRoom` returns exactly the room's track entries, an empty map for an
unknown room. On map objects: each of the three returns a new object (the registry's
own maps stay the objects they were, with their contents), and after any sequence of
stores and deletes on the returned map the registry's maps are still as they were and a
later snapshot has the entries the first one had when it was returned. -/
theorem snapshots_are_copies (m : room.Manager) (tm : track.Manager) (roomID : String) :
    (m.rooms.lookup roomID = none →
      m.GetPeersInRoom roomID = .error (GoError.roomDoesNotExist roomID) ∧
      m.GetConnectionsInRoom roomID = .error (GoError.roomDoesNotExist roomID) ∧
      (∀ peersAt σ, m.GetPeersInRoomAt peersAt σ roomID
        = (σ, .error (GoError.roomDoesNotExist roomID))) ∧
      (∀ connsAt σ, m.GetConnectionsInRoomAt connsAt σ roomID
        = (σ, .error (GoError.roomDoesNotExist roomID)))) ∧
    (∀ rm, m.rooms.lookup roomID = some rm →
      ∃ peers conns, m.GetPeersInRoom roomID = .ok peers ∧
        m.GetConnectionsInRoom roomID = .ok conns ∧
        ∀ c, peers.lookup c = keptValue (fun pc => pc.isSome) (rm.PeerConnections.lookup c) ∧
          conns.lookup c = keptValue (fun conn => conn.isSome) (rm.Connections.lookup c)) ∧
    tm.GetTracksInRoom roomID = (tm.roomTracks.lookup roomID).getD ∅ ∧
    (∀ peersAt σ rm, m.PeersAt peersAt σ → m.rooms.lookup roomID = some rm →
      ∃ σ1, m.GetPeersInRoomAt peersAt σ roomID = (σ1, .ok σ.next) ∧
        (∀ c, (σ1.cell σ.next).lookup c
          = keptValue (fun pc => pc.isSome) (rm.PeerConnections.lookup c)) ∧
        ∀ muts : List (Mutation (Option webrtc.PeerConnectionRef)),
          m.PeersAt peersAt (σ1.mutate σ.next muts) ∧
          ∃ σ2, m.GetPeersInRoomAt peersAt (σ1.mutate σ.next muts) roomID
              = (σ2, .ok (σ.next + 1)) ∧
            ∀ c, (σ2.cell (σ.next + 1)).lookup c = (σ1.cell σ.next).lookup c) ∧
    (∀ connsAt σ rm, m.ConnectionsAt connsAt σ → m.rooms.lookup roomID = some rm →
      ∃ σ1, m.GetConnectionsInRoomAt connsAt σ roomID = (σ1, .ok σ.next) ∧
        (∀ c, (σ1.cell σ.next).lookup c
          = keptValue (fun conn => conn.isSome) (rm.Connections.lookup c)) ∧
        ∀ muts : List (Mutation (Option room.JSONWriter)),
          m.ConnectionsAt connsAt (σ1.mutate σ.next muts) ∧
          ∃ σ2, m.GetConnectionsInRoomAt connsAt (σ1.mutate σ.next muts) roomID
              = (σ2, .ok (σ.next + 1)) ∧
            ∀ c, (σ2.cell (σ.next + 1)).lookup c = (σ1.cell σ.next).lookup c) ∧
    (∀ tracksAt σ, tm.TracksAt tracksAt σ →
      ∃ σ1, tm.GetTracksInRoomAt tracksAt σ roomID = (σ1, σ.next) ∧
        (∀ c, (σ1.cell σ.next).lookup c = (tm.GetTracksInRoom roomID).lookup c) ∧
        ∀ muts : List (Mutation (Option webrtc.TrackLocalStaticRTP)),
          tm.TracksAt tracksAt (σ1.mutate σ.next muts) ∧
          ∃ σ2, tm.GetTracksInRoomAt tracksAt (σ1.mutate σ.next muts) roomID
              = (σ2, σ.next + 1) ∧
            ∀ c, (σ2.cell (σ.next + 1)).lookup c = (σ1.cell σ.next).lookup c) := by
  refine ⟨fun hl => ⟨?_, ?_, fun _ _ => ?_, fun _ _ => ?_⟩, fun rm hl => ?_, ?_,
    fun peersAt σ rm hp hl => room.getPeersInRoomAt_copy m peersAt σ roomID rm hp hl,
    fun connsAt σ rm hp hl => room.getConnectionsInRoomAt_copy m connsAt σ roomID rm hp hl,
    fun tracksAt σ hp => track.getTracksInRoomAt_copy tm tracksAt σ roomID hp⟩
  · unfold room.Manager.GetPeersInRoom
    rw [hl]
  · unfold room.Manager.GetConnectionsInRoom
    rw [hl]
  · unfold room.Manager.GetPeersInRoomAt
    rw [hl]
  · unfold room.Manager.GetConnectionsInRoomAt
    rw [hl]
  · refine ⟨GoMap.nonNil rm.PeerConnections, GoMap.nonNil rm.Connections, ?_, ?_, fun c =>
      ⟨nonNil_lookup _ c, nonNil_lookup _ c⟩⟩
    · unfold room.Manager.GetPeersInRoom
      rw [hl]
    · unfold room.Manager.GetConnectionsInRoom
      rw [hl]
  · unfold track.Manager.GetTracksInRoom
    cases tm.roomTracks.lookup roomID <;> rfl

/-- C19, at a concrete input: the peers of room "r" are returned in a new map at address
1; after the caller deleted "A" from it, the next snapshot, at address 2, holds "A"
again. -/
theorem snapshots_are_copies_witness :
    ∃ σ1, room.soloRoom.GetPeersInRoomAt (fun _ => 0) room.peerObjects "r" = (σ1, .ok 1) ∧
      ∃ σ2, room.soloRoom.GetPeersInRoomAt (fun _ => 0)
          (σ1.mutate 1 [Mutation.delete "A"]) "r" = (σ2, .ok 2) ∧
        (σ2.cell 2).lookup "A" = some (some 1) :=
  match (snapshots_are_copies room.soloRoom signaling.demo.trackManager "r").2.2.2.1
      (fun _ => 0) room.peerObjects _ room.peersAt_soloRoom rfl with
  | ⟨σ1, h1, h2, h3⟩ =>
    ⟨σ1, h1, match (h3 [Mutation.delete "A"]).2 with
      | ⟨σ2, g1, g2⟩ => ⟨σ2, g1, (g2 "A").trans ((h2 "A").trans rfl)⟩⟩

/-! ## The claim on the rooms of the track registry -/

/-- C20: room isolation of tracks: for two distinct rooms `roomID` and `roomID'`,
`AddTrackToRoom(roomID, ...)` and `RemoveTrackFromRoom(roomID, ...)` leave
`GetTracksInRoom(roomID')` and `GetTrackInRoom(roomID', id)` unchanged for every id; so a
lookup in `roomID'` returns only what it returned before the track was added to `roomID`,
and a track whose ID was unknown in `roomID'` is not found there afterwards. -/
theorem track.room_isolation (m : track.Manager) (roomID roomID' : String)
    (hne : roomID' ≠ roomID) :
    (∀ (newTrackErr : Option GoError) (t : webrtc.TrackRemote),
      (m.AddTrackToRoom newTrackErr roomID t).1.GetTracksInRoom roomID'
        = m.GetTracksInRoom roomID' ∧
      (∀ trackID, (m.AddTrackToRoom newTrackErr roomID t).1.GetTrackInRoom roomID' trackID
        = m.GetTrackInRoom roomID' trackID) ∧
      (m.GetTrackInRoom roomID' t.id = (none, false) →
        (m.AddTrackToRoom newTrackErr roomID t).1.GetTrackInRoom roomID' t.id
          = (none, false))) ∧
    (∀ t : Option webrtc.TrackLocalStaticRTP,
      (m.RemoveTrackFromRoom roomID t).GetTracksInRoom roomID' = m.GetTracksInRoom roomID' ∧
      (∀ trackID, (m.RemoveTrackFromRoom roomID t).GetTrackInRoom roomID' trackID
        = m.GetTrackInRoom roomID' trackID)) := by
  refine ⟨fun e t => ?_, fun t => ?_⟩
  · have h := track.addTrackToRoom_lookup_ne m e roomID roomID' t hne
    have h2 : ∀ trackID, (m.AddTrackToRoom e roomID t).1.GetTrackInRoom roomID' trackID
        = m.GetTrackInRoom roomID' trackID := by
      intro trackID
      unfold track.Manager.GetTrackInRoom
      rw [h]
    refine ⟨?_, h2, fun h3 => by rw [h2, h3]⟩
    unfold track.Manager.GetTracksInRoom
    rw [h]
  · have h := track.removeTrackFromRoom_lookup_ne m roomID roomID' t hne
    refine ⟨?_, ?_⟩
    · unfold track.Manager.GetTracksInRoom
      rw [h]
    · intro trackID
      unfold track.Manager.GetTrackInRoom
      rw [h]

/-- C20, at a concrete input: the track "z" added to room "r2" is not found in "r1". -/
theorem track.room_isolation_witness :
    (signaling.demo.trackManager.AddTrackToRoom none "r2" ⟨"z", "s", "opus"⟩).1.GetTrackInRoom
        "r1" "z" = (none, false) :=
  ((track.room_isolation signaling.demo.trackManager "r2" "r1" (by decide)).1 none
    ⟨"z", "s", "opus"⟩).2.2 (by decide)

/-! ## Lemmas on the buckets of the track registry -/

namespace track

/-- Removing a track a second time changes nothing. -/
theorem removeTrackFromRoom_twice (m : Manager) (roomID : String)
    (t : Option TrackLocalStaticRTP) :
    (m.RemoveTrackFromRoom roomID t).RemoveTrackFromRoom roomID t
      = m.RemoveTrackFromRoom roomID t := by
  cases hl : m.roomTracks.lookup roomID with
  | none =>
    have h1 : m.RemoveTrackFromRoom roomID t = m := by
      unfold Manager.RemoveTrackFromRoom; rw [hl]
    rw [h1, h1]
  | some rt =>
    cases t with
    | none =>
      have h1 : m.RemoveTrackFromRoom roomID none = m := by
        unfold Manager.RemoveTrackFromRoom; rw [hl]
      rw [h1, h1]
    | some t =>
      cases ht : rt.lookup t.id with
      | none =>
        have h1 : m.RemoveTrackFromRoom roomID (some t) = m := by
          unfold Manager.RemoveTrackFromRoom; rw [hl]; dsimp only; rw [ht]
        rw [h1, h1]
      | some v =>
        cases v with
        | none =>
          have h1 : m.RemoveTrackFromRoom roomID (some t) = m := by
            unfold Manager.RemoveTrackFromRoom; rw [hl]; dsimp only; rw [ht]
          rw [h1, h1]
        | some x =>
          by_cases hlen : (rt.erase t.id).entries.length = 0
          · have h1 : m.RemoveTrackFromRoom roomID (some t)
                = { m with roomTracks := m.roomTracks.erase roomID } := by
              unfold Manager.RemoveTrackFromRoom; rw [hl]; dsimp only; rw [ht]; dsimp only
              rw [if_pos hlen]
            rw [h1]
            unfold Manager.RemoveTrackFromRoom
            dsimp only
            rw [AList.lookup_erase]
          · have h1 : m.RemoveTrackFromRoom roomID (some t)
                = { m with roomTracks := m.roomTracks.insert roomID (rt.erase t.id) } := by
              unfold Manager.RemoveTrackFromRoom; rw [hl]; dsimp only; rw [ht]; dsimp only
              rw [if_neg hlen]
            rw [h1]
            unfold Manager.RemoveTrackFromRoom
            dsimp only
            rw [AList.lookup_insert]
            dsimp only
            rw [AList.lookup_erase]

/-- Storing under a key the map already has keeps the number of entries. -/
theorem length_insert_of_mem {V : Type} (m : GoMap V) (k : String) (v : V) (h : k ∈ m) :
    (m.insert k v).entries.length = m.entries.length := by
  rw [AList.insert_entries]
  have hk : k ∈ m.entries.keys := h
  have h1 : (List.kerase k m.entries).length = (List.kerase k m.entries).keys.length := by
    simp [List.keys]
  have h2 : m.entries.keys.length = m.entries.length := by simp [List.keys]
  have hpos : 0 < m.entries.keys.length := List.length_pos_of_mem hk
  rw [List.length_cons, h1, List.keys_kerase, List.length_erase_of_mem hk, ← h2]
  omega

end track

/-! ## Lemmas on the index of the room registry -/

namespace room

theorem indexConsistent_of_eq (m m' : Manager)
    (hrooms : ∀ r, (m'.rooms.lookup r).map (fun rm => rm.ServerID)
      = (m.rooms.lookup r).map (fun rm => rm.ServerID))
    (hindex : m'.serverToRooms = m.serverToRooms) (h : m.IndexConsistent) :
    m'.IndexConsistent := by
  intro s r
  have := h s r
  unfold Manager.roomsOf at this ⊢
  rw [hindex, hrooms r]
  exact this

theorem indexConsistent_createRoom (m : Manager) (now : Time) (roomID serverID : String)
    (hnew : m.rooms.lookup roomID = none) (h : m.IndexConsistent) :
    (m.createRoom now roomID serverID).IndexConsistent := by
  intro s r
  have hsr := h s r
  by_cases hs : s = serverID
  · subst hs
    rw [roomsOf_createRoom_self, List.count_append]
    by_cases hr : r = roomID
    · subst hr
      rw [lookup_createRoom_self]
      rw [hnew] at hsr
      simp only [Option.map_none', reduceCtorEq, if_false] at hsr
      rw [hsr]
      simp [newRoom]
    · rw [lookup_createRoom_ne _ _ _ _ _ hr, hsr]
      have : List.count r [roomID] = 0 := by
        rw [List.count_eq_zero]
        simpa using hr
      rw [this]
      rfl
  · rw [roomsOf_createRoom_ne _ _ _ _ _ hs]
    by_cases hr : r = roomID
    · subst hr
      rw [lookup_createRoom_self]
      rw [hnew] at hsr
      simp only [Option.map_none', reduceCtorEq, if_false] at hsr
      rw [hsr]
      have : ¬ (some serverID = some s) := by
        intro h'
        exact hs (Option.some.inj h').symm
      simp [newRoom, this]
    · rw [lookup_createRoom_ne _ _ _ _ _ hr, hsr]

theorem noEmptyEntry_createRoom (m : Manager) (now : Time) (roomID serverID : String)
    (h : m.NoEmptyEntry) : (m.createRoom now roomID serverID).NoEmptyEntry := by
  intro s l hl
  unfold Manager.createRoom at hl
  dsimp only at hl
  by_cases hs : s = serverID
  · subst hs
    rw [AList.lookup_insert] at hl
    cases hl
    simp
  · rw [AList.lookup_insert_ne hs] at hl
    exact h s l hl

theorem indexConsistent_CleanupEmptyRooms (m : Manager) (now : Time) (maxIdleTime : Int)
    (h : m.IndexConsistent) : (m.CleanupEmptyRooms now maxIdleTime).IndexConsistent := by
  intro s r
  have hsr := h s r
  rw [roomsOf_CleanupEmptyRooms, lookup_CleanupEmptyRooms]
  cases hl : m.rooms.lookup r with
  | none =>
    rw [hl] at hsr
    simp only [Option.map_none', reduceCtorEq, if_false] at hsr ⊢
    rw [List.count_eq_zero] at hsr ⊢
    intro hmem
    exact hsr (List.mem_of_mem_filter hmem)
  | some rm =>
    rw [hl] at hsr
    dsimp only
    by_cases hidle : rm.isEmptyAndIdle now maxIdleTime = true
    · rw [if_pos hidle]
      simp only [Option.map_none', reduceCtorEq, if_false]
      rw [List.count_eq_zero]
      intro hmem
      rw [List.mem_filter] at hmem
      obtain ⟨hmem, hkeep⟩ := hmem
      have hcnt : 0 < List.count r (m.roomsOf s) := List.count_pos_iff.2 hmem
      by_cases hown : Option.map (fun rm => rm.ServerID) (some rm) = some s
      · have hs : rm.ServerID = s := by simpa using hown
        have : m.sweptOf now maxIdleTime s r = true := by
          simp [Manager.sweptOf, hl, hs, hidle]
        rw [this] at hkeep
        cases hkeep
      · rw [if_neg hown] at hsr
        omega
    · rw [if_neg hidle]
      have hsw : m.sweptOf now maxIdleTime s r = false := by
        have hidle' : rm.isEmptyAndIdle now maxIdleTime = false := by
          simpa using hidle
        simp [Manager.sweptOf, hl, hidle']
      rw [← hsr]
      induction m.roomsOf s with
      | nil => rfl
      | cons a l ih =>
        by_cases ha : a = r
        · subst ha
          rw [List.filter_cons_of_pos (by simp [hsw]), List.count_cons_self,
            List.count_cons_self, ih]
        · by_cases hk : (!m.sweptOf now maxIdleTime s a) = true
          · have e1 : List.filter (fun r => !m.sweptOf now maxIdleTime s r) (a :: l)
                = a :: List.filter (fun r => !m.sweptOf now maxIdleTime s r) l :=
              List.filter_cons_of_pos hk
            rw [e1, List.count_cons_of_ne (Ne.symm ha), List.count_cons_of_ne (Ne.symm ha), ih]
          · have e1 : List.filter (fun r => !m.sweptOf now maxIdleTime s r) (a :: l)
                = List.filter (fun r => !m.sweptOf now maxIdleTime s r) l :=
              List.filter_cons_of_neg hk
            rw [e1, List.count_cons_of_ne (Ne.symm ha), ih]

theorem noEmptyEntry_deleteRoom (m : Manager) (x : String) (h : m.NoEmptyEntry) :
    (m.deleteRoom x).NoEmptyEntry := by
  intro s l hl
  rw [deleteRoom_index] at hl
  split at hl
  · cases hi : m.serverToRooms.lookup s with
    | none => rw [hi] at hl; cases hl
    | some l0 =>
      rw [hi, Option.some_bind] at hl
      unfold keepNonEmpty at hl
      split at hl
      · cases hl
      · rename_i hne
        cases hl
        intro h0
        exact hne (by rw [h0]; rfl)
  · exact h s l hl

theorem noEmptyEntry_CleanupEmptyRooms (m : Manager) (now : Time) (maxIdleTime : Int)
    (h : m.NoEmptyEntry) : (m.CleanupEmptyRooms now maxIdleTime).NoEmptyEntry := by
  unfold Manager.CleanupEmptyRooms
  generalize m.roomsToDelete now maxIdleTime = L
  induction L generalizing m with
  | nil => exact h
  | cons x rest ih => exact ih _ (noEmptyEntry_deleteRoom m x h)

/-- Every operation keeps the index in agreement with the rooms. -/
theorem wellIndexed_apply (m : Manager) (op : Op)
    (h : m.IndexConsistent ∧ m.NoEmptyEntry) :
    (m.apply op).IndexConsistent ∧ (m.apply op).NoEmptyEntry := by
  obtain ⟨h1, h2⟩ := h
  cases op with
  | RegisterServer now serverID serverPassword roomID =>
    show (m.RegisterServer now serverID serverPassword roomID).1.IndexConsistent ∧
      (m.RegisterServer now serverID serverPassword roomID).1.NoEmptyEntry
    unfold Manager.RegisterServer
    cases hc : m.checkServer serverID serverPassword with
    | error e => exact ⟨h1, h2⟩
    | ok m1 =>
      obtain ⟨hr, hi, -⟩ := checkServer_rooms m m1 serverID serverPassword hc
      have g1 : m1.IndexConsistent :=
        indexConsistent_of_eq m m1 (fun r => by rw [hr]) hi h1
      have g2 : m1.NoEmptyEntry := by
        intro s l hl
        rw [hi] at hl
        exact h2 s l hl
      dsimp only
      cases hl : m1.rooms.lookup roomID with
      | none => exact ⟨indexConsistent_createRoom m1 now roomID serverID hl g1,
          noEmptyEntry_createRoom m1 now roomID serverID g2⟩
      | some rm =>
        dsimp only
        split
        · exact ⟨g1, g2⟩
        · exact ⟨g1, g2⟩
  | ValidateClientJoin now roomID serverID serverPassword =>
    show (m.ValidateClientJoin now roomID serverID serverPassword).1.IndexConsistent ∧
      (m.ValidateClientJoin now roomID serverID serverPassword).1.NoEmptyEntry
    unfold Manager.ValidateClientJoin
    cases m.registeredServers.lookup serverID with
    | none => exact ⟨h1, h2⟩
    | some q =>
      dsimp only
      split
      · exact ⟨h1, h2⟩
      · cases hl : m.rooms.lookup roomID with
        | none => exact ⟨indexConsistent_createRoom m now roomID serverID hl h1,
            noEmptyEntry_createRoom m now roomID serverID h2⟩
        | some rm =>
          dsimp only
          split
          · exact ⟨h1, h2⟩
          · exact ⟨h1, h2⟩
  | AddPeerToRoom now roomID clientID pc conn =>
    show (m.AddPeerToRoom now roomID clientID pc conn).1.IndexConsistent ∧
      (m.AddPeerToRoom now roomID clientID pc conn).1.NoEmptyEntry
    unfold Manager.AddPeerToRoom
    cases hl : m.rooms.lookup roomID with
    | none => exact ⟨h1, h2⟩
    | some rm =>
      cases pc with
      | none => exact ⟨h1, h2⟩
      | some p =>
        cases conn with
        | none => exact ⟨h1, h2⟩
        | some cn =>
          refine ⟨indexConsistent_of_eq m _ ?_ rfl h1, h2⟩
          intro r
          dsimp only
          by_cases hr : r = roomID
          · subst hr
            rw [AList.lookup_insert, hl]
            rfl
          · rw [AList.lookup_insert_ne hr]
  | RemovePeerFromRoom now roomID clientID =>
    show (m.RemovePeerFromRoom now roomID clientID).1.IndexConsistent ∧
      (m.RemovePeerFromRoom now roomID clientID).1.NoEmptyEntry
    unfold Manager.RemovePeerFromRoom
    cases hl : m.rooms.lookup roomID with
    | none => exact ⟨h1, h2⟩
    | some rm =>
      refine ⟨indexConsistent_of_eq m _ ?_ rfl h1, h2⟩
      intro r
      dsimp only
      by_cases hr : r = roomID
      · subst hr
        rw [AList.lookup_insert, hl]
        rfl
      · rw [AList.lookup_insert_ne hr]
  | CleanupEmptyRooms now maxIdleTime =>
    exact ⟨indexConsistent_CleanupEmptyRooms m now maxIdleTime h1,
      noEmptyEntry_CleanupEmptyRooms m now maxIdleTime h2⟩

end room

/-! ## Lemmas on the RTP forwarder -/

namespace websocket

/-- What a read of `packet` leaves in a buffer that can hold it. -/
theorem buffer_after_read (buf packet : List Byte) (h : packet.length ≤ buf.length) :
    ((packet ++ buf.drop packet.length).take buf.length).length = buf.length ∧
    ((packet ++ buf.drop packet.length).take buf.length).take packet.length = packet := by
  constructor
  · rw [List.length_take, List.length_append, List.length_drop]
    omega
  · rw [List.take_take, Nat.min_eq_left h, List.take_left']
    rfl

/-- The loop on packets whose writes succeed, followed by whatever comes next. -/
theorem forwardLoop_packets (writeErr : Nat → List Byte → Option GoError)
    (packets : List (List Byte)) (tail : List (Except GoError (List Byte))) :
    ∀ (buf : List Byte) (writes : List (List Byte)),
      (∀ p ∈ packets, p.length ≤ buf.length) →
      (∀ i p, packets.get? i = some p → writeErr (writes.length + i) p = none) →
      ∃ buf1, buf1.length = buf.length ∧
        forwardLoop writeErr (packets.map .ok ++ tail) buf writes
          = forwardLoop writeErr tail buf1 (writes ++ packets) := by
  induction packets with
  | nil =>
    intro buf writes _ _
    exact ⟨buf, rfl, by simp⟩
  | cons p rest ih =>
    intro buf writes hlen hw
    obtain ⟨b1, b2⟩ := buffer_after_read buf p (hlen p (List.mem_cons_self _ _))
    have hw0 : writeErr writes.length p = none := by
      have := hw 0 p rfl
      simpa using this
    obtain ⟨buf1, g1, g2⟩ := ih ((p ++ buf.drop p.length).take buf.length) (writes ++ [p])
      (fun q hq => by rw [b1]; exact hlen q (List.mem_cons_of_mem _ hq))
      (fun i q hq => by
        have := hw (i + 1) q (by simpa using hq)
        rw [List.length_append, List.length_singleton]
        rw [← this]
        congr 1
        omega)
    refine ⟨buf1, by rw [g1, b1], ?_⟩
    rw [List.map_cons, List.cons_append, forwardLoop]
    rw [b2, hw0]
    dsimp only
    rw [g2, List.append_assoc, List.singleton_append]

end websocket

/-! ## Lemmas on offers, on the loop over the peers and on the retry loop -/

namespace signaling

/-- Without a failing `RemoveTrack`, the loop over the senders removes nothing exactly
when it leaves every sender alone. -/
theorem removeObsolete_removed (lib : Library) (tracks : GoMap (Option TrackLocalStaticRTP))
    (pc : PeerConnection) (todo : List (Option RTPSender)) :
    ∀ (done : List (Option RTPSender)) (removed : List Nat),
      (removeObsolete lib tracks pc done todo removed).2.2 = none →
      ((removeObsolete lib tracks pc done todo removed).2.1 = [] ↔
        removed = [] ∧ ∀ s ∈ todo, Kept tracks s) := by
  induction todo with
  | nil => intro done removed _; simp [removeObsolete]
  | cons x xs ih =>
    intro done removed
    match x with
    | none =>
      rw [removeObsolete]
      intro h
      rw [ih _ _ h]
      simp [Kept]
    | some ⟨none⟩ =>
      rw [removeObsolete]
      intro h
      rw [ih _ _ h]
      simp [Kept]
    | some ⟨some t⟩ =>
      rw [removeObsolete]
      split
      · rename_i hin
        intro h
        rw [ih _ _ h]
        simp [Kept, hin]
      · rename_i hin
        split
        · intro h; cases h
        · intro h
          rw [ih _ _ h]
          simp [Kept, hin]

/-- The connection after the loop over the room tracks differs only in its senders. -/
theorem addMissing_fields (lib : Library) (existingSenders : List String)
    (entries : List (Sigma fun _ : String => Option TrackLocalStaticRTP))
    (pc : PeerConnection) (added : List TrackLocalStaticRTP) :
    (addMissing lib existingSenders entries pc added).1.connectionState = pc.connectionState ∧
    (addMissing lib existingSenders entries pc added).1.signalingState = pc.signalingState ∧
    (addMissing lib existingSenders entries pc added).1.localDescription
      = pc.localDescription := by
  obtain ⟨new, -, h2, -, -⟩ := addMissing_spec lib existingSenders entries pc added
  rw [h2]
  exact ⟨rfl, rfl, rfl⟩

/-- What the end of `processPeerConnection` does when none of its calls fails. -/
theorem sendOffer_ok (lib : Library) (clientID : String) (pc : PeerConnection)
    (conn : room.JSONWriter) (removed : List Nat) (added : List TrackLocalStaticRTP)
    (h : (sendOffer lib clientID pc (some conn) removed added).err = none) :
    ∃ offer data, lib.createOffer pc = .ok offer ∧ lib.jsonMarshal offer = .ok data ∧
      (sendOffer lib clientID pc (some conn) removed added).offers = [offer] ∧
      (sendOffer lib clientID pc (some conn) removed added).pc
        = pc.SetLocalDescription offer ∧
      (sendOffer lib clientID pc (some conn) removed added).written
        = [(conn, { Event := types.EventOffer, Data := data })] := by
  unfold sendOffer at h ⊢
  cases hco : lib.createOffer pc with
  | error e => rw [hco] at h; cases h
  | ok offer =>
    rw [hco] at h
    dsimp only at h ⊢
    cases hsl : lib.setLocalDescriptionErr pc offer with
    | some e => rw [hsl] at h; cases h
    | none =>
      rw [hsl] at h
      dsimp only at h ⊢
      cases hjm : lib.jsonMarshal offer with
      | error e => rw [hjm] at h; cases h
      | ok data => exact ⟨offer, data, rfl, hjm, rfl, rfl, rfl⟩

/-- A library none of whose calls fails lets the end of `processPeerConnection` succeed. -/
theorem sendOffer_no_failure (lib : Library) (clientID : String) (pc : PeerConnection)
    (conn : room.JSONWriter) (removed : List Nat) (added : List TrackLocalStaticRTP)
    (hoffer : ∀ p, ∃ offer, lib.createOffer p = .ok offer)
    (hset : ∀ p offer, lib.setLocalDescriptionErr p offer = none)
    (hjson : ∀ offer, ∃ data, lib.jsonMarshal offer = .ok data)
    (hwrite : ∀ w msg, lib.writeJSONErr w msg = none) :
    (sendOffer lib clientID pc (some conn) removed added).err = none := by
  obtain ⟨offer, ho⟩ := hoffer pc
  obtain ⟨data, hd⟩ := hjson offer
  unfold sendOffer
  rw [ho]
  dsimp only
  rw [hset]
  dsimp only
  rw [hd]
  exact hwrite _ _

theorem removeObsolete_no_failure (lib : Library) (tracks : GoMap (Option TrackLocalStaticRTP))
    (pc : PeerConnection) (hremove : ∀ p i, lib.removeTrackErr p i = none)
    (todo : List (Option RTPSender)) :
    ∀ (done : List (Option RTPSender)) (removed : List Nat),
      (removeObsolete lib tracks pc done todo removed).2.2 = none := by
  induction todo with
  | nil => intro done removed; rfl
  | cons x xs ih =>
    intro done removed
    match x with
    | none => rw [removeObsolete]; exact ih _ _
    | some ⟨none⟩ => rw [removeObsolete]; exact ih _ _
    | some ⟨some t⟩ =>
      rw [removeObsolete]
      split
      · exact ih _ _
      · rw [hremove]
        exact ih _ _

theorem addMissing_no_failure (lib : Library) (existingSenders : List String)
    (hadd : ∀ p t, lib.addTrackErr p t = none)
    (entries : List (Sigma fun _ : String => Option TrackLocalStaticRTP)) :
    ∀ (pc : PeerConnection) (added : List TrackLocalStaticRTP),
      (addMissing lib existingSenders entries pc added).2.2 = none := by
  induction entries with
  | nil => intro pc added; rfl
  | cons e rest ih =>
    intro pc added
    match e with
    | ⟨k, none⟩ => rw [addMissing]; exact ih _ _
    | ⟨k, some t⟩ =>
      rw [addMissing]
      split
      · exact ih _ _
      · rw [hadd]
        exact ih _ _

theorem processPeerConnection_connectionState (c : Coordinator) (lib : Library)
    (clientID : String) (pc : PeerConnection) (wsConn : Option room.JSONWriter)
    (tracks : GoMap (Option TrackLocalStaticRTP)) (roomID : String) :
    (c.processPeerConnection lib clientID pc wsConn tracks roomID).pc.connectionState
      = pc.connectionState := by
  unfold Coordinator.processPeerConnection
  split
  · rfl
  · rcases removeObsolete lib tracks pc [] pc.senders [] with ⟨senders, removed, e⟩
    cases e with
    | some e => rfl
    | none =>
      dsimp only
      obtain ⟨new, -, h2, -, -⟩ := addMissing_spec lib
        (senderTrackIDs pc.senders ++ receiverTrackIDs pc.receivers) tracks.entries
        { pc with senders := senders } []
      rcases ham : addMissing lib (senderTrackIDs pc.senders ++ receiverTrackIDs pc.receivers)
        tracks.entries { pc with senders := senders } [] with ⟨pc2, added, e2⟩
      rw [ham] at h2
      dsimp only at h2
      have hcs : pc2.connectionState = pc.connectionState := by rw [h2]
      cases e2 with
      | some e2 => exact hcs
      | none =>
        dsimp only
        split
        · exact hcs
        · rw [(sendOffer_fields lib clientID pc2 wsConn removed added).2.2.1]
          exact hcs

theorem syncPeers_append (c : Coordinator) (lib : Library) (roomID : String)
    (connectionMap : GoMap (Option room.JSONWriter))
    (tracks : GoMap (Option TrackLocalStaticRTP))
    (l1 l2 : List (Sigma fun _ : String => Option PeerConnectionRef)) :
    ∀ a : Attempt, c.syncPeers lib roomID connectionMap tracks (l1 ++ l2) a
      = c.syncPeers lib roomID connectionMap tracks l2
          (c.syncPeers lib roomID connectionMap tracks l1 a) := by
  induction l1 with
  | nil => intro a; rw [List.nil_append, Coordinator.syncPeers]
  | cons e rest ih =>
    intro a
    match e with
    | ⟨cid, none⟩ =>
      rw [List.cons_append, Coordinator.syncPeers, Coordinator.syncPeers, ih]
    | ⟨cid, some ref⟩ =>
      rw [List.cons_append, Coordinator.syncPeers, Coordinator.syncPeers]
      split
      · exact ih _
      · split
        · dsimp only
          split
          · exact ih _
          · exact ih _
        · exact ih _

/-- One round of the loop of `attemptSync`, by the case the peer falls in. -/
theorem syncPeers_one (c : Coordinator) (lib : Library) (roomID : String)
    (connectionMap : GoMap (Option room.JSONWriter))
    (tracks : GoMap (Option TrackLocalStaticRTP)) (a : Attempt) (clientID : String) :
    c.syncPeers lib roomID connectionMap tracks [⟨clientID, none⟩] a
      = { a with syncErrors := a.syncErrors + 1 } ∧
    (∀ ref, closedOrFailed (a.world.heap ref) = true →
      c.syncPeers lib roomID connectionMap tracks [⟨clientID, some ref⟩] a = a) ∧
    (∀ ref, closedOrFailed (a.world.heap ref) = false →
      (∀ wsConn, connectionMap.lookup clientID ≠ some (some wsConn)) →
      c.syncPeers lib roomID connectionMap tracks [⟨clientID, some ref⟩] a
        = { a with syncErrors := a.syncErrors + 1 }) ∧
    (∀ ref wsConn, closedOrFailed (a.world.heap ref) = false →
      connectionMap.lookup clientID = some (some wsConn) →
      c.syncPeers lib roomID connectionMap tracks [⟨clientID, some ref⟩] a
        = { world :=
              { heap := Function.update a.world.heap ref
                  (c.processPeerConnection lib clientID (a.world.heap ref) (some wsConn) tracks
                    roomID).pc
                written := a.world.written ++
                  (c.processPeerConnection lib clientID (a.world.heap ref) (some wsConn) tracks
                    roomID).written }
            syncSuccess :=
              if (c.processPeerConnection lib clientID (a.world.heap ref) (some wsConn) tracks
                  roomID).err = none then a.syncSuccess + 1 else a.syncSuccess
            syncErrors :=
              if (c.processPeerConnection lib clientID (a.world.heap ref) (some wsConn) tracks
                  roomID).err = none then a.syncErrors else a.syncErrors + 1
            processed := a.processed ++ [clientID] }) := by
  refine ⟨?_, ?_, ?_, ?_⟩
  · rw [Coordinator.syncPeers, Coordinator.syncPeers]
  · intro ref h
    have h' : (a.world.heap ref).connectionState = .Closed ∨
        (a.world.heap ref).connectionState = .Failed := by
      simpa [closedOrFailed] using h
    rw [Coordinator.syncPeers, if_pos h', Coordinator.syncPeers]
  · intro ref h hno
    have h' : ¬ ((a.world.heap ref).connectionState = .Closed ∨
        (a.world.heap ref).connectionState = .Failed) := by
      simpa [closedOrFailed] using h
    rw [Coordinator.syncPeers, if_neg h']
    split
    · rename_i ws heq
      exact absurd heq (hno ws)
    · rw [Coordinator.syncPeers]
  · intro ref wsConn h hws
    have h' : ¬ ((a.world.heap ref).connectionState = .Closed ∨
        (a.world.heap ref).connectionState = .Failed) := by
      simpa [closedOrFailed] using h
    rw [Coordinator.syncPeers, if_neg h', hws]
    dsimp only
    by_cases herr : (c.processPeerConnection lib clientID (a.world.heap ref) (some wsConn)
        tracks roomID).err = none
    · rw [if_neg (by simp [herr]), Coordinator.syncPeers, if_pos herr, if_pos herr]
    · rw [if_pos herr, Coordinator.syncPeers, if_neg herr, if_neg herr]

theorem syncPeers_cons (c : Coordinator) (lib : Library) (roomID : String)
    (connectionMap : GoMap (Option room.JSONWriter))
    (tracks : GoMap (Option TrackLocalStaticRTP))
    (e : Sigma fun _ : String => Option PeerConnectionRef)
    (rest : List (Sigma fun _ : String => Option PeerConnectionRef)) (a : Attempt) :
    c.syncPeers lib roomID connectionMap tracks (e :: rest) a
      = c.syncPeers lib roomID connectionMap tracks rest
          (c.syncPeers lib roomID connectionMap tracks [e] a) :=
  syncPeers_append c lib roomID connectionMap tracks [e] rest a

/-- What one round does to the counters, the trace and the connection states. -/
theorem syncPeers_one_summary (c : Coordinator) (lib : Library) (roomID : String)
    (connectionMap : GoMap (Option room.JSONWriter))
    (tracks : GoMap (Option TrackLocalStaticRTP)) (a : Attempt)
    (e : Sigma fun _ : String => Option PeerConnectionRef) :
    (∀ ref, ((c.syncPeers lib roomID connectionMap tracks [e] a).world.heap ref).connectionState
      = (a.world.heap ref).connectionState) ∧
    (c.syncPeers lib roomID connectionMap tracks [e] a).processed
      = a.processed ++ (if Reconciled connectionMap a.world.heap e = true then [e.1] else []) ∧
    (c.syncPeers lib roomID connectionMap tracks [e] a).syncSuccess
      + (c.syncPeers lib roomID connectionMap tracks [e] a).syncErrors
      + (if Passed a.world.heap e = true then 1 else 0)
      = a.syncSuccess + a.syncErrors + 1 := by
  obtain ⟨clientID, v⟩ := e
  obtain ⟨s1, s2, s3, s4⟩ := syncPeers_one c lib roomID connectionMap tracks a clientID
  cases v with
  | none =>
    rw [s1]
    refine ⟨fun _ => rfl, by simp [Reconciled], ?_⟩
    simp only [Passed]
    simp
    omega
  | some ref =>
    cases hcf : closedOrFailed (a.world.heap ref) with
    | true =>
      rw [s2 ref hcf]
      refine ⟨fun _ => rfl, by simp [Reconciled, hcf], ?_⟩
      simp [Passed, hcf]
    | false =>
      by_cases hws : ∃ wsConn, connectionMap.lookup clientID = some (some wsConn)
      · obtain ⟨wsConn, hws⟩ := hws
        rw [s4 ref wsConn hcf hws]
        refine ⟨?_, by simp [Reconciled, hcf, hws], ?_⟩
        · intro ref'
          dsimp only
          by_cases hr : ref' = ref
          · subst hr
            rw [Function.update_same]
            exact processPeerConnection_connectionState _ _ _ _ _ _ _
          · rw [Function.update_noteq hr]
        · dsimp only
          simp only [Passed, hcf]
          split <;> simp <;> omega
      · have hno : ∀ wsConn, connectionMap.lookup clientID ≠ some (some wsConn) :=
          fun ws h => hws ⟨ws, h⟩
        rw [s3 ref hcf hno]
        refine ⟨fun _ => rfl, ?_, ?_⟩
        · have : (match connectionMap.lookup clientID with
              | some (some _) => true
              | _ => false) = false := by
            split
            · rename_i ws heq
              exact absurd heq (hno ws)
            · rfl
          simp [Reconciled, hcf, this]
        · simp only [Passed, hcf]
          simp
          omega

theorem reconciled_congr (connectionMap : GoMap (Option room.JSONWriter))
    (heap heap' : webrtc.Heap)
    (h : ∀ ref, (heap' ref).connectionState = (heap ref).connectionState)
    (e : Sigma fun _ : String => Option PeerConnectionRef) :
    Reconciled connectionMap heap' e = Reconciled connectionMap heap e ∧
    Passed heap' e = Passed heap e := by
  obtain ⟨k, v⟩ := e
  cases v with
  | none => exact ⟨rfl, rfl⟩
  | some ref =>
    simp only [Reconciled, Passed, closedOrFailed, h ref]
    exact ⟨trivial, trivial⟩

/-- The loop of `attemptSync` as a whole: connection states, trace and counters. -/
theorem syncPeers_summary (c : Coordinator) (lib : Library) (roomID : String)
    (connectionMap : GoMap (Option room.JSONWriter))
    (tracks : GoMap (Option TrackLocalStaticRTP))
    (entries : List (Sigma fun _ : String => Option PeerConnectionRef)) :
    ∀ a : Attempt,
      (∀ ref, ((c.syncPeers lib roomID connectionMap tracks entries a).world.heap
          ref).connectionState = (a.world.heap ref).connectionState) ∧
      (c.syncPeers lib roomID connectionMap tracks entries a).processed
        = a.processed ++ (entries.filter (Reconciled connectionMap a.world.heap)).map
            (fun e => e.1) ∧
      (c.syncPeers lib roomID connectionMap tracks entries a).syncSuccess
        + (c.syncPeers lib roomID connectionMap tracks entries a).syncErrors
        + (entries.filter (Passed a.world.heap)).length
        = a.syncSuccess + a.syncErrors + entries.length := by
  induction entries with
  | nil =>
    intro a
    rw [Coordinator.syncPeers]
    exact ⟨fun _ => rfl, by simp, by simp⟩
  | cons e rest ih =>
    intro a
    rw [syncPeers_cons]
    obtain ⟨o1, o2, o3⟩ := syncPeers_one_summary c lib roomID connectionMap tracks a e
    obtain ⟨i1, i2, i3⟩ := ih (c.syncPeers lib roomID connectionMap tracks [e] a)
    have hR : rest.filter (Reconciled connectionMap
          (c.syncPeers lib roomID connectionMap tracks [e] a).world.heap)
        = rest.filter (Reconciled connectionMap a.world.heap) :=
      List.filter_congr (fun x _ => (reconciled_congr connectionMap _ _ o1 x).1)
    have hP : rest.filter (Passed (c.syncPeers lib roomID connectionMap tracks [e] a).world.heap)
        = rest.filter (Passed a.world.heap) :=
      List.filter_congr (fun x _ => (reconciled_congr connectionMap _ _ o1 x).2)
    rw [hR] at i2
    rw [hP] at i3
    refine ⟨fun ref => by rw [i1 ref, o1 ref], ?_, ?_⟩
    · rw [i2, o2, List.append_assoc]
      congr 1
      by_cases hr : Reconciled connectionMap a.world.heap e = true
      · rw [if_pos hr, List.filter_cons_of_pos hr]
        rfl
      · rw [if_neg hr, List.filter_cons_of_neg hr]
        rfl
    · by_cases hp : Passed a.world.heap e = true
      · rw [if_pos hp] at o3
        rw [List.filter_cons_of_pos hp, List.length_cons, List.length_cons]
        omega
      · rw [if_neg hp] at o3
        rw [List.filter_cons_of_neg hp, List.length_cons]
        omega

/-- The retry loop over the schedule of `SignalPeerConnectionsInRoom`, unrolled. -/
theorem retryLoop_backoffs (f : World → Attempt) (w : World) :
    ((f w).syncErrors = 0 ∧
      retryLoop f backoffs w [] = ((f w).world, [(f w).event])) ∨
    ((f w).syncErrors > 0 ∧ (f (f w).world).syncErrors = 0 ∧
      retryLoop f backoffs w []
        = ((f (f w).world).world,
            [(f w).event, Event.sleep (100 * Millisecond), (f (f w).world).event])) ∨
    ((f w).syncErrors > 0 ∧ (f (f w).world).syncErrors > 0 ∧
      retryLoop f backoffs w []
        = ((f (f (f w).world).world).world,
            [(f w).event, Event.sleep (100 * Millisecond), (f (f w).world).event,
              Event.sleep (300 * Millisecond), (f (f (f w).world).world).event])) := by
  unfold backoffs
  by_cases h1 : (f w).syncErrors > 0
  · have t1 : (f w).tryAgain = true := by simp [Attempt.tryAgain, h1]
    by_cases h2 : (f (f w).world).syncErrors > 0
    · have t2 : (f (f w).world).tryAgain = true := by simp [Attempt.tryAgain, h2]
      refine Or.inr (Or.inr ⟨h1, h2, ?_⟩)
      rw [retryLoop]
      simp only [t1, not_true_eq_false, if_false, List.isEmpty_cons, Bool.false_eq_true]
      rw [retryLoop]
      simp only [t2, not_true_eq_false, if_false, List.isEmpty_cons, Bool.false_eq_true]
      rw [retryLoop]
      by_cases h3 : (f (f (f w).world).world).tryAgain = true
      · simp [h3, Attempt.event]
      · simp [h3, Attempt.event]
    · have t2 : ¬ (f (f w).world).tryAgain = true := by simp [Attempt.tryAgain, h2]
      refine Or.inr (Or.inl ⟨h1, by omega, ?_⟩)
      rw [retryLoop]
      simp only [t1, not_true_eq_false, if_false, List.isEmpty_cons, Bool.false_eq_true]
      rw [retryLoop]
      simp [t2, Attempt.event]
  · have t1 : ¬ (f w).tryAgain = true := by simp [Attempt.tryAgain, h1]
    refine Or.inl ⟨by omega, ?_⟩
    rw [retryLoop]
    simp [t1, Attempt.event]

end signaling

/-! ## The claims on the track registry -/

/-- C21: `RemoveTrackFromRoom` is safe when the track is absent and idempotent: when the
room has no bucket, when the track is nil, or when no track is stored under the track's
ID (no entry, or a nil entry), the registry is unchanged; applying
`RemoveTrackFromRoom(roomID, t)` twice gives the registry that applying it once gives;
after removing the last track of a room the room has no bucket left; and in general the
removal takes exactly the entry under the track's ID out of the room's tracks. -/
theorem track.RemoveTrackFromRoom_idempotent (m : track.Manager) (roomID : String)
    (t : Option webrtc.TrackLocalStaticRTP) :
    (m.roomTracks.lookup roomID = none → m.RemoveTrackFromRoom roomID t = m) ∧
    (t = none → m.RemoveTrackFromRoom roomID t = m) ∧
    (∀ x rt, t = some x → m.roomTracks.lookup roomID = some rt →
      (rt.lookup x.id = none ∨ rt.lookup x.id = some none) →
      m.RemoveTrackFromRoom roomID t = m) ∧
    (m.RemoveTrackFromRoom roomID t).RemoveTrackFromRoom roomID t
      = m.RemoveTrackFromRoom roomID t ∧
    (∀ x rt stored, t = some x → m.roomTracks.lookup roomID = some rt →
      rt.lookup x.id = some (some stored) →
      (∀ k, k ≠ x.id → rt.lookup k = none) →
      (m.RemoveTrackFromRoom roomID t).roomTracks.lookup roomID = none) ∧
    (∀ x rt stored, t = some x → m.roomTracks.lookup roomID = some rt →
      rt.lookup x.id = some (some stored) →
      (∀ k, (((m.RemoveTrackFromRoom roomID t).GetTracksInRoom roomID).lookup k
        = if k = x.id then none else rt.lookup k))) := by
  refine ⟨?_, ?_, ?_, track.removeTrackFromRoom_twice m roomID t, ?_, ?_⟩
  · intro h
    unfold track.Manager.RemoveTrackFromRoom
    rw [h]
  · intro h
    subst h
    unfold track.Manager.RemoveTrackFromRoom
    cases m.roomTracks.lookup roomID <;> rfl
  · intro x rt hx hl h
    subst hx
    unfold track.Manager.RemoveTrackFromRoom
    rw [hl]
    dsimp only
    rcases h with h | h <;> rw [h]
  · intro x rt stored hx hl hs hothers
    subst hx
    have hempty : (rt.erase x.id).entries.length = 0 := by
      rw [List.length_eq_zero]
      cases he : (rt.erase x.id).entries with
      | nil => rfl
      | cons e rest =>
        exfalso
        have hmem : e.1 ∈ rt.erase x.id := by
          rw [AList.mem_keys, AList.keys, he]
          exact List.mem_cons_self _ _
        rw [AList.mem_erase] at hmem
        have := hothers e.1 hmem.1
        exact (AList.lookup_eq_none.1 this) hmem.2
    unfold track.Manager.RemoveTrackFromRoom
    rw [hl]
    dsimp only
    rw [hs]
    dsimp only
    rw [if_pos hempty]
    exact AList.lookup_erase _ _
  · intro x rt stored hx hl hs k
    subst hx
    unfold track.Manager.RemoveTrackFromRoom track.Manager.GetTracksInRoom
    rw [hl]
    dsimp only
    rw [hs]
    dsimp only
    by_cases hlen : (rt.erase x.id).entries.length = 0
    · rw [if_pos hlen]
      dsimp only
      rw [AList.lookup_erase]
      dsimp only
      have hnil : (rt.erase x.id).entries = [] := List.length_eq_zero.1 hlen
      by_cases hk : k = x.id
      · rw [if_pos hk]; rfl
      · rw [if_neg hk]
        have h1 : (rt.erase x.id).lookup k = rt.lookup k := AList.lookup_erase_ne hk
        rw [← h1]
        have : k ∉ rt.erase x.id := by
          rw [AList.mem_keys, AList.keys, hnil]
          exact List.not_mem_nil _
        rw [AList.lookup_eq_none.2 this]
        rfl
    · rw [if_neg hlen]
      dsimp only
      rw [AList.lookup_insert]
      dsimp only
      by_cases hk : k = x.id
      · rw [if_pos hk, hk]; exact AList.lookup_erase _ _
      · rw [if_neg hk]; exact AList.lookup_erase_ne hk

/-- C21, at a concrete input: removing track "z", which room "r1" does not hold, leaves
the registry as it is. -/
theorem track.RemoveTrackFromRoom_idempotent_witness :
    signaling.demo.trackManager.RemoveTrackFromRoom "r1" (some ⟨"z", "s", "opus"⟩)
      = signaling.demo.trackManager :=
  (track.RemoveTrackFromRoom_idempotent signaling.demo.trackManager "r1"
    (some ⟨"z", "s", "opus"⟩)).2.2.1 ⟨"z", "s", "opus"⟩ signaling.twoTracks rfl rfl
    (Or.inl (by decide))

/-- C22: when allocation succeeds, `AddTrackToRoom(roomID, t)` returns a local track with
the track ID, stream ID and codec of `t`, the room has a bucket afterwards (created if
it did not exist), `GetTrackInRoom(roomID, t.ID)` returns that local track and
`GetTracksInRoom(roomID)` holds it under key `t.ID`, the other entries of the room being
unchanged; when allocation fails it returns nil and the registry is unchanged. -/
theorem track.AddTrackToRoom_contract (m : track.Manager) (roomID : String)
    (t : webrtc.TrackRemote) :
    (∃ trackLocal, (m.AddTrackToRoom none roomID t).2 = some trackLocal ∧
      trackLocal.id = t.id ∧ trackLocal.streamID = t.streamID ∧ trackLocal.codec = t.codec ∧
      (∃ rt, (m.AddTrackToRoom none roomID t).1.roomTracks.lookup roomID = some rt) ∧
      (m.AddTrackToRoom none roomID t).1.GetTrackInRoom roomID t.id = (some trackLocal, true) ∧
      ((m.AddTrackToRoom none roomID t).1.GetTracksInRoom roomID).lookup t.id
        = some (some trackLocal) ∧
      (∀ k, k ≠ t.id → ((m.AddTrackToRoom none roomID t).1.GetTracksInRoom roomID).lookup k
        = (m.GetTracksInRoom roomID).lookup k)) ∧
    (∀ e, m.AddTrackToRoom (some e) roomID t = (m, none)) := by
  refine ⟨⟨⟨t.id, t.streamID, t.codec⟩, rfl, rfl, rfl, rfl, ⟨_, AList.lookup_insert _⟩, ?_, ?_, ?_⟩,
    fun e => rfl⟩
  · unfold track.Manager.AddTrackToRoom track.Manager.GetTrackInRoom
    dsimp only
    rw [AList.lookup_insert]
    dsimp only
    rw [AList.lookup_insert]
  · unfold track.Manager.AddTrackToRoom track.Manager.GetTracksInRoom
    dsimp only
    rw [AList.lookup_insert]
    dsimp only
    rw [AList.lookup_insert]
  · intro k hk
    unfold track.Manager.AddTrackToRoom track.Manager.GetTracksInRoom
    dsimp only
    rw [AList.lookup_insert]
    dsimp only
    rw [AList.lookup_insert_ne hk]
    cases m.roomTracks.lookup roomID <;> rfl

/-- C22, at a concrete input: a failing allocation returns nil and changes nothing. -/
theorem track.AddTrackToRoom_contract_witness :
    signaling.demo.trackManager.AddTrackToRoom (some (GoError.library "codec")) "r1"
        ⟨"z", "s", "opus"⟩ = (signaling.demo.trackManager, none) :=
  (track.AddTrackToRoom_contract signaling.demo.trackManager "r1" ⟨"z", "s", "opus"⟩).2
    (GoError.library "codec")

/-! ## The claim on the RTP forwarder -/

/-- C23: the RTP forwarder: for packets of at most 1500 bytes returned by successive reads
whose writes succeed, `forwardRTPPackets` writes each packet once, in the order read,
with exactly the bytes read; when the next read fails it returns that error and has
written nothing more; when the write of the next packet fails it returns that error, this
write being its last; and while no read fails it has not returned. -/
theorem websocket.forwardRTPPackets_forwards (h : websocket.Handler)
    (writeErr : Nat → List websocket.Byte → Option GoError)
    (packets : List (List websocket.Byte))
    (tail : List (Except GoError (List websocket.Byte)))
    (hsize : ∀ p ∈ packets, p.length ≤ 1500)
    (hwrites : ∀ i p, packets.get? i = some p → writeErr i p = none) :
    (∀ e, tail.head? = some (.error e) →
      h.forwardRTPPackets writeErr (packets.map .ok ++ tail) = ⟨packets, some e⟩) ∧
    (∀ p e, tail.head? = some (.ok p) → p.length ≤ 1500 →
      writeErr packets.length p = some e →
      h.forwardRTPPackets writeErr (packets.map .ok ++ tail) = ⟨packets ++ [p], some e⟩) ∧
    (tail = [] →
      h.forwardRTPPackets writeErr (packets.map .ok ++ tail) = ⟨packets, none⟩) := by
  obtain ⟨buf1, hb, hloop⟩ := websocket.forwardLoop_packets writeErr packets tail
    (List.replicate websocket.bufferSize 0) []
    (fun p hp => by rw [List.length_replicate]; exact hsize p hp)
    (fun i p hp => by simpa using hwrites i p hp)
  rw [List.length_replicate] at hb
  unfold websocket.Handler.forwardRTPPackets
  rw [hloop, List.nil_append]
  refine ⟨?_, ?_, ?_⟩
  · intro e he
    cases tail with
    | nil => cases he
    | cons x rest =>
      cases he
      rw [websocket.forwardLoop]
  · intro p e he hp hwe
    cases tail with
    | nil => cases he
    | cons x rest =>
      cases he
      obtain ⟨-, b2⟩ := websocket.buffer_after_read buf1 p (by rw [hb]; exact hp)
      rw [websocket.forwardLoop]
      rw [b2, hwe]
  · intro ht
    subst ht
    rw [websocket.forwardLoop]

/-- C23, at a concrete input: two packets are written as read, the read error ends the
loop, and the read after it is never made. -/
theorem websocket.forwardRTPPackets_forwards_witness :
    websocket.Handler.forwardRTPPackets websocket.fullHandler (fun _ _ => none)
        [.ok [1, 2, 3], .ok [4], .error (GoError.library "EOF"), .ok [5]]
      = ⟨[[1, 2, 3], [4]], some (GoError.library "EOF")⟩ :=
  (websocket.forwardRTPPackets_forwards websocket.fullHandler (fun _ _ => none)
    [[1, 2, 3], [4]] [.error (GoError.library "EOF"), .ok [5]] (by decide)
    (fun _ _ _ => rfl)).1 (GoError.library "EOF") rfl

/-! ## The claims on offers, failure isolation and retries -/

/-- C24: on a stable peer with a control channel, `processPeerConnection` returns no error
when no library call fails; and whenever it returns no error, it creates one offer, sets
it as local description and writes exactly one `offer` message (the marshalled offer) to
the control channel if at least one sender was added or removed or the connection state
is `new`, and otherwise creates no offer and writes nothing.  Nothing is removed exactly
when every sender is nil, without track or carries a room track; nothing is added
exactly when every non-nil room track has its key among the track IDs of the peer's
senders and receivers.  So a `new` peer gets an offer even when the room has no tracks,
and a peer that is not `new` and needs no track change gets none. -/
theorem signaling.processPeerConnection_offer (c : Coordinator) (lib : Library)
    (clientID : String) (pc : PeerConnection) (conn : room.JSONWriter)
    (tracks : GoMap (Option TrackLocalStaticRTP)) (roomID : String)
    (hstable : pc.signalingState = .Stable) :
    ((∀ p i, lib.removeTrackErr p i = none) → (∀ p t, lib.addTrackErr p t = none) →
      (∀ p, ∃ offer, lib.createOffer p = .ok offer) →
      (∀ p offer, lib.setLocalDescriptionErr p offer = none) →
      (∀ offer, ∃ data, lib.jsonMarshal offer = .ok data) →
      (∀ w msg, lib.writeJSONErr w msg = none) →
      (c.processPeerConnection lib clientID pc (some conn) tracks roomID).err = none) ∧
    ((c.processPeerConnection lib clientID pc (some conn) tracks roomID).err = none →
      (((c.processPeerConnection lib clientID pc (some conn) tracks roomID).added ≠ [] ∨
        (c.processPeerConnection lib clientID pc (some conn) tracks roomID).removed ≠ [] ∨
        pc.connectionState = .New) →
        ∃ offer data, lib.jsonMarshal offer = .ok data ∧
          (c.processPeerConnection lib clientID pc (some conn) tracks roomID).offers = [offer] ∧
          (c.processPeerConnection lib clientID pc (some conn) tracks
            roomID).pc.localDescription = some offer ∧
          (c.processPeerConnection lib clientID pc (some conn) tracks
            roomID).pc.signalingState = .HaveLocalOffer ∧
          (c.processPeerConnection lib clientID pc (some conn) tracks roomID).written
            = [(conn, { Event := "offer", Data := data })]) ∧
      (¬ ((c.processPeerConnection lib clientID pc (some conn) tracks roomID).added ≠ [] ∨
        (c.processPeerConnection lib clientID pc (some conn) tracks roomID).removed ≠ [] ∨
        pc.connectionState = .New) →
        (c.processPeerConnection lib clientID pc (some conn) tracks roomID).offers = [] ∧
        (c.processPeerConnection lib clientID pc (some conn) tracks roomID).written = [] ∧
        (c.processPeerConnection lib clientID pc (some conn) tracks roomID).pc.localDescription
          = pc.localDescription ∧
        (c.processPeerConnection lib clientID pc (some conn) tracks
          roomID).pc.signalingState = .Stable) ∧
      ((c.processPeerConnection lib clientID pc (some conn) tracks roomID).removed = [] ↔
        ∀ s ∈ pc.senders, Kept tracks s) ∧
      ((c.processPeerConnection lib clientID pc (some conn) tracks roomID).added = [] ↔
        ∀ k t, (⟨k, some t⟩ : Sigma fun _ : String => Option TrackLocalStaticRTP)
            ∈ tracks.entries →
          k ∈ senderTrackIDs pc.senders ++ receiverTrackIDs pc.receivers)) := by
  have hrem := removeObsolete_removed lib tracks pc pc.senders [] []
  have hremok := fun h => removeObsolete_no_failure lib tracks pc h pc.senders [] []
  unfold Coordinator.processPeerConnection
  rw [if_neg (by simp [hstable])]
  rcases hrm : removeObsolete lib tracks pc [] pc.senders [] with ⟨senders, removed, e⟩
  rw [hrm] at hrem hremok
  cases e with
  | some e =>
    dsimp only
    refine ⟨fun h1 _ _ _ _ _ => ?_, fun h => by cases h⟩
    have := hremok h1
    cases this
  | none =>
    dsimp only
    have hrem' : removed = [] ↔ ∀ s ∈ pc.senders, Kept tracks s := by
      have := hrem rfl
      simpa using this
    obtain ⟨f1, f2, f3⟩ := addMissing_fields lib
      (senderTrackIDs pc.senders ++ receiverTrackIDs pc.receivers) tracks.entries
      { pc with senders := senders } []
    obtain ⟨new, g1, -, g3, g4⟩ := addMissing_spec lib
      (senderTrackIDs pc.senders ++ receiverTrackIDs pc.receivers) tracks.entries
      { pc with senders := senders } []
    have haddok := fun h => addMissing_no_failure lib
      (senderTrackIDs pc.senders ++ receiverTrackIDs pc.receivers) h tracks.entries
      { pc with senders := senders } []
    rcases ham : addMissing lib (senderTrackIDs pc.senders ++ receiverTrackIDs pc.receivers)
      tracks.entries { pc with senders := senders } [] with ⟨pc2, added, e2⟩
    rw [ham] at f1 f2 f3 g1 g4 haddok
    dsimp only at f1 f2 f3 g1 g4 haddok
    rw [List.nil_append] at g1
    subst g1
    cases e2 with
    | some e2 =>
      dsimp only
      refine ⟨fun _ h2 _ _ _ _ => ?_, fun h => by cases h⟩
      have := haddok h2
      cases this
    | none =>
      dsimp only
      have hadd' : added = [] ↔
          ∀ k t, (⟨k, some t⟩ : Sigma fun _ : String => Option TrackLocalStaticRTP)
              ∈ tracks.entries →
            k ∈ senderTrackIDs pc.senders ++ receiverTrackIDs pc.receivers := by
        constructor
        · intro h0 k t hmem
          by_contra hk
          have := g4 rfl k t hmem hk
          rw [h0] at this
          cases this
        · intro hall
          rw [List.eq_nil_iff_forall_not_mem]
          intro t ht
          obtain ⟨k, hk1, hk2⟩ := g3 t ht
          exact hk2 (hall k t hk1)
      by_cases hcond : added.length = 0 ∧ removed.length = 0 ∧ pc2.connectionState ≠ .New
      · rw [if_pos hcond]
        dsimp only
        obtain ⟨c1, c2, c3⟩ := hcond
        have a0 : added = [] := List.length_eq_zero.1 c1
        have r0 : removed = [] := List.length_eq_zero.1 c2
        rw [f1] at c3
        refine ⟨fun _ _ _ _ _ _ => rfl, fun _ => ⟨?_, fun _ => ⟨rfl, rfl, f3, ?_⟩, hrem', hadd'⟩⟩
        · rintro (h | h | h)
          · exact absurd a0 h
          · exact absurd r0 h
          · exact absurd h c3
        · rw [f2]; exact hstable
      · rw [if_neg hcond]
        obtain ⟨s1, s2, s3, s4, s5⟩ := sendOffer_fields lib clientID pc2 (some conn) removed added
        refine ⟨fun _ _ h3 h4 h5 h6 => sendOffer_no_failure lib clientID pc2 conn removed added
          h3 h4 h5 h6, fun hok => ?_⟩
        obtain ⟨offer, data, -, hjm, o1, o2, o3⟩ := sendOffer_ok lib clientID pc2 conn removed
          added hok
        rw [s4, s5]
        refine ⟨fun _ => ⟨offer, data, hjm, o1, by rw [o2]; rfl, by rw [o2]; rfl, o3⟩, ?_,
          hrem', hadd'⟩
        intro hnot
        exfalso
        apply hcond
        rw [f1]
        refine ⟨?_, ?_, ?_⟩
        · by_contra h
          exact hnot (Or.inl (fun h0 => h (by rw [h0]; rfl)))
        · by_contra h
          exact hnot (Or.inr (Or.inl (fun h0 => h (by rw [h0]; rfl))))
        · intro h
          exact hnot (Or.inr (Or.inr h))

/-- C24, at a concrete input: a peer in the `new` state gets an offer although the room
has no tracks. -/
theorem signaling.processPeerConnection_offer_witness :
    ∃ offer data, Library.reliable.jsonMarshal offer = .ok data ∧
      (idle.processPeerConnection Library.reliable "A" (joinedPeer "a") (some ⟨11⟩) ∅
        "r1").offers = [offer] ∧
      (idle.processPeerConnection Library.reliable "A" (joinedPeer "a") (some ⟨11⟩) ∅
        "r1").pc.localDescription = some offer ∧
      (idle.processPeerConnection Library.reliable "A" (joinedPeer "a") (some ⟨11⟩) ∅
        "r1").pc.signalingState = .HaveLocalOffer ∧
      (idle.processPeerConnection Library.reliable "A" (joinedPeer "a") (some ⟨11⟩) ∅
        "r1").written = [(⟨11⟩, { Event := "offer", Data := data })] :=
  ((signaling.processPeerConnection_offer idle Library.reliable "A" (joinedPeer "a") ⟨11⟩ ∅
    "r1" rfl).2 rfl).1 (Or.inr (Or.inr rfl))

/-- C25: per-peer failure isolation in one attempt of `SignalPeerConnectionsInRoom`: the
clients handed to `processPeerConnection` are, in the order of the snapshot, exactly
those whose peer is not nil, neither closed nor failed, and has a control channel, each
of them exactly once and whatever the other peers do; every peer of the snapshot is
either passed over as closed or failed or counted once as success or failure; and round
by round (the loop goes on with the remaining peers after every round): a nil peer and a
peer without control channel add one failure, a closed or failed peer changes nothing, a
reconciled peer adds one success when `processPeerConnection` returns nil and one failure
when it returns an error. -/
theorem signaling.attemptSync_isolates_peers (c : Coordinator) (lib : Library)
    (roomID : String) (peerMap : GoMap (Option PeerConnectionRef))
    (connectionMap : GoMap (Option room.JSONWriter)) (w : World) :
    (c.attemptSync lib roomID peerMap connectionMap w).processed
      = (peerMap.entries.filter (Reconciled connectionMap w.heap)).map (fun e => e.1) ∧
    (∀ clientID ref wsConn, peerMap.lookup clientID = some (some ref) →
      closedOrFailed (w.heap ref) = false →
      connectionMap.lookup clientID = some (some wsConn) →
      (c.attemptSync lib roomID peerMap connectionMap w).processed.count clientID = 1) ∧
    (∀ clientID, clientID ∈ (c.attemptSync lib roomID peerMap connectionMap w).processed →
      ∃ ref wsConn, peerMap.lookup clientID = some (some ref) ∧
        closedOrFailed (w.heap ref) = false ∧
        connectionMap.lookup clientID = some (some wsConn)) ∧
    (c.attemptSync lib roomID peerMap connectionMap w).syncSuccess
      + (c.attemptSync lib roomID peerMap connectionMap w).syncErrors
      + (peerMap.entries.filter (Passed w.heap)).length = peerMap.entries.length ∧
    (∀ pre clientID v post, peerMap.entries = pre ++ ⟨clientID, v⟩ :: post →
      c.attemptSync lib roomID peerMap connectionMap w
        = c.syncPeers lib roomID connectionMap (c.trackManager.GetTracksInRoom roomID) post
            (c.syncPeers lib roomID connectionMap (c.trackManager.GetTracksInRoom roomID)
              [⟨clientID, v⟩]
              (c.syncPeers lib roomID connectionMap (c.trackManager.GetTracksInRoom roomID) pre
                { world := w, syncSuccess := 0, syncErrors := 0, processed := [] })) ∧
      ∀ ref, closedOrFailed
          ((c.syncPeers lib roomID connectionMap (c.trackManager.GetTracksInRoom roomID) pre
            { world := w, syncSuccess := 0, syncErrors := 0, processed := [] }).world.heap ref)
        = closedOrFailed (w.heap ref)) ∧
    (∀ (a : Attempt) (clientID : String),
      c.syncPeers lib roomID connectionMap (c.trackManager.GetTracksInRoom roomID)
          [⟨clientID, none⟩] a = { a with syncErrors := a.syncErrors + 1 } ∧
      (∀ ref, closedOrFailed (a.world.heap ref) = true →
        c.syncPeers lib roomID connectionMap (c.trackManager.GetTracksInRoom roomID)
          [⟨clientID, some ref⟩] a = a) ∧
      (∀ ref, closedOrFailed (a.world.heap ref) = false →
        (∀ wsConn, connectionMap.lookup clientID ≠ some (some wsConn)) →
        c.syncPeers lib roomID connectionMap (c.trackManager.GetTracksInRoom roomID)
          [⟨clientID, some ref⟩] a = { a with syncErrors := a.syncErrors + 1 }) ∧
      (∀ ref wsConn, closedOrFailed (a.world.heap ref) = false →
        connectionMap.lookup clientID = some (some wsConn) →
        c.syncPeers lib roomID connectionMap (c.trackManager.GetTracksInRoom roomID)
          [⟨clientID, some ref⟩] a
          = { world :=
                { heap := Function.update a.world.heap ref
                    (c.processPeerConnection lib clientID (a.world.heap ref) (some wsConn)
                      (c.trackManager.GetTracksInRoom roomID) roomID).pc
                  written := a.world.written ++
                    (c.processPeerConnection lib clientID (a.world.heap ref) (some wsConn)
                      (c.trackManager.GetTracksInRoom roomID) roomID).written }
              syncSuccess :=
                if (c.processPeerConnection lib clientID (a.world.heap ref) (some wsConn)
                    (c.trackManager.GetTracksInRoom roomID) roomID).err = none
                then a.syncSuccess + 1 else a.syncSuccess
              syncErrors :=
                if (c.processPeerConnection lib clientID (a.world.heap ref) (some wsConn)
                    (c.trackManager.GetTracksInRoom roomID) roomID).err = none
                then a.syncErrors else a.syncErrors + 1
              processed := a.processed ++ [clientID] })) := by
  obtain ⟨-, h2, h3⟩ := syncPeers_summary c lib roomID connectionMap
    (c.trackManager.GetTracksInRoom roomID) peerMap.entries
    { world := w, syncSuccess := 0, syncErrors := 0, processed := [] }
  have hproc : (c.attemptSync lib roomID peerMap connectionMap w).processed
      = (peerMap.entries.filter (Reconciled connectionMap w.heap)).map (fun e => e.1) := by
    unfold Coordinator.attemptSync
    rw [h2]
    rfl
  have hnodup : ((peerMap.entries.filter (Reconciled connectionMap w.heap)).map
      (fun e => e.1)).Nodup := by
    have hsub : ((peerMap.entries.filter (Reconciled connectionMap w.heap)).map
        (fun e => e.1)).Sublist (peerMap.entries.map (fun e => e.1)) :=
      List.Sublist.map _ (List.filter_sublist _)
    exact List.Nodup.sublist hsub peerMap.nodupKeys
  refine ⟨hproc, ?_, ?_, ?_, ?_, fun a clientID => syncPeers_one c lib roomID connectionMap
    (c.trackManager.GetTracksInRoom roomID) a clientID⟩
  · intro clientID ref wsConn hp hcf hws
    rw [hproc]
    apply List.count_eq_one_of_mem hnodup
    rw [List.mem_map]
    refine ⟨⟨clientID, some ref⟩, ?_, rfl⟩
    rw [List.mem_filter]
    refine ⟨AList.mem_lookup_iff.1 hp, ?_⟩
    simp [Reconciled, hcf, hws]
  · intro clientID hmem
    rw [hproc, List.mem_map] at hmem
    obtain ⟨⟨k, v⟩, hmem, hk⟩ := hmem
    dsimp only at hk
    subst hk
    rw [List.mem_filter] at hmem
    obtain ⟨hin, hr⟩ := hmem
    cases v with
    | none => simp [Reconciled] at hr
    | some ref =>
      cases hws : connectionMap.lookup k with
      | none => simp [Reconciled, hws] at hr
      | some ws =>
        cases ws with
        | none => simp [Reconciled, hws] at hr
        | some wsConn =>
          refine ⟨ref, wsConn, AList.mem_lookup_iff.2 hin, ?_, rfl⟩
          simpa [Reconciled, hws] using hr
  · unfold Coordinator.attemptSync
    have := h3
    simpa using this
  · intro pre clientID v post hentries
    constructor
    · unfold Coordinator.attemptSync
      rw [hentries, syncPeers_append, syncPeers_cons]
    · intro ref
      obtain ⟨g1, -, -⟩ := syncPeers_summary c lib roomID connectionMap
        (c.trackManager.GetTracksInRoom roomID) pre
        { world := w, syncSuccess := 0, syncErrors := 0, processed := [] }
      unfold closedOrFailed
      rw [g1 ref]

/-- C25, at a concrete input: in room "r1" client "A" is reconciled exactly once. -/
theorem signaling.attemptSync_isolates_peers_witness :
    (demo.attemptSync Library.reliable "r1" demoRoom.PeerConnections demoRoom.Connections
      demoWorld).processed.count "A" = 1 :=
  (signaling.attemptSync_isolates_peers demo Library.reliable "r1" demoRoom.PeerConnections
    demoRoom.Connections demoWorld).2.1 "A" 1 ⟨11⟩ (by decide) (by decide) (by decide)

/-- C26: bounded retry: one call of `SignalPeerConnectionsInRoom` makes at most three
reconciliation attempts; none when the room is unknown (it returns the registry's error)
or the peer snapshot is empty; otherwise the second attempt is made only when the first
counted a failed peer and comes after a sleep of 100 ms, the third only when the second
counted a failed peer and comes after a sleep of 300 ms, and after the third attempt the
call gives up. -/
theorem signaling.SignalPeerConnectionsInRoom_bounded (c : Coordinator) (lib : Library)
    (roomID : String) (w : World) :
    ((c.SignalPeerConnectionsInRoom lib roomID w).events.filter Event.isAttempt).length ≤ 3 ∧
    (c.roomManager.rooms.lookup roomID = none →
      c.SignalPeerConnectionsInRoom lib roomID w
        = { world := w, events := [], err := some (GoError.roomDoesNotExist roomID) }) ∧
    (∀ peerMap, c.roomManager.GetPeersInRoom roomID = .ok peerMap → peerMap.entries = [] →
      c.SignalPeerConnectionsInRoom lib roomID w = { world := w, events := [], err := none }) ∧
    (∀ peerMap connectionMap, c.roomManager.GetPeersInRoom roomID = .ok peerMap →
      c.roomManager.GetConnectionsInRoom roomID = .ok connectionMap → peerMap.entries ≠ [] →
      ∀ a1 a2 a3 : Attempt,
        a1 = c.attemptSync lib roomID peerMap connectionMap w →
        a2 = c.attemptSync lib roomID peerMap connectionMap a1.world →
        a3 = c.attemptSync lib roomID peerMap connectionMap a2.world →
        (a1.syncErrors = 0 ∧
          c.SignalPeerConnectionsInRoom lib roomID w
            = { world := a1.world, events := [a1.event], err := none }) ∨
        (a1.syncErrors > 0 ∧ a2.syncErrors = 0 ∧
          c.SignalPeerConnectionsInRoom lib roomID w
            = { world := a2.world
                events := [a1.event, Event.sleep (100 * Millisecond), a2.event]
                err := none }) ∨
        (a1.syncErrors > 0 ∧ a2.syncErrors > 0 ∧
          c.SignalPeerConnectionsInRoom lib roomID w
            = { world := a3.world
                events := [a1.event, Event.sleep (100 * Millisecond), a2.event,
                  Event.sleep (300 * Millisecond), a3.event]
                err := none })) := by
  have hshape : ∀ peerMap connectionMap, c.roomManager.GetPeersInRoom roomID = .ok peerMap →
      c.roomManager.GetConnectionsInRoom roomID = .ok connectionMap → peerMap.entries ≠ [] →
      c.SignalPeerConnectionsInRoom lib roomID w
        = { world := (retryLoop (c.attemptSync lib roomID peerMap connectionMap) backoffs w []).1
            events := (retryLoop (c.attemptSync lib roomID peerMap connectionMap) backoffs w []).2
            err := none } := by
    intro peerMap connectionMap hp hc hne
    unfold Coordinator.SignalPeerConnectionsInRoom
    rw [hp, hc]
    dsimp only
    rw [if_neg (fun h => hne (List.length_eq_zero.1 h))]
  refine ⟨?_, ?_, ?_, ?_⟩
  · cases hp : c.roomManager.GetPeersInRoom roomID with
    | error e =>
      unfold Coordinator.SignalPeerConnectionsInRoom
      rw [hp]
      simp
    | ok peerMap =>
      cases hc : c.roomManager.GetConnectionsInRoom roomID with
      | error e =>
        unfold Coordinator.SignalPeerConnectionsInRoom
        rw [hp, hc]
        simp
      | ok connectionMap =>
        by_cases hne : peerMap.entries = []
        · unfold Coordinator.SignalPeerConnectionsInRoom
          rw [hp, hc]
          dsimp only
          rw [if_pos (by rw [hne]; rfl)]
          simp
        · rw [hshape peerMap connectionMap hp hc hne]
          rcases retryLoop_backoffs (c.attemptSync lib roomID peerMap connectionMap) w with
            ⟨-, h⟩ | ⟨-, -, h⟩ | ⟨-, -, h⟩
          · rw [h]; simp [Event.isAttempt, Attempt.event]
          · rw [h]; simp [Event.isAttempt, Attempt.event]
          · rw [h]; simp [Event.isAttempt, Attempt.event]
  · intro hl
    unfold Coordinator.SignalPeerConnectionsInRoom room.Manager.GetPeersInRoom
    rw [hl]
  · intro peerMap hp hnil
    unfold Coordinator.SignalPeerConnectionsInRoom
    rw [hp]
    dsimp only
    cases hc : c.roomManager.GetConnectionsInRoom roomID with
    | error e =>
      exfalso
      unfold room.Manager.GetPeersInRoom at hp
      unfold room.Manager.GetConnectionsInRoom at hc
      cases hl : c.roomManager.rooms.lookup roomID with
      | none => rw [hl] at hp; cases hp
      | some rm => rw [hl] at hc; cases hc
    | ok connectionMap =>
      dsimp only
      rw [if_pos (by rw [hnil]; rfl)]
  · intro peerMap connectionMap hp hc hne a1 a2 a3 h1 h2 h3
    subst h1
    subst h2
    subst h3
    rw [hshape peerMap connectionMap hp hc hne]
    rcases retryLoop_backoffs (c.attemptSync lib roomID peerMap connectionMap) w with
      ⟨g, h⟩ | ⟨g1, g2, h⟩ | ⟨g1, g2, h⟩
    · exact Or.inl ⟨g, by rw [h]⟩
    · exact Or.inr (Or.inl ⟨g1, g2, by rw [h]⟩)
    · exact Or.inr (Or.inr ⟨g1, g2, by rw [h]⟩)

/-- C26, at a concrete input: for a room the registry does not know, no attempt is made
and the error of the registry is returned. -/
theorem signaling.SignalPeerConnectionsInRoom_bounded_witness :
    (idle.SignalPeerConnectionsInRoom Library.reliable "r1" demoWorld).events = [] ∧
    (idle.SignalPeerConnectionsInRoom Library.reliable "r1" demoWorld).err
      = some (GoError.roomDoesNotExist "r1") :=
  ⟨congrArg Signal.events
      ((signaling.SignalPeerConnectionsInRoom_bounded idle Library.reliable "r1"
        demoWorld).2.1 rfl),
   congrArg Signal.err
      ((signaling.SignalPeerConnectionsInRoom_bounded idle Library.reliable "r1"
        demoWorld).2.1 rfl)⟩

/-! ## The claims on the index, on registration and on admission -/

/-- C27: index consistency: in every registry state reachable from an empty registry by
any sequence of `RegisterServer`, `ValidateClientJoin`, `AddPeerToRoom`,
`RemovePeerFromRoom` and `CleanupEmptyRooms`, a room ID occurs in the index entry of a
server if and only if the room exists and is owned by that server, each such room ID
occurs exactly once (the entries have no duplicates), and no server has an empty index
entry. -/
theorem room.reachable_index_consistent (m : room.Manager) (hreach : room.Reachable m) :
    (∀ s r, r ∈ m.roomsOf s ↔ ∃ rm, m.rooms.lookup r = some rm ∧ rm.ServerID = s) ∧
    (∀ s r, r ∈ m.roomsOf s → (m.roomsOf s).count r = 1) ∧
    (∀ s, (m.roomsOf s).Nodup) ∧
    (∀ s l, m.serverToRooms.lookup s = some l → l ≠ []) := by
  have h : m.IndexConsistent ∧ m.NoEmptyEntry := by
    induction hreach with
    | new debug =>
      refine ⟨room.indexConsistent_NewManager debug, ?_⟩
      intro s l hl
      simp [room.NewManager] at hl
    | step m op _ ih => exact room.wellIndexed_apply m op ih
  obtain ⟨h1, h2⟩ := h
  have hiff : ∀ s r, r ∈ m.roomsOf s ↔ ∃ rm, m.rooms.lookup r = some rm ∧ rm.ServerID = s := by
    intro s r
    have hsr := h1 s r
    constructor
    · intro hmem
      have hpos : 0 < (m.roomsOf s).count r := List.count_pos_iff.2 hmem
      by_cases hown : (m.rooms.lookup r).map (fun rm => rm.ServerID) = some s
      · cases hl : m.rooms.lookup r with
        | none => rw [hl] at hown; cases hown
        | some rm =>
          rw [hl] at hown
          exact ⟨rm, rfl, by simpa using hown⟩
      · rw [if_neg hown] at hsr
        omega
    · rintro ⟨rm, hl, hs⟩
      rw [hl] at hsr
      have hown : Option.map (fun rm => rm.ServerID) (some rm) = some s := by simp [hs]
      rw [if_pos hown] at hsr
      exact List.count_pos_iff.1 (by omega)
  have hone : ∀ s r, r ∈ m.roomsOf s → (m.roomsOf s).count r = 1 := by
    intro s r hmem
    obtain ⟨rm, hl, hs⟩ := (hiff s r).1 hmem
    have hsr := h1 s r
    rw [hl] at hsr
    have hown : Option.map (fun rm => rm.ServerID) (some rm) = some s := by simp [hs]
    rw [if_pos hown] at hsr
    exact hsr
  refine ⟨hiff, hone, ?_, h2⟩
  intro s
  rw [List.nodup_iff_count_le_one]
  intro r
  have hsr := h1 s r
  rw [hsr]
  split <;> omega

/-- C27, at a concrete input: in the registry reached by two registrations and the
seating of "A", the index entry of "s1" has no duplicates. -/
theorem room.reachable_index_consistent_witness :
    (room.withPeer.roomsOf "s1").Nodup :=
  (room.reachable_index_consistent room.withPeer room.reachable_withPeer).2.2.1 "s1"

/-- C28: `RegisterServer` is not atomic on a room-ownership failure: when `serverID` is
unregistered and `roomID` exists with another owner, the call returns the error "room
... already exists for different server", yet afterwards `serverID` is registered with
the password given (the other registrations, the rooms and the server->rooms index are
unchanged); so a `ValidateClientJoin` for a room that does not exist yet, which failed
with "not registered" before the call, succeeds after it and creates the room. -/
theorem room.RegisterServer_not_atomic (m : room.Manager) (now : Time)
    (serverID password roomID : String) (rm : room.Room)
    (hunregistered : m.registeredServers.lookup serverID = none)
    (hroom : m.rooms.lookup roomID = some rm) (hother : rm.ServerID ≠ serverID) :
    (m.RegisterServer now serverID password roomID).2
      = some (GoError.roomExistsForDifferentServer roomID) ∧
    (m.RegisterServer now serverID password roomID).1.registeredServers.lookup serverID
      = some password ∧
    (∀ s, s ≠ serverID →
      (m.RegisterServer now serverID password roomID).1.registeredServers.lookup s
        = m.registeredServers.lookup s) ∧
    (m.RegisterServer now serverID password roomID).1.rooms = m.rooms ∧
    (m.RegisterServer now serverID password roomID).1.serverToRooms = m.serverToRooms ∧
    (∀ (later : Time) (newRoomID : String), m.rooms.lookup newRoomID = none →
      (m.ValidateClientJoin later newRoomID serverID password).2
        = some (GoError.serverNotRegistered serverID) ∧
      ((m.RegisterServer now serverID password roomID).1.ValidateClientJoin later newRoomID
        serverID password).2 = none ∧
      ((m.RegisterServer now serverID password roomID).1.ValidateClientJoin later newRoomID
        serverID password).1.rooms.lookup newRoomID
          = some (room.newRoom later newRoomID serverID)) := by
  have hreg : m.RegisterServer now serverID password roomID
      = ({ m with registeredServers := m.registeredServers.insert serverID password },
          some (GoError.roomExistsForDifferentServer roomID)) := by
    unfold room.Manager.RegisterServer room.Manager.checkServer
    rw [hunregistered]
    dsimp only
    rw [hroom]
    dsimp only
    rw [if_pos hother]
  rw [hreg]
  refine ⟨rfl, AList.lookup_insert _, fun s hs => AList.lookup_insert_ne hs, rfl, rfl, ?_⟩
  intro later newRoomID hnew
  refine ⟨?_, ?_, ?_⟩
  · unfold room.Manager.ValidateClientJoin
    rw [hunregistered]
  · unfold room.Manager.ValidateClientJoin
    dsimp only
    rw [AList.lookup_insert]
    dsimp only
    rw [if_neg (by simp), hnew]
  · unfold room.Manager.ValidateClientJoin
    dsimp only
    rw [AList.lookup_insert]
    dsimp only
    rw [if_neg (by simp), hnew]
    dsimp only
    exact room.lookup_createRoom_self _ _ _ _

/-- C28, at a concrete input: server "s3" asks for room "r1" of server "s1"; the call
fails and "s3" is registered. -/
theorem room.RegisterServer_not_atomic_witness :
    (room.twoServers.RegisterServer 5 "s3" "p3" "r1").2
      = some (GoError.roomExistsForDifferentServer "r1") ∧
    (room.twoServers.RegisterServer 5 "s3" "p3" "r1").1.registeredServers.lookup "s3"
      = some "p3" :=
  ⟨(room.RegisterServer_not_atomic room.twoServers 5 "s3" "p3" "r1"
      (room.newRoom 0 "r1" "s1") (by decide) rfl (by decide)).1,
   (room.RegisterServer_not_atomic room.twoServers 5 "s3" "p3" "r1"
      (room.newRoom 0 "r1" "s1") (by decide) rfl (by decide)).2.1⟩

/-- C29: validation runs before the capacity check and its side effect is kept: with
`MaxPeers > 0` and `TotalPeers() >= MaxPeers`, a join with valid credentials for a room
that does not exist yet is rejected for capacity (the "server full" error, the "no seats
left" message), and the registry the handler leaves behind is the one in which the
validation created the room: the room is there, owned by the given server, without
peers, and listed in the server's index entry. -/
theorem websocket.handleClientConnection_keeps_created_room (h : websocket.Handler)
    (now later : Time) (conn : room.JSONWriter) (clientID : String)
    (joinData : types.ClientJoinData) (created : Except GoError webrtc.PeerConnectionRef)
    (hregistered : h.roomManager.registeredServers.lookup joinData.ServerID
      = some joinData.ServerPassword)
    (hnew : h.roomManager.rooms.lookup joinData.RoomID = none)
    (hmax : h.config.MaxPeers > 0)
    (hfull : (h.roomManager.TotalPeers : Int) ≥ h.config.MaxPeers) :
    (h.handleClientConnection now later conn clientID joinData created).err
      = some (GoError.serverFull h.roomManager.TotalPeers h.config.MaxPeers) ∧
    (h.handleClientConnection now later conn clientID joinData created).sent
      = [{ Event := types.EventRoomError
           Data := websocket.capacityMessage h.roomManager.TotalPeers h.config.MaxPeers }] ∧
    (h.handleClientConnection now later conn clientID joinData created).roomManager
      = h.roomManager.createRoom now joinData.RoomID joinData.ServerID ∧
    (h.handleClientConnection now later conn clientID joinData created).roomManager.rooms.lookup
      joinData.RoomID = some (room.newRoom now joinData.RoomID joinData.ServerID) ∧
    (room.newRoom now joinData.RoomID joinData.ServerID).ServerID = joinData.ServerID ∧
    (room.newRoom now joinData.RoomID joinData.ServerID).peerCount = 0 ∧
    joinData.RoomID ∈
      (h.handleClientConnection now later conn clientID joinData created).roomManager.roomsOf
        joinData.ServerID := by
  have hv : h.roomManager.ValidateClientJoin now joinData.RoomID joinData.ServerID
      joinData.ServerPassword
        = (h.roomManager.createRoom now joinData.RoomID joinData.ServerID, none) := by
    unfold room.Manager.ValidateClientJoin
    rw [hregistered]
    dsimp only
    rw [if_neg (by simp), hnew]
  have htotal := room.totalPeers_createRoom h.roomManager now joinData.RoomID joinData.ServerID
    hnew
  have hj : h.handleClientConnection now later conn clientID joinData created
      = ⟨h.roomManager.createRoom now joinData.RoomID joinData.ServerID,
          [{ Event := types.EventRoomError
             Data := websocket.capacityMessage h.roomManager.TotalPeers h.config.MaxPeers }],
          some (GoError.serverFull h.roomManager.TotalPeers h.config.MaxPeers)⟩ := by
    unfold websocket.Handler.handleClientConnection
    rw [hv]
    dsimp only
    rw [htotal, if_pos ⟨hmax, hfull⟩]
  rw [hj]
  refine ⟨rfl, rfl, rfl, room.lookup_createRoom_self _ _ _ _, rfl, rfl, ?_⟩
  dsimp only
  rw [room.roomsOf_createRoom_self]
  simp

/-- C29, at a concrete input: the full server turns the client away, and room "r9", which
the validation created, is in the registry. -/
theorem websocket.handleClientConnection_keeps_created_room_witness :
    (websocket.fullHandler.handleClientConnection 3 4 ⟨12⟩ "B" ⟨"r9", "s1", "p1", "t"⟩
      (.ok 2)).roomManager.rooms.lookup "r9" = some (room.newRoom 3 "r9" "s1") :=
  (websocket.handleClientConnection_keeps_created_room websocket.fullHandler 3 4 ⟨12⟩ "B"
    ⟨"r9", "s1", "p1", "t"⟩ (.ok 2) (by decide) (by decide) (by decide) (by decide)).2.2.2.1

/-! ## The claim on tracks with the same ID -/

/-- C30: tracks are keyed by ID only: `AddTrackToRoom(roomID, t)` with a track ID under
which the room already stores a local track `old` replaces the stored track by the new
one (the number of tracks of the room and its other entries are unchanged), and
`RemoveTrackFromRoom(roomID, old)` then deletes the entry under that ID, although the
track stored there is the newer one, so that `GetTrackInRoom(roomID, id)` finds nothing
afterwards. -/
theorem track.keyed_by_id_only (m : track.Manager) (roomID : String) (t : webrtc.TrackRemote)
    (old : webrtc.TrackLocalStaticRTP) (rt : GoMap (Option webrtc.TrackLocalStaticRTP))
    (hroom : m.roomTracks.lookup roomID = some rt) (hstored : rt.lookup t.id = some (some old))
    (hid : old.id = t.id) :
    (m.AddTrackToRoom none roomID t).1.GetTrackInRoom roomID t.id
      = (some ⟨t.id, t.streamID, t.codec⟩, true) ∧
    ((m.AddTrackToRoom none roomID t).1.GetTracksInRoom roomID).entries.length
      = (m.GetTracksInRoom roomID).entries.length ∧
    (∀ k, k ≠ t.id → ((m.AddTrackToRoom none roomID t).1.GetTracksInRoom roomID).lookup k
      = (m.GetTracksInRoom roomID).lookup k) ∧
    ((m.AddTrackToRoom none roomID t).1.RemoveTrackFromRoom roomID (some old)).GetTrackInRoom
      roomID t.id = (none, false) := by
  have hl : (m.AddTrackToRoom none roomID t).1.roomTracks.lookup roomID
      = some (rt.insert t.id (some ⟨t.id, t.streamID, t.codec⟩)) := by
    unfold track.Manager.AddTrackToRoom
    dsimp only
    rw [AList.lookup_insert, hroom]
    rfl
  have hget : m.GetTracksInRoom roomID = rt := by
    unfold track.Manager.GetTracksInRoom
    rw [hroom]
  have hget2 : (m.AddTrackToRoom none roomID t).1.GetTracksInRoom roomID
      = rt.insert t.id (some ⟨t.id, t.streamID, t.codec⟩) := by
    unfold track.Manager.GetTracksInRoom
    rw [hl]
  refine ⟨?_, ?_, ?_, ?_⟩
  · unfold track.Manager.GetTrackInRoom
    rw [hl]
    dsimp only
    rw [AList.lookup_insert]
  · rw [hget, hget2]
    exact track.length_insert_of_mem rt t.id _
      (AList.lookup_isSome.1 (by rw [hstored]; rfl))
  · intro k hk
    rw [hget, hget2]
    exact AList.lookup_insert_ne hk
  · unfold track.Manager.RemoveTrackFromRoom
    rw [hl]
    dsimp only
    rw [hid, AList.lookup_insert]
    dsimp only
    unfold track.Manager.GetTrackInRoom
    by_cases hlen : ((rt.insert t.id (some ⟨t.id, t.streamID, t.codec⟩)).erase t.id).entries.length
        = 0
    · rw [if_pos hlen]
      dsimp only
      rw [AList.lookup_erase]
    · rw [if_neg hlen]
      dsimp only
      rw [AList.lookup_insert]
      dsimp only
      rw [AList.lookup_erase]

/-- C30, at a concrete input: room "r1" holds track "a" of stream "s"; a second track "a",
of stream "s2", replaces it, and removing the first one then leaves no track "a". -/
theorem track.keyed_by_id_only_witness :
    ((signaling.demo.trackManager.AddTrackToRoom none "r1"
        ⟨"a", "s2", "opus"⟩).1.RemoveTrackFromRoom "r1"
        (some ⟨"a", "s", "opus"⟩)).GetTrackInRoom "r1" "a" = (none, false) :=
  (track.keyed_by_id_only signaling.demo.trackManager "r1" ⟨"a", "s2", "opus"⟩
    ⟨"a", "s", "opus"⟩ signaling.twoTracks rfl (by decide) rfl).2.2.2
